import Mathlib

/-!
# Dual-write pool and migration validator

A shallow embedding of the migration packages of the repository:

* `webook/pkg/gormx/connpool/double_write_pool.go` : the pool that routes every
  statement to the source store, the destination store, or both;
* `webook/pkg/migrator/validator/validator.go` : the forward and reverse scans
  that compare a base store with a target store;
* `webook/pkg/migrator/fixer/fixer.go` and `events/fixer/consumer.go` : the
  repair of one row of the target from the base;
* `webook/pkg/migrator/scheduler/scheduler.go` : the operator actions that build
  validators and start and stop validation runs.

Go values are embedded as follows.  A Go `error` is `Option Error` (`none` is
`nil`).  A pointer or interface that may be `nil` is an `Option`.  A call on an
external collaborator (a `gorm.ConnPool`, a `*sql.Tx`, a `*gorm.DB`, the event
producer, the logger) is an explicit effect on a world value: the call is
appended to a trace and its answer is read from an oracle, so that the theorems
hold for every behaviour of the collaborator.  A Go panic is `Outcome.panic`.
The `context.Context` argument is handed through to the collaborators unchanged
and is left out of the embedding.
-/

/-- Sentinel errors that the code under study compares against, and any other error. -/
inductive Error where
  /-- The package variable `errUnknownPattern` of connpool. -/
  | errUnknownPattern
  /-- The value `context.Canceled`. -/
  | canceled
  /-- The value `context.DeadlineExceeded`. -/
  | deadlineExceeded
  /-- The value `gorm.ErrRecordNotFound`. -/
  | errRecordNotFound
  /-- Every other error value. -/
  | other (msg : String)
  deriving DecidableEq, Repr

/-- Result of a Go call that either returns or panics. -/
inductive Outcome (α : Type) where
  | ok (a : α)
  | panic (msg : String)
  deriving DecidableEq, Repr

namespace connpool

/-! ## Pattern constants (double_write_pool.go, lines 153-158) -/

def PatternSrcOnly : String := "src_only"
def PatternSrcFirst : String := "src_first"
def PatternDstFirst : String := "dst_first"
def PatternDstOnly : String := "dst_only"

/-- The two underlying pools of a `DoubleWritePool`: field `src` and field `dst`. -/
inductive Side where
  | src
  | dst
  deriving DecidableEq, Repr

/-- A `sql.Result`. -/
structure SqlResult where
  lastInsertId : Int
  rowsAffected : Int
  deriving DecidableEq, Repr

/-- A `*sql.Rows` result set. -/
abbrev SqlRows := List (List String)

/-- A `*sql.Row`. -/
abbrev SqlRow := List String

/-- A `*sql.TxOptions`. -/
structure TxOptions where
  isolation : Nat
  readOnly : Bool
  deriving DecidableEq, Repr

/-- A `*sql.Tx` that was opened on one of the two stores. -/
structure SqlTx where
  side : Side
  id : Nat
  deriving DecidableEq, Repr

/-- One call that reached an underlying store or one of its transactions. -/
inductive Call where
  | execContext (s : Side) (query : String) (args : List String)
  | queryContext (s : Side) (query : String) (args : List String)
  | queryRowContext (s : Side) (query : String) (args : List String)
  | beginTx (s : Side) (opts : Option TxOptions)
  | txExecContext (tx : SqlTx) (query : String) (args : List String)
  | txQueryContext (tx : SqlTx) (query : String) (args : List String)
  | txQueryRowContext (tx : SqlTx) (query : String) (args : List String)
  | txCommit (tx : SqlTx)
  | txRollback (tx : SqlTx)
  deriving DecidableEq, Repr

/-- The store of a call. -/
def Call.side : Call → Side
  | .execContext s _ _ => s
  | .queryContext s _ _ => s
  | .queryRowContext s _ _ => s
  | .beginTx s _ => s
  | .txExecContext tx _ _ => tx.side
  | .txQueryContext tx _ _ => tx.side
  | .txQueryRowContext tx _ _ => tx.side
  | .txCommit tx => tx.side
  | .txRollback tx => tx.side

/-- Behaviour of the two underlying stores.  Every answer may depend on the
whole trace of calls made before it, so a store may fail at any moment. -/
structure Stores where
  execContext : Side → String → List String → List Call → Option SqlResult × Option Error
  queryContext : Side → String → List String → List Call → Option SqlRows × Option Error
  queryRowContext : Side → String → List String → List Call → SqlRow
  beginTx : Side → Option TxOptions → List Call → Option SqlTx × Option Error
  txExecContext : SqlTx → String → List String → List Call → Option SqlResult × Option Error
  txQueryContext : SqlTx → String → List String → List Call → Option SqlRows × Option Error
  txQueryRowContext : SqlTx → String → List String → List Call → SqlRow
  txCommit : SqlTx → List Call → Option Error
  txRollback : SqlTx → List Call → Option Error

/-- What is observable outside the pool: the calls that reached the stores, in
order, and the messages handed to `l.Error`. -/
structure World where
  calls : List Call
  logs : List String
  deriving DecidableEq, Repr

/-- A world in which nothing has happened yet. -/
def World.empty : World := ⟨[], []⟩

/-- Record a call on a store. -/
def World.call (w : World) (c : Call) : World := { w with calls := w.calls ++ [c] }

/-- The effect of `d.l.Error(msg, ...)`. -/
def World.logError (w : World) (msg : String) : World := { w with logs := w.logs ++ [msg] }

/-- The pool.  Fields `src`, `dst` and `l` are the two sides of `Stores` and the
log of `World`; `pattern` is the content of the atomic cell. -/
structure DoubleWritePool where
  pattern : String
  deriving DecidableEq, Repr

/-- The composite transaction handle.  `src` and `dst` are `*sql.Tx` and may be nil;
`pattern` is a copy of the string read when the handle was built. -/
structure DoubleWriteTx where
  src : Option SqlTx
  dst : Option SqlTx
  pattern : String
  deriving DecidableEq, Repr

/-- `NewDoubleWritePool` (lines 160-168). -/
def NewDoubleWritePool : DoubleWritePool := { pattern := PatternSrcOnly }

/-- `DoubleWritePool.UpdatePattern` (lines 22-31): the returned error and the pool afterwards. -/
def DoubleWritePool.UpdatePattern (d : DoubleWritePool) (pattern : String) :
    Option Error × DoubleWritePool :=
  if pattern = PatternSrcOnly ∨ pattern = PatternSrcFirst ∨
      pattern = PatternDstOnly ∨ pattern = PatternDstFirst then
    (none, { d with pattern := pattern })
  else
    (some Error.errUnknownPattern, d)

/-- `d.src.ExecContext` or `d.dst.ExecContext` on an underlying pool. -/
def poolExec (st : Stores) (s : Side) (query : String) (args : List String) (w : World) :
    (Option SqlResult × Option Error) × World :=
  (st.execContext s query args w.calls, w.call (.execContext s query args))

/-- `QueryContext` on an underlying pool. -/
def poolQuery (st : Stores) (s : Side) (query : String) (args : List String) (w : World) :
    (Option SqlRows × Option Error) × World :=
  (st.queryContext s query args w.calls, w.call (.queryContext s query args))

/-- `QueryRowContext` on an underlying pool. -/
def poolQueryRow (st : Stores) (s : Side) (query : String) (args : List String) (w : World) :
    SqlRow × World :=
  (st.queryRowContext s query args w.calls, w.call (.queryRowContext s query args))

/-- `BeginTx` on an underlying pool, through `gorm.TxBeginner`. -/
def poolBeginTx (st : Stores) (s : Side) (opts : Option TxOptions) (w : World) :
    (Option SqlTx × Option Error) × World :=
  (st.beginTx s opts w.calls, w.call (.beginTx s opts))

/-- `DoubleWritePool.ExecContext` (lines 92-124). -/
def DoubleWritePool.ExecContext (d : DoubleWritePool) (st : Stores) (query : String)
    (args : List String) (w : World) : (Option SqlResult × Option Error) × World :=
  if d.pattern = PatternSrcOnly then
    poolExec st .src query args w
  else if d.pattern = PatternSrcFirst then
    match poolExec st .src query args w with
    | ((res, none), w1) =>
      match poolExec st .dst query args w1 with
      | ((_, some _), w2) => ((res, none), w2.logError "双写写入dst失败")
      | ((_, none), w2) => ((res, none), w2)
    | ((res, some err), w1) => ((res, some err), w1)
  else if d.pattern = PatternDstOnly then
    poolExec st .dst query args w
  else if d.pattern = PatternDstFirst then
    match poolExec st .dst query args w with
    | ((res, none), w1) =>
      match poolExec st .src query args w1 with
      | ((_, some _), w2) => ((res, none), w2.logError "双写写入src失败")
      | ((_, none), w2) => ((res, none), w2)
    | ((res, some err), w1) => ((res, some err), w1)
  else
    ((none, some Error.errUnknownPattern), w)

/-- `DoubleWritePool.QueryContext` (lines 127-137). -/
def DoubleWritePool.QueryContext (d : DoubleWritePool) (st : Stores) (query : String)
    (args : List String) (w : World) : (Option SqlRows × Option Error) × World :=
  if d.pattern = PatternSrcOnly ∨ d.pattern = PatternSrcFirst then
    poolQuery st .src query args w
  else if d.pattern = PatternDstOnly ∨ d.pattern = PatternDstFirst then
    poolQuery st .dst query args w
  else
    ((none, some Error.errUnknownPattern), w)

/-- `DoubleWritePool.QueryRowContext` (lines 139-151); the default case panics. -/
def DoubleWritePool.QueryRowContext (d : DoubleWritePool) (st : Stores) (query : String)
    (args : List String) (w : World) : Outcome SqlRow × World :=
  if d.pattern = PatternSrcOnly ∨ d.pattern = PatternSrcFirst then
    ((Outcome.ok (poolQueryRow st .src query args w).1), (poolQueryRow st .src query args w).2)
  else if d.pattern = PatternDstOnly ∨ d.pattern = PatternDstFirst then
    ((Outcome.ok (poolQueryRow st .dst query args w).1), (poolQueryRow st .dst query args w).2)
  else
    (Outcome.panic "未知的双写模式", w)

/-- `DoubleWritePool.BeginTx` (lines 32-84).  In the `PatternSrcFirst` case the
variable `err` is assigned again by the second `BeginTx` and is what the final
`return` hands back; the `PatternDstFirst` case returns a literal `nil`. -/
def DoubleWritePool.BeginTx (d : DoubleWritePool) (st : Stores) (opts : Option TxOptions)
    (w : World) : (Option DoubleWriteTx × Option Error) × World :=
  if d.pattern = PatternSrcOnly then
    match poolBeginTx st .src opts w with
    | ((src, err), w1) => ((some { src := src, dst := none, pattern := d.pattern }, err), w1)
  else if d.pattern = PatternSrcFirst then
    match poolBeginTx st .src opts w with
    | ((_, some err), w1) => ((none, some err), w1)
    | ((src, none), w1) =>
      match poolBeginTx st .dst opts w1 with
      | ((dst, some err), w2) =>
        ((some { src := src, dst := dst, pattern := d.pattern }, some err),
          w2.logError "双写目标表开启事务失败")
      | ((dst, none), w2) => ((some { src := src, dst := dst, pattern := d.pattern }, none), w2)
  else if d.pattern = PatternDstOnly then
    match poolBeginTx st .dst opts w with
    | ((dst, err), w1) => ((some { src := none, dst := dst, pattern := d.pattern }, err), w1)
  else if d.pattern = PatternDstFirst then
    match poolBeginTx st .dst opts w with
    | ((_, some err), w1) => ((none, some err), w1)
    | ((dst, none), w1) =>
      match poolBeginTx st .src opts w1 with
      | ((src, some _), w2) =>
        ((some { src := src, dst := dst, pattern := d.pattern }, none),
          w2.logError "双写源表开启事务失败")
      | ((src, none), w2) => ((some { src := src, dst := dst, pattern := d.pattern }, none), w2)
  else
    ((none, some Error.errUnknownPattern), w)

/-! ## The composite transaction (lines 173-319)

A method call on a nil `*sql.Tx` dereferences the nil pointer and panics. -/

/-- The panic raised by a method call on a nil `*sql.Tx`. -/
def nilTx : String := "invalid memory address or nil pointer dereference"

/-- `ExecContext` on a `*sql.Tx` field. -/
def sqlTxExec (st : Stores) (tx : Option SqlTx) (query : String) (args : List String)
    (w : World) : Outcome (Option SqlResult × Option Error) × World :=
  match tx with
  | none => (Outcome.panic nilTx, w)
  | some t => (Outcome.ok (st.txExecContext t query args w.calls), w.call (.txExecContext t query args))

/-- `QueryContext` on a `*sql.Tx` field. -/
def sqlTxQuery (st : Stores) (tx : Option SqlTx) (query : String) (args : List String)
    (w : World) : Outcome (Option SqlRows × Option Error) × World :=
  match tx with
  | none => (Outcome.panic nilTx, w)
  | some t =>
    (Outcome.ok (st.txQueryContext t query args w.calls), w.call (.txQueryContext t query args))

/-- `QueryRowContext` on a `*sql.Tx` field. -/
def sqlTxQueryRow (st : Stores) (tx : Option SqlTx) (query : String) (args : List String)
    (w : World) : Outcome SqlRow × World :=
  match tx with
  | none => (Outcome.panic nilTx, w)
  | some t =>
    (Outcome.ok (st.txQueryRowContext t query args w.calls),
      w.call (.txQueryRowContext t query args))

/-- `Commit` on a `*sql.Tx` field. -/
def sqlTxCommit (st : Stores) (tx : Option SqlTx) (w : World) : Outcome (Option Error) × World :=
  match tx with
  | none => (Outcome.panic nilTx, w)
  | some t => (Outcome.ok (st.txCommit t w.calls), w.call (.txCommit t))

/-- `Rollback` on a `*sql.Tx` field. -/
def sqlTxRollback (st : Stores) (tx : Option SqlTx) (w : World) : Outcome (Option Error) × World :=
  match tx with
  | none => (Outcome.panic nilTx, w)
  | some t => (Outcome.ok (st.txRollback t w.calls), w.call (.txRollback t))

/-- `DoubleWriteTx.ExecContext` (lines 184-216). -/
def DoubleWriteTx.ExecContext (d : DoubleWriteTx) (st : Stores) (query : String)
    (args : List String) (w : World) : Outcome (Option SqlResult × Option Error) × World :=
  if d.pattern = PatternSrcOnly then
    sqlTxExec st d.src query args w
  else if d.pattern = PatternSrcFirst then
    match sqlTxExec st d.src query args w with
    | (Outcome.panic m, w1) => (Outcome.panic m, w1)
    | (Outcome.ok (res, some err), w1) => (Outcome.ok (res, some err), w1)
    | (Outcome.ok (res, none), w1) =>
      match sqlTxExec st d.dst query args w1 with
      | (Outcome.panic m, w2) => (Outcome.panic m, w2)
      | (Outcome.ok (_, some _), w2) => (Outcome.ok (res, none), w2.logError "双写写入dst失败")
      | (Outcome.ok (_, none), w2) => (Outcome.ok (res, none), w2)
  else if d.pattern = PatternDstOnly then
    sqlTxExec st d.dst query args w
  else if d.pattern = PatternDstFirst then
    match sqlTxExec st d.dst query args w with
    | (Outcome.panic m, w1) => (Outcome.panic m, w1)
    | (Outcome.ok (res, some err), w1) => (Outcome.ok (res, some err), w1)
    | (Outcome.ok (res, none), w1) =>
      match sqlTxExec st d.src query args w1 with
      | (Outcome.panic m, w2) => (Outcome.panic m, w2)
      | (Outcome.ok (_, some _), w2) => (Outcome.ok (res, none), w2.logError "双写写入src失败")
      | (Outcome.ok (_, none), w2) => (Outcome.ok (res, none), w2)
  else
    (Outcome.ok (none, some Error.errUnknownPattern), w)

/-- `DoubleWriteTx.QueryContext` (lines 218-227). -/
def DoubleWriteTx.QueryContext (d : DoubleWriteTx) (st : Stores) (query : String)
    (args : List String) (w : World) : Outcome (Option SqlRows × Option Error) × World :=
  if d.pattern = PatternSrcOnly ∨ d.pattern = PatternSrcFirst then
    sqlTxQuery st d.src query args w
  else if d.pattern = PatternDstOnly ∨ d.pattern = PatternDstFirst then
    sqlTxQuery st d.dst query args w
  else
    (Outcome.ok (none, some Error.errUnknownPattern), w)

/-- `DoubleWriteTx.QueryRowContext` (lines 229-241). -/
def DoubleWriteTx.QueryRowContext (d : DoubleWriteTx) (st : Stores) (query : String)
    (args : List String) (w : World) : Outcome SqlRow × World :=
  if d.pattern = PatternSrcOnly ∨ d.pattern = PatternSrcFirst then
    sqlTxQueryRow st d.src query args w
  else if d.pattern = PatternDstOnly ∨ d.pattern = PatternDstFirst then
    sqlTxQueryRow st d.dst query args w
  else
    (Outcome.panic "未知的双写模式", w)

/-- `DoubleWriteTx.Commit` (lines 244-281). -/
def DoubleWriteTx.Commit (d : DoubleWriteTx) (st : Stores) (w : World) :
    Outcome (Option Error) × World :=
  if d.pattern = PatternSrcOnly then
    sqlTxCommit st d.src w
  else if d.pattern = PatternSrcFirst then
    match sqlTxCommit st d.src w with
    | (Outcome.panic m, w1) => (Outcome.panic m, w1)
    | (Outcome.ok (some err), w1) => (Outcome.ok (some err), w1)
    | (Outcome.ok none, w1) =>
      match d.dst with
      | none => (Outcome.ok none, w1)
      | some t =>
        match sqlTxCommit st (some t) w1 with
        | (Outcome.panic m, w2) => (Outcome.panic m, w2)
        | (Outcome.ok (some _), w2) => (Outcome.ok none, w2.logError "目标表提交事务失败")
        | (Outcome.ok none, w2) => (Outcome.ok none, w2)
  else if d.pattern = PatternDstFirst then
    match sqlTxCommit st d.dst w with
    | (Outcome.panic m, w1) => (Outcome.panic m, w1)
    | (Outcome.ok (some err), w1) => (Outcome.ok (some err), w1)
    | (Outcome.ok none, w1) =>
      match d.src with
      | none => (Outcome.ok none, w1)
      | some t =>
        match sqlTxCommit st (some t) w1 with
        | (Outcome.panic m, w2) => (Outcome.panic m, w2)
        | (Outcome.ok (some _), w2) => (Outcome.ok none, w2.logError "源表提交事务失败")
        | (Outcome.ok none, w2) => (Outcome.ok none, w2)
  else if d.pattern = PatternDstOnly then
    sqlTxCommit st d.dst w
  else
    (Outcome.ok (some Error.errUnknownPattern), w)

/-- `DoubleWriteTx.Rollback` (lines 284-319). -/
def DoubleWriteTx.Rollback (d : DoubleWriteTx) (st : Stores) (w : World) :
    Outcome (Option Error) × World :=
  if d.pattern = PatternSrcOnly then
    sqlTxRollback st d.src w
  else if d.pattern = PatternSrcFirst then
    match sqlTxRollback st d.src w with
    | (Outcome.panic m, w1) => (Outcome.panic m, w1)
    | (Outcome.ok (some err), w1) => (Outcome.ok (some err), w1)
    | (Outcome.ok none, w1) =>
      match d.dst with
      | none => (Outcome.ok none, w1)
      | some t =>
        match sqlTxRollback st (some t) w1 with
        | (Outcome.panic m, w2) => (Outcome.panic m, w2)
        | (Outcome.ok (some _), w2) => (Outcome.ok none, w2.logError "目标表回滚事务失败")
        | (Outcome.ok none, w2) => (Outcome.ok none, w2)
  else if d.pattern = PatternDstFirst then
    match sqlTxRollback st d.dst w with
    | (Outcome.panic m, w1) => (Outcome.panic m, w1)
    | (Outcome.ok (some err), w1) => (Outcome.ok (some err), w1)
    | (Outcome.ok none, w1) =>
      match d.src with
      | none => (Outcome.ok none, w1)
      | some t =>
        match sqlTxRollback st (some t) w1 with
        | (Outcome.panic m, w2) => (Outcome.panic m, w2)
        | (Outcome.ok (some _), w2) => (Outcome.ok none, w2.logError "源表回滚事务失败")
        | (Outcome.ok none, w2) => (Outcome.ok none, w2)
  else if d.pattern = PatternDstOnly then
    sqlTxRollback st d.dst w
  else
    (Outcome.ok (some Error.errUnknownPattern), w)

end connpool

namespace migrator

/-- The interface `migrator.Entity` (migrate.go).  `ID` is the primary key of the
row.  `CompareTo` is applied by the validator to a row of the same type. -/
class Entity (T : Type) where
  ID : T → Int
  CompareTo : T → T → Bool

end migrator

namespace events

/-- The struct `events.InconsistentEvent` (inconsistent.go); field `Type` is spelled `Typ`. -/
structure InconsistentEvent where
  ID : Int
  Direction : String
  Typ : String
  deriving DecidableEq, Repr

def InconsistentEventTypeTargetMissing : String := "target_missing"
def InconsistentEventTypeNEQ : String := "neq"
def InconsistentEventTypeTBaseMissing : String := "Base_missing"

end events

namespace validator

open migrator events

/-- Go `int` arithmetic on a 64-bit platform: the value wraps into the signed range. -/
def wrapInt (x : Int) : Int := (x + 2 ^ 63) % 2 ^ 64 - 2 ^ 63

/-- Go `len` of a slice, as an `int`. -/
def len {α : Type} (xs : List α) : Int := (xs.length : Int)

/-- The function value held in field `fromBase`. -/
inductive FromBase where
  | fullFromBase
  | incrFromBase
  deriving DecidableEq, Repr

/-- The struct `Validator[T]`.  Fields `base`, `target`, `l` and `producer` are the
collaborators of `Env` and the log of `Run`. -/
structure Validator where
  direction : String
  utime : Int
  batchSize : Int
  sleepInterval : Int
  fromBase : FromBase
  deriving DecidableEq, Repr

/-- `NewValidator` (lines 32-50). -/
def NewValidator (direction : String) : Validator :=
  { direction := direction, utime := 0, batchSize := 100, sleepInterval := 0,
    fromBase := FromBase.fullFromBase }

/-- `Validator.Full` (lines 54-57). -/
def Validator.Full (v : Validator) : Validator := { v with fromBase := FromBase.fullFromBase }

/-- `Validator.Incr` (lines 58-61). -/
def Validator.Incr (v : Validator) : Validator := { v with fromBase := FromBase.incrFromBase }

/-- `Validator.Utime` (lines 62-65). -/
def Validator.Utime (v : Validator) (time : Int) : Validator := { v with utime := time }

/-- `Validator.SleepInterval` (lines 66-69). -/
def Validator.SleepInterval (v : Validator) (interval : Int) : Validator :=
  { v with sleepInterval := interval }

/-- A `*gorm.DB` as the validator uses it: one answer for each of the four query
shapes the validator builds.  The first argument is the moment of the read (the
number of collaborator calls made before it), so a store may change or fail
between reads. -/
structure DB (T : Type) where
  /-- The query `Order("id").Offset(offset).First(&row)`. -/
  orderOffsetFirst : Nat → Int → Except Error T
  /-- The query `Where("id=?", id).First(&row)`. -/
  whereIdFirst : Nat → Int → Except Error T
  /-- The query `Select("id").Order("id").Offset(offset).Limit(limit).Find(&rows)`. -/
  selectIdOrderOffsetLimitFind : Nat → Int → Int → List T × Option Error
  /-- The query `Select("id").Where("id in ?", ids).Find(&rows)`. -/
  selectIdWhereInFind : Nat → List Int → List T × Option Error

/-- The collaborators of a validator: the two stores and the event producer
(`ProduceInconsistentEvent`, which returns an error or nil). -/
structure Env (T : Type) where
  base : DB T
  target : DB T
  producer : Nat → InconsistentEvent → Option Error

/-- A store read issued by a scan. -/
inductive Read where
  | baseFirst (offset : Int)
  | targetById (id : Int)
  | targetBatch (offset : Int) (limit : Int)
  | baseIn (ids : List Int)
  deriving DecidableEq, Repr

/-- What a scan has done so far: the number of collaborator calls, the store
reads, the events handed to the producer, the sleeps and the logged errors. -/
structure Run where
  clock : Nat
  reads : List Read
  events : List InconsistentEvent
  sleeps : List Int
  logs : List String
  deriving DecidableEq, Repr

/-- The state at the start of a scan. -/
def Run.start : Run := { clock := 0, reads := [], events := [], sleeps := [], logs := [] }

/-- Record a store read. -/
def Run.read (s : Run) (r : Read) : Run :=
  { s with clock := s.clock + 1, reads := s.reads ++ [r] }

/-- Record an event handed to the producer. -/
def Run.emit (s : Run) (e : InconsistentEvent) : Run :=
  { s with clock := s.clock + 1, events := s.events ++ [e] }

/-- The effect of `time.Sleep`. -/
def Run.sleep (s : Run) (d : Int) : Run :=
  { s with clock := s.clock + 1, sleeps := s.sleeps ++ [d] }

/-- The effect of `v.l.Error(msg, ...)`. -/
def Run.logError (s : Run) (msg : String) : Run := { s with logs := s.logs ++ [msg] }

/-- One pass through the body of a `for` loop: go round again with a new offset,
or return. -/
inductive Step where
  | next (offset : Int) (s : Run)
  | ret (err : Option Error) (s : Run)
  deriving DecidableEq, Repr

section scans

variable {T : Type} [Entity T]

/-- `Validator.fullFromBase` (lines 83-90). -/
def Validator.fullFromBase (_v : Validator) (env : Env T) (offset : Int) (s : Run) :
    Except Error T × Run :=
  (env.base.orderOffsetFirst s.clock offset, s.read (Read.baseFirst offset))

/-- `Validator.incrFromBase` (lines 93-101): the same query as `fullFromBase`. -/
def Validator.incrFromBase (_v : Validator) (env : Env T) (offset : Int) (s : Run) :
    Except Error T × Run :=
  (env.base.orderOffsetFirst s.clock offset, s.read (Read.baseFirst offset))

/-- The call `v.fromBase(ctx, offset)`. -/
def Validator.callFromBase (v : Validator) (env : Env T) (offset : Int) (s : Run) :
    Except Error T × Run :=
  match v.fromBase with
  | FromBase.fullFromBase => v.fullFromBase env offset s
  | FromBase.incrFromBase => v.incrFromBase env offset s

/-- `Validator.notify` (lines 220-234). -/
def Validator.notify (v : Validator) (env : Env T) (id : Int) (typ : String) (s : Run) : Run :=
  match env.producer s.clock { ID := id, Direction := v.direction, Typ := typ } with
  | none => s.emit { ID := id, Direction := v.direction, Typ := typ }
  | some _ =>
    (s.emit { ID := id, Direction := v.direction, Typ := typ }).logError
      "向kafka发送不一致消息失败"

/-- `Validator.notifyBaseMissing` (lines 213-217). -/
def Validator.notifyBaseMissing (v : Validator) (env : Env T) (ts : List T) (s : Run) : Run :=
  ts.foldl (fun acc val => v.notify env (Entity.ID val) InconsistentEventTypeTBaseMissing acc) s

/-- The body of the loop of `validateBaseToTarget` (lines 104-149). -/
def Validator.forwardIter (v : Validator) (env : Env T) (offset : Int) (s : Run) : Step :=
  match v.callFromBase env offset s with
  | (Except.error err, s1) =>
    if err = Error.canceled ∨ err = Error.deadlineExceeded then
      Step.ret none s1
    else if err = Error.errRecordNotFound then
      if v.sleepInterval ≤ 0 then Step.ret none s1
      else Step.next offset (s1.sleep v.sleepInterval)
    else
      Step.next (wrapInt (offset + 1)) (s1.logError "base=>target 查询base失败")
  | (Except.ok src, s1) =>
    match env.target.whereIdFirst s1.clock (Entity.ID src),
        s1.read (Read.targetById (Entity.ID src)) with
    | Except.error Error.errRecordNotFound, s2 =>
      Step.next (wrapInt (offset + 1))
        (v.notify env (Entity.ID src) InconsistentEventTypeTargetMissing s2)
    | Except.ok dstTS, s2 =>
      if Entity.CompareTo src dstTS then Step.next (wrapInt (offset + 1)) s2
      else Step.next (wrapInt (offset + 1)) (v.notify env (Entity.ID src) InconsistentEventTypeNEQ s2)
    | Except.error _, s2 =>
      Step.next (wrapInt (offset + 1)) (s2.logError "base=>target 查询target失败")

/-- The loop of `validateBaseToTarget`, run for at most `fuel` passes; `none` when
the loop has not returned within `fuel` passes. -/
def Validator.forwardLoop (v : Validator) (env : Env T) : Nat → Int → Run → Option (Option Error × Run)
  | 0, _, _ => none
  | fuel + 1, offset, s =>
    match v.forwardIter env offset s with
    | Step.ret err s1 => some (err, s1)
    | Step.next offset1 s1 => Validator.forwardLoop v env fuel offset1 s1

/-- `Validator.validateBaseToTarget` (lines 102-150): the returned error and the
final state of the scan. -/
def Validator.validateBaseToTarget (v : Validator) (env : Env T) (fuel : Nat) :
    Option (Option Error × Run) :=
  v.forwardLoop env fuel 0 Run.start

/-- The helper `deduplicateFunc` of the library package `ekit/slice`: an element
is kept when no later element is equal to it. -/
def deduplicateFunc {α : Type} (equal : α → α → Bool) : List α → List α
  | [] => []
  | v :: rest =>
    if rest.any (fun src => equal src v) then deduplicateFunc equal rest
    else v :: deduplicateFunc equal rest

/-- The library function `slice.DiffSetFunc` of `ekit`: the elements of `src`
that have no equal element in `dst`, without duplicates. -/
def DiffSetFunc {α : Type} (src dst : List α) (equal : α → α → Bool) : List α :=
  deduplicateFunc equal (src.filter (fun val => !dst.any (fun d => equal d val)))

/-- The body of the loop of `validateTargetToBase` (lines 155-209). -/
def Validator.reverseIter (v : Validator) (env : Env T) (offset : Int) (s : Run) : Step :=
  match env.target.selectIdOrderOffsetLimitFind s.clock offset v.batchSize,
      s.read (Read.targetBatch offset v.batchSize) with
  | (dstTS, err), s1 =>
    if err = some Error.deadlineExceeded ∨ err = some Error.canceled then
      Step.ret none s1
    else if err = some Error.errRecordNotFound ∨ len dstTS = 0 then
      if v.sleepInterval ≤ 0 then Step.ret none s1
      else Step.next offset (s1.sleep v.sleepInterval)
    else if err ≠ none then
      Step.next (wrapInt (offset + len dstTS)) (s1.logError "target=>base 查询target失败")
    else
      match env.base.selectIdWhereInFind s1.clock (dstTS.map Entity.ID),
          s1.read (Read.baseIn (dstTS.map Entity.ID)) with
      | (scrTS, err2), s2 =>
        if err2 = some Error.errRecordNotFound ∨ len scrTS = 0 then
          Step.next (wrapInt (offset + len dstTS)) (v.notifyBaseMissing env dstTS s2)
        else if err2 ≠ none then
          Step.next (wrapInt (offset + len dstTS)) (s2.logError "target=>base 查询base失败")
        else
          match v.notifyBaseMissing env
              (DiffSetFunc dstTS scrTS (fun src dst => decide (Entity.ID src = Entity.ID dst))) s2 with
          | s3 =>
            if len dstTS < v.batchSize then
              if v.sleepInterval ≤ 0 then Step.ret none s3
              else Step.next offset (s3.sleep v.sleepInterval)
            else
              Step.next (wrapInt (offset + len dstTS)) s3

/-- The loop of `validateTargetToBase`, run for at most `fuel` passes. -/
def Validator.reverseLoop (v : Validator) (env : Env T) : Nat → Int → Run → Option (Option Error × Run)
  | 0, _, _ => none
  | fuel + 1, offset, s =>
    match v.reverseIter env offset s with
    | Step.ret err s1 => some (err, s1)
    | Step.next offset1 s1 => Validator.reverseLoop v env fuel offset1 s1

/-- `Validator.validateTargetToBase` (lines 153-210). -/
def Validator.validateTargetToBase (v : Validator) (env : Env T) (fuel : Nat) :
    Option (Option Error × Run) :=
  v.reverseLoop env fuel 0 Run.start

/-! ### A table whose reads do not fail

The answers of a relational store that holds a fixed finite list of rows and
never fails.  `ORDER BY id` is a stable sort on the primary key; an offset that
is not positive is not sent to the store; a limit that is negative is not sent
either; `First` on an empty result is `gorm.ErrRecordNotFound`, `Find` on an
empty result is an empty slice and no error.  `sel` is the projection
`Select("id")`: the row as it is returned when only its id column is read. -/

/-- Rows in primary-key order. -/
def sortById (rows : List T) : List T :=
  rows.insertionSort (fun a b => Entity.ID a ≤ Entity.ID b)

/-- `OFFSET offset LIMIT limit` on a result list. -/
def offsetLimit {α : Type} (offset limit : Int) (rows : List α) : List α :=
  if limit < 0 then rows.drop offset.toNat else (rows.drop offset.toNat).take limit.toNat

/-- The first row with primary key `id`, in primary-key order. -/
def lookupById (rows : List T) (id : Int) : Option T :=
  (sortById rows).find? (fun r => decide (Entity.ID r = id))

/-- The store over the rows `rows`. -/
def tableDB (sel : T → T) (rows : List T) : DB T where
  orderOffsetFirst := fun _ offset =>
    match (sortById rows).get? offset.toNat with
    | some r => Except.ok r
    | none => Except.error Error.errRecordNotFound
  whereIdFirst := fun _ id =>
    match lookupById rows id with
    | some r => Except.ok r
    | none => Except.error Error.errRecordNotFound
  selectIdOrderOffsetLimitFind := fun _ offset limit =>
    ((offsetLimit offset limit (sortById rows)).map sel, none)
  selectIdWhereInFind := fun _ ids =>
    (((sortById rows).filter (fun r => decide (Entity.ID r ∈ ids))).map sel, none)

/-- A base table and a target table whose reads do not fail, with any producer. -/
def tableEnv (sel : T → T) (base target : List T)
    (producer : Nat → InconsistentEvent → Option Error) : Env T :=
  { base := tableDB sel base, target := tableDB sel target, producer := producer }

/-! ### What a scan is expected to report -/

/-- The event of type `typ` for row `r`, stamped with the direction of `v`. -/
def eventFor (v : Validator) (typ : String) (r : T) : InconsistentEvent :=
  { ID := Entity.ID r, Direction := v.direction, Typ := typ }

/-- The events one base row calls for, given the rows of the target: a
`target_missing` event when the target has no row with its id, a `neq` event when
the target row does not compare equal, nothing otherwise. -/
def forwardEventsOf (v : Validator) (target : List T) (r : T) : List InconsistentEvent :=
  match lookupById target (Entity.ID r) with
  | none => [eventFor v InconsistentEventTypeTargetMissing r]
  | some d =>
    if Entity.CompareTo r d then [] else [eventFor v InconsistentEventTypeNEQ r]

/-- A base row whose id is in the target and whose target row does not compare equal. -/
def mismatches (target : List T) (r : T) : Bool :=
  match lookupById target (Entity.ID r) with
  | none => false
  | some d => !Entity.CompareTo r d

end scans

/-- A two-column row used to run the scans on concrete tables. -/
structure Row where
  id : Int
  val : String
  deriving DecidableEq, Repr

instance : Entity Row where
  ID := fun r => r.id
  CompareTo := fun a b => decide (a = b)

/-- `Select("id")` on a `Row`: the other column holds its zero value. -/
def Row.selectId (r : Row) : Row := { id := r.id, val := "" }

end validator

namespace validator

open migrator events

/-! ### Scans that are observed before they return -/

/-- The state carried by a step. -/
def Step.state : Step → Run
  | Step.next _ s => s
  | Step.ret _ s => s

section passes

variable {T : Type} [Entity T]

/-- The loop of `validateBaseToTarget` after at most `n` passes: where the loop
stands (`Step.next`) or what it returned (`Step.ret`). -/
def Validator.forwardPasses (v : Validator) (env : Env T) : Nat → Int → Run → Step
  | 0, offset, s => Step.next offset s
  | n + 1, offset, s =>
    match v.forwardIter env offset s with
    | Step.ret err s1 => Step.ret err s1
    | Step.next offset1 s1 => Validator.forwardPasses v env n offset1 s1

/-- The loop of `validateTargetToBase` after at most `n` passes. -/
def Validator.reversePasses (v : Validator) (env : Env T) : Nat → Int → Run → Step
  | 0, offset, s => Step.next offset s
  | n + 1, offset, s =>
    match v.reverseIter env offset s with
    | Step.ret err s1 => Step.ret err s1
    | Step.next offset1 s1 => Validator.reversePasses v env n offset1 s1

end passes

end validator

namespace dao

open migrator

/-- The struct `dao.Interactive` (interactive/repository/dao/interactive.go, lines 231-243). -/
structure Interactive where
  Id : Int
  BizId : Int
  Biz : String
  ReadCnt : Int
  LikeCnt : Int
  CollectCnt : Int
  Utime : Int
  Ctime : Int
  deriving DecidableEq, Repr

/-- `Interactive.ID` (lines 249-251). -/
def Interactive.ID (i : Interactive) : Int := i.Id

/-- `Interactive.CompareTo` (lines 253-259) on an argument whose dynamic type is
`Interactive`, which is how the validator of `Interactive` rows calls it: the
type assertion succeeds and the result is `i == val`. -/
def Interactive.CompareTo (i : Interactive) (val : Interactive) : Bool := decide (i = val)

instance : Entity Interactive where
  ID := Interactive.ID
  CompareTo := Interactive.CompareTo

/-- `Select("id")` on an `Interactive`: every other field holds its zero value. -/
def Interactive.selectId (i : Interactive) : Interactive :=
  { Id := i.Id, BizId := 0, Biz := "", ReadCnt := 0, LikeCnt := 0, CollectCnt := 0,
    Utime := 0, Ctime := 0 }

end dao

namespace fixer

open connpool events

/-! ## The override fixer (fixer/fixer.go) and its consumer (events/fixer/consumer.go)

A row is seen the way gorm sees it, as the value of each column; the primary key
is the column `id`.  A table is its column names and its rows.  The two stores
of the migration are the table on the source side and the table on the
destination side.  Only conflicts on the primary key are modelled. -/

/-- A row: the value of each column. -/
abbrev Record := String → Int

/-- The primary key of a row. -/
def Record.ID (r : Record) : Int := r "id"

/-- A table. -/
structure Table where
  columns : List String
  rows : List Record

/-- The source table and the destination table. -/
structure DBs where
  src : Table
  dst : Table

/-- The table behind a `*gorm.DB`. -/
def DBs.get (d : DBs) : Side → Table
  | Side.src => d.src
  | Side.dst => d.dst

/-- The stores after the table behind a `*gorm.DB` has changed. -/
def DBs.set (d : DBs) (s : Side) (t : Table) : DBs :=
  match s with
  | Side.src => { d with src := t }
  | Side.dst => { d with dst := t }

/-- The errors that the store operations of one call return: `none` where the
operation succeeds. -/
structure Faults where
  baseFirst : Option Error
  targetDelete : Option Error
  targetCreate : Option Error

/-- Every store operation succeeds. -/
def Faults.ok : Faults := { baseFirst := none, targetDelete := none,
                              targetCreate := none }

/-- The query `Where("id=?", id).First(&t)`. -/
def whereIdFirst (fault : Option Error) (t : Table) (id : Int) : Except Error Record :=
  match fault with
  | some e => Except.error e
  | none =>
    match t.rows.find? (fun r => decide (r.ID = id)) with
    | some r => Except.ok r
    | none => Except.error Error.errRecordNotFound

/-- The statement `Where("id=?", id).Delete(&t)`: the error and the table afterwards. -/
def whereIdDelete (fault : Option Error) (t : Table) (id : Int) : Option Error × Table :=
  match fault with
  | some e => (some e, t)
  | none =>
    (none, { columns := t.columns, rows := t.rows.filter (fun r => !decide (r.ID = id)) })

/-- The row left by `ON CONFLICT DO UPDATE SET c = VALUES(c)` for the columns
`columns`: those columns are taken from the new row, the others are kept. -/
def assignColumns (columns : List String) (old new : Record) : Record :=
  fun c => if c ∈ columns then new c else old c

/-- The rows after the update of every row that has the primary key of `r`. -/
def updateRows (columns : List String) (rows : List Record) (r : Record) : List Record :=
  rows.map (fun old => if old.ID = r.ID then assignColumns columns old r else old)

/-- The statement `Clauses(clause.OnConflict{DoUpdates: clause.AssignmentColumns(columns)}).Create(&r)`:
an insert, or an update of the row with the same primary key. -/
def createOnConflict (fault : Option Error) (columns : List String) (t : Table) (r : Record) :
    Option Error × Table :=
  match fault with
  | some e => (some e, t)
  | none =>
    if t.rows.any (fun old => decide (old.ID = r.ID)) then
      (none, { columns := t.columns, rows := updateRows columns t.rows r })
    else
      (none, { columns := t.columns, rows := t.rows ++ [r] })

/-- The struct `OverrideFixer[T]`; `base` and `target` name the store behind each handle. -/
structure OverrideFixer where
  base : Side
  target : Side
  columns : List String
  deriving DecidableEq, Repr

/-- `NewOverrideFixer` (lines 17-33).  `rowsErr` is the error of `Rows()`;
`columnsErr` is the error of `row.Columns()`, which the code drops, keeping the
nil column list that comes with it. -/
def NewOverrideFixer (rowsErr columnsErr : Option Error) (base target : Side) (dbs : DBs) :
    Option OverrideFixer × Option Error :=
  match rowsErr with
  | some err => (none, some err)
  | none =>
    match columnsErr with
    | some _ => (some { base := base, target := target, columns := [] }, none)
    | none =>
      (some { base := base, target := target, columns := (dbs.get base).columns }, none)

/-- `OverrideFixer.Fix` (lines 36-55): the returned error and the stores afterwards. -/
def OverrideFixer.Fix (f : OverrideFixer) (faults : Faults) (id : Int) (dbs : DBs) :
    Option Error × DBs :=
  match whereIdFirst faults.baseFirst (dbs.get f.base) id with
  | Except.error Error.errRecordNotFound =>
    ((whereIdDelete faults.targetDelete (dbs.get f.target) id).1,
      dbs.set f.target (whereIdDelete faults.targetDelete (dbs.get f.target) id).2)
  | Except.ok t =>
    ((createOnConflict faults.targetCreate f.columns (dbs.get f.target) t).1,
      dbs.set f.target (createOnConflict faults.targetCreate f.columns (dbs.get f.target) t).2)
  | Except.error err => (some err, dbs)

/-- The struct `Consumer[T]`. -/
structure Consumer where
  srcFirst : OverrideFixer
  dstFirst : OverrideFixer
  topic : String
  deriving DecidableEq, Repr

/-- `NewConsumer` (lines 27-50).  The four errors are those of the `Rows()` and
`Columns()` calls of the two `NewOverrideFixer` calls. -/
def NewConsumer (rowsErr1 columnsErr1 rowsErr2 columnsErr2 : Option Error) (dbs : DBs)
    (topic : String) : Option Consumer × Option Error :=
  match NewOverrideFixer rowsErr1 columnsErr1 Side.src Side.dst dbs with
  | (_, some err) => (none, some err)
  | (none, none) => (none, none)
  | (some srcFirst, none) =>
    match NewOverrideFixer rowsErr2 columnsErr2 Side.dst Side.src dbs with
    | (_, some err) => (none, some err)
    | (none, none) => (none, none)
    | (some dstFirst, none) =>
      (some { srcFirst := srcFirst, dstFirst := dstFirst, topic := topic }, none)

/-- `Consumer.Consume` (lines 70-81). -/
def Consumer.Consume (r : Consumer) (faults : Faults) (t : InconsistentEvent) (dbs : DBs) :
    Option Error × DBs :=
  if t.Direction = "SRC" then r.srcFirst.Fix faults t.ID dbs
  else if t.Direction = "DST" then r.dstFirst.Fix faults t.ID dbs
  else (some (Error.other "未知的校验方向"), dbs)

end fixer

namespace scheduler

open connpool validator

/-! ## The scheduler (scheduler/scheduler.go)

The operator actions hold the mutex and are single steps.  A goroutine spawned
by `StartIncrementValidation` runs its first statements as a later step of its
own.  A context is named by the order in which `context.WithCancel` made it. -/

/-- A `func()` held in `cancelFull` or `cancelIncr`: the empty function of
`NewScheduler`, or the cancel function of a context. -/
inductive CancelFunc where
  | noop
  | cancelOf (ctx : Nat)
  deriving DecidableEq, Repr

/-- A validator as `NewValidator(base, target, direction, ...)` builds it: the
store behind each handle and the configuration. -/
structure ValidatorOn where
  base : Side
  target : Side
  v : Validator
  deriving DecidableEq, Repr

/-- The struct `StartIncrRequest`. -/
structure StartIncrRequest where
  Utime : Int
  Interval : Int
  deriving DecidableEq, Repr

/-- The struct `ginx.Result`, without its data. -/
structure Result where
  Code : Int
  Msg : String
  deriving DecidableEq, Repr

/-- A goroutine that `StartIncrementValidation` has spawned and that has not run
yet: the captured variable `cancel` and the validator. -/
structure Goroutine where
  cancel : CancelFunc
  v : ValidatorOn
  deriving DecidableEq, Repr

/-- A call `Validate(ctx)` that has begun. -/
structure Running where
  ctx : Nat
  v : ValidatorOn
  deriving DecidableEq, Repr

/-- The struct `Scheduler[T]`, without its collaborators. -/
structure Scheduler where
  pattern : String
  cancelFull : CancelFunc
  cancelIncr : CancelFunc
  pool : DoubleWritePool
  deriving DecidableEq, Repr

/-- The scheduler and the part of the process around it: how many contexts have
been made, which of them have been cancelled, the goroutines that wait to run,
and the validation runs that have begun. -/
structure Sys where
  sched : Scheduler
  contexts : Nat
  cancelled : List Nat
  spawned : List Goroutine
  fullRuns : List Running
  incrRuns : List Running
  deriving DecidableEq, Repr

/-- `NewScheduler` (lines 46-68). -/
def NewScheduler (pool : DoubleWritePool) : Scheduler :=
  { pattern := PatternSrcOnly, cancelFull := CancelFunc.noop, cancelIncr := CancelFunc.noop,
    pool := pool }

/-- The process right after `NewScheduler`. -/
def Sys.init (pool : DoubleWritePool) : Sys :=
  { sched := NewScheduler pool, contexts := 0, cancelled := [], spawned := [],
    fullRuns := [], incrRuns := [] }

/-- A call of a stored cancel function. -/
def Sys.invoke (sys : Sys) : CancelFunc → Sys
  | CancelFunc.noop => sys
  | CancelFunc.cancelOf ctx =>
    if ctx ∈ sys.cancelled then sys else { sys with cancelled := sys.cancelled ++ [ctx] }

/-- `Scheduler.newValidator` (lines 142-151). -/
def Scheduler.newValidator (s : Scheduler) : Except Error ValidatorOn :=
  if s.pattern = PatternSrcOnly ∨ s.pattern = PatternSrcFirst then
    Except.ok { base := Side.src, target := Side.dst, v := NewValidator "SRC" }
  else if s.pattern = PatternDstFirst ∨ s.pattern = PatternDstOnly then
    Except.ok { base := Side.dst, target := Side.src, v := NewValidator "DST" }
  else
    Except.error (Error.other ("未知的 pattern " ++ s.pattern))

/-- `Scheduler.StartFullValidation` (lines 190-209).  The two statements that
would capture and call the previous cancel function are comments in the source. -/
def StartFullValidation (sys : Sys) : (Result × Option Error) × Sys :=
  match sys.sched.newValidator with
  | Except.error _ => (({ Code := 0, Msg := "" }, none), sys)
  | Except.ok v =>
    (({ Code := 0, Msg := "启动全量校验成功" }, none),
      { sys with
        sched := { sys.sched with cancelFull := CancelFunc.cancelOf sys.contexts },
        contexts := sys.contexts + 1,
        fullRuns := sys.fullRuns ++ [{ ctx := sys.contexts, v := { v with v := v.v.Full } }] })

/-- `Scheduler.StopFullValidation` (lines 210-217). -/
def StopFullValidation (sys : Sys) : (Result × Option Error) × Sys :=
  (({ Code := 0, Msg := "停止全量校验成功" }, none), sys.invoke sys.sched.cancelFull)

/-- `Scheduler.StartIncrementValidation` (lines 153-181), up to its return: the
goroutine is spawned with the captured `cancel` and has not run yet. -/
def StartIncrementValidation (sys : Sys) (req : StartIncrRequest) :
    (Result × Option Error) × Sys :=
  match sys.sched.newValidator with
  | Except.error err => (({ Code := 5, Msg := "系统异常" }, some err), sys)
  | Except.ok v =>
    (({ Code := 0, Msg := "启动增量校验成功" }, none),
      { sys with
        spawned := sys.spawned ++
          [{ cancel := sys.sched.cancelIncr,
             v := { v with v := ((v.v.Incr).Utime req.Utime).SleepInterval
                                  (wrapInt (req.Interval * 1000000)) } }] })

/-- The first statements of the goroutine of `StartIncrementValidation` (lines
170-174), for the `i`-th waiting goroutine: a new context is made and its cancel
function is stored in `cancelIncr`, the captured `cancel` is called, and
`Validate` begins. -/
def goroutineStart (sys : Sys) (i : Nat) : Sys :=
  match sys.spawned.get? i with
  | none => sys
  | some g =>
    let sys1 : Sys :=
      { sys with
        sched := { sys.sched with cancelIncr := CancelFunc.cancelOf sys.contexts },
        contexts := sys.contexts + 1,
        spawned := sys.spawned.eraseIdx i }
    let sys2 := sys1.invoke g.cancel
    { sys2 with incrRuns := sys2.incrRuns ++ [{ ctx := sys.contexts, v := g.v }] }

/-- `Scheduler.StopIncrementValidation` (lines 182-189). -/
def StopIncrementValidation (sys : Sys) : (Result × Option Error) × Sys :=
  (({ Code := 0, Msg := "停止增量校验成功" }, none), sys.invoke sys.sched.cancelIncr)

/-- A step of the process. -/
inductive Action where
  | startFull
  | stopFull
  | startIncr (req : StartIncrRequest)
  | stopIncr
  | goroutine (i : Nat)
  deriving DecidableEq, Repr

/-- The process after one step. -/
def Sys.step (sys : Sys) : Action → Sys
  | Action.startFull => (StartFullValidation sys).2
  | Action.stopFull => (StopFullValidation sys).2
  | Action.startIncr req => (StartIncrementValidation sys req).2
  | Action.stopIncr => (StopIncrementValidation sys).2
  | Action.goroutine i => goroutineStart sys i

/-- The process after a sequence of steps. -/
def Sys.run (sys : Sys) (steps : List Action) : Sys := steps.foldl Sys.step sys

/-- The runs of a list that have begun and whose context has not been cancelled. -/
def Sys.uncancelled (sys : Sys) (runs : List Running) : List Running :=
  runs.filter (fun r => decide (r.ctx ∉ sys.cancelled))

/-- The environment of a validator built by the scheduler over the two stores. -/
def envOn {T : Type} (src dst : DB T) (producer : Nat → events.InconsistentEvent → Option Error)
    (b : ValidatorOn) : Env T :=
  { base := match b.base with
            | Side.src => src
            | Side.dst => dst,
    target := match b.target with
              | Side.src => src
              | Side.dst => dst,
    producer := producer }

end scheduler

namespace scheduler

open connpool validator

/-! ### The pattern actions of the scheduler (scheduler.go, lines 83-131) -/

/-- The body shared by `SrcOnly`, `SrcFirst`, `DstFirst` and `DstOnly`: the
scheduler's pattern is assigned first, then the pool is updated, and an error of
the pool is returned with an empty result. -/
def setPattern (sys : Sys) (pattern : String) : (Result × Option Error) × Sys :=
  match sys.sched.pool.UpdatePattern pattern with
  | (some err, pool1) =>
    (({ Code := 0, Msg := "" }, some err),
      { sys with sched := { sys.sched with pattern := pattern, pool := pool1 } })
  | (none, pool1) =>
    (({ Code := 0, Msg := "OK" }, none),
      { sys with sched := { sys.sched with pattern := pattern, pool := pool1 } })

/-- `Scheduler.SrcFirst` (lines 83-94). -/
def SrcFirst (sys : Sys) : (Result × Option Error) × Sys := setPattern sys PatternSrcFirst

/-- `Scheduler.SrcOnly` (lines 95-106). -/
def SrcOnly (sys : Sys) : (Result × Option Error) × Sys := setPattern sys PatternSrcOnly

/-- `Scheduler.DstFirst` (lines 107-119). -/
def DstFirst (sys : Sys) : (Result × Option Error) × Sys := setPattern sys PatternDstFirst

/-- `Scheduler.DstOnly` (lines 120-131). -/
def DstOnly (sys : Sys) : (Result × Option Error) × Sys := setPattern sys PatternDstOnly

/-- One of the four pattern actions. -/
inductive PatternAction where
  | srcOnly
  | srcFirst
  | dstFirst
  | dstOnly
  deriving DecidableEq, Repr

/-- The constant that a pattern action stores. -/
def PatternAction.pattern : PatternAction → String
  | PatternAction.srcOnly => PatternSrcOnly
  | PatternAction.srcFirst => PatternSrcFirst
  | PatternAction.dstFirst => PatternDstFirst
  | PatternAction.dstOnly => PatternDstOnly

/-- The call of a pattern action. -/
def Sys.call (sys : Sys) : PatternAction → (Result × Option Error) × Sys
  | PatternAction.srcOnly => SrcOnly sys
  | PatternAction.srcFirst => SrcFirst sys
  | PatternAction.dstFirst => DstFirst sys
  | PatternAction.dstOnly => DstOnly sys

/-- The process after a sequence of pattern actions. -/
def Sys.calls (sys : Sys) (acts : List PatternAction) : Sys :=
  acts.foldl (fun s a => (s.call a).2) sys

end scheduler

namespace dao

/-- A value of interface type `migrator.Entity`: an `Interactive`, a pointer to
an `Interactive` (which has the methods of the value in its method set), or a
value of some other implementing type. -/
inductive EntityValue where
  | interactive (v : Interactive)
  | interactivePtr (v : Interactive)
  | other (typeName : String) (id : Int)
  deriving DecidableEq, Repr

/-- `Interactive.CompareTo` (lines 253-259) on any `migrator.Entity`: the type
assertion `dst.(Interactive)`, then `i == val`. -/
def Interactive.CompareToEntity (i : Interactive) (dst : EntityValue) : Bool :=
  match dst with
  | EntityValue.interactive val => decide (i = val)
  | _ => false

/-- A `sql.NullString`. -/
structure NullString where
  Str : String
  Valid : Bool
  deriving DecidableEq, Repr

/-- The struct `dao.User` (internal/repository/dao/user.go, lines 17-29). -/
structure User where
  Id : Int
  Email : NullString
  Password : String
  Phone : NullString
  Ctime : Int
  Utime : Int
  Nickname : String
  WechatUnionID : NullString
  WechatOpenID : NullString
  deriving DecidableEq, Repr

end dao

namespace domain

/-- A `time.Time`, as its Unix time in nanoseconds. -/
structure Time where
  unixNano : Int
  deriving DecidableEq, Repr

/-- `time.UnixMilli`. -/
def Time.ofUnixMilli (msec : Int) : Time := { unixNano := msec * 1000000 }

/-- `Time.UnixMilli`. -/
def Time.UnixMilli (t : Time) : Int := Int.fdiv t.unixNano 1000000

/-- The zero value `time.Time{}`: the first instant of the year 1, which is
62135596800 seconds before the Unix epoch. -/
def Time.zero : Time := { unixNano := -62135596800 * 1000000000 }

/-- Modelled from the spec: the struct `domain.WechatInfo`, whose declaration is
not among the sources; its two string fields are the ones the user repository
reads and writes. -/
structure WechatInfo where
  OpenId : String
  UnionId : String
  deriving DecidableEq, Repr

/-- The struct `domain.User` (internal/domain/user.go). -/
structure User where
  Id : Int
  Email : String
  Password : String
  Ctime : Time
  Phone : String
  WechatInfo : WechatInfo
  Nickname : String
  deriving DecidableEq, Repr

/-- The zero value `domain.User{}`; its `Ctime` is the zero `time.Time`. -/
def User.zero : User :=
  { Id := 0, Email := "", Password := "", Ctime := Time.zero, Phone := "",
    WechatInfo := { OpenId := "", UnionId := "" }, Nickname := "" }

end domain

namespace repository

/-! ## The user repository (internal/repository/user.go) -/

/-- `CacheUserRepository.entityToDomain` (lines 95-107). -/
def entityToDomain (u : dao.User) : domain.User :=
  { Id := u.Id,
    Email := u.Email.Str,
    Password := u.Password,
    Ctime := domain.Time.ofUnixMilli u.Ctime,
    Phone := u.Phone.Str,
    WechatInfo := { UnionId := u.WechatUnionID.Str, OpenId := u.WechatOpenID.Str },
    Nickname := "" }

/-- `CacheUserRepository.domainToEntity` (lines 108-130). -/
def domainToEntity (u : domain.User) : dao.User :=
  { Id := u.Id,
    Email := { Str := u.Email, Valid := decide (u.Email ≠ "") },
    Phone := { Str := u.Phone, Valid := decide (u.Phone ≠ "") },
    Password := u.Password,
    Ctime := u.Ctime.UnixMilli,
    Utime := 0,
    Nickname := "",
    WechatOpenID := { Str := u.WechatInfo.UnionId, Valid := decide (u.WechatInfo.UnionId ≠ "") },
    WechatUnionID := { Str := u.WechatInfo.OpenId, Valid := decide (u.WechatInfo.OpenId ≠ "") } }

/-- The column that `GORMUserDAO.FindByWechat` compares with the open id it is
given: `Where("wechat_open_id=?", openID)` (dao/user.go, line 41). -/
def findByWechatColumn (u : dao.User) : dao.NullString := u.WechatOpenID

/-- The collaborators of the repository: the cache and the DAO, each answer
being the pair of a value and an error. -/
structure Deps where
  cacheGet : Int → domain.User × Option Error
  cacheSet : domain.User → Option Error
  daoFindById : Int → dao.User × Option Error

/-- A call on a collaborator of the repository. -/
inductive Call where
  | cacheGet (id : Int)
  | cacheSet (u : domain.User)
  | daoFindById (id : Int)
  deriving DecidableEq, Repr

/-- `CacheUserRepository.FindById` (lines 53-77): the returned user and error,
and the calls made on the collaborators. -/
def FindById (r : Deps) (id : Int) : (domain.User × Option Error) × List Call :=
  match r.cacheGet id with
  | (u, none) => ((u, none), [Call.cacheGet id])
  | (_, some _) =>
    match r.daoFindById id with
    | (_, some err) => ((domain.User.zero, some err), [Call.cacheGet id, Call.daoFindById id])
    | (ue, none) =>
      match r.cacheSet (entityToDomain ue) with
      | _ =>
        ((entityToDomain ue, none),
          [Call.cacheGet id, Call.daoFindById id, Call.cacheSet (entityToDomain ue)])

end repository

namespace service

/-! ## The ranking service (internal/service/ranking_service.go)

A score is a `float64` in the source; here it is an integer, which keeps the
order of the scores and leaves their arithmetic out.  Times are Unix seconds.
The priority queue is the bounded min-queue of the library `ekit`. -/

/-- The struct `domain.Author`. -/
structure Author where
  Id : Int
  Name : String
  deriving DecidableEq, Repr

/-- The struct `domain.Article`. -/
structure Article where
  Id : Int
  Title : String
  Content : String
  Author : Author
  Status : Nat
  Ctime : Int
  Utime : Int
  deriving DecidableEq, Repr

/-- The zero value `domain.Article{}`; its times are the zero `time.Time`, which
is 62135596800 seconds before the Unix epoch. -/
def Article.zero : Article :=
  { Id := 0, Title := "", Content := "", Author := { Id := 0, Name := "" }, Status := 0,
    Ctime := -62135596800, Utime := -62135596800 }

/-- The local struct `Score` of `topN`. -/
structure Score where
  score : Int
  art : Article
  deriving DecidableEq, Repr

/-- The sentinel `queue.ErrOutOfCapacity` of the library. -/
def ErrOutOfCapacity : Error := Error.other "ekit: 超出最大容量限制"

/-- The sentinel `queue.ErrEmptyQueue` of the library. -/
def ErrEmptyQueue : Error := Error.other "ekit: 队列为空"

/-- A `queue.ConcurrentPriorityQueue[Score]`: its capacity and its elements,
lowest score first. -/
structure PriorityQueue where
  capacity : Int
  data : List Score
  deriving DecidableEq, Repr

/-- `queue.NewConcurrentPriorityQueue`. -/
def NewConcurrentPriorityQueue (capacity : Int) : PriorityQueue :=
  { capacity := capacity, data := [] }

/-- `Len` of the queue. -/
def PriorityQueue.Len (q : PriorityQueue) : Int := (q.data.length : Int)

/-- `Enqueue` of the queue: refused with `ErrOutOfCapacity` when a bounded queue is full. -/
def PriorityQueue.Enqueue (q : PriorityQueue) (x : Score) : Option Error × PriorityQueue :=
  if 0 < q.capacity ∧ q.Len = q.capacity then (some ErrOutOfCapacity, q)
  else (none, { q with data := q.data.orderedInsert (fun a b => a.score ≤ b.score) x })

/-- `Dequeue` of the queue: the element with the lowest score, or the zero value
and `ErrEmptyQueue`. -/
def PriorityQueue.Dequeue (q : PriorityQueue) : (Score × Option Error) × PriorityQueue :=
  match q.data with
  | [] => (({ score := 0, art := Article.zero }, some ErrEmptyQueue), q)
  | x :: rest => ((x, none), { q with data := rest })

/-- The struct `BatchRankingService`, without its collaborators. -/
structure BatchRankingService where
  batchSize : Int
  n : Int
  scoreFunc : Int → Int → Int

/-- The collaborators of `topN`: `artSvc.ListPub(ctx, start, offset, limit)` and
`intrSvc.GetByIds`, whose answer maps an article id to its like count. -/
structure Services where
  ListPub : Int → Int → Int → List Article × Option Error
  GetByIds : List Int → List (Int × Int) × Option Error

/-- The inner loop of `topN` (lines 97-116).  A missing entry of the map is a nil
pointer, and reading its field panics. -/
def scoreLoop (b : BatchRankingService) (intrMap : List (Int × Int)) :
    List Article → PriorityQueue → Outcome PriorityQueue
  | [], topN => Outcome.ok topN
  | art :: rest, topN =>
    match intrMap.lookup art.Id with
    | none => Outcome.panic "invalid memory address or nil pointer dereference"
    | some likeCnt =>
      match topN.Enqueue { score := b.scoreFunc likeCnt art.Utime, art := art } with
      | (some err, topN1) =>
        if err = ErrOutOfCapacity then
          match topN1.Dequeue with
          | ((minEle, _), topN2) =>
            if minEle.score < b.scoreFunc likeCnt art.Utime then
              scoreLoop b intrMap rest
                (topN2.Enqueue { score := b.scoreFunc likeCnt art.Utime, art := art }).2
            else
              scoreLoop b intrMap rest (topN2.Enqueue minEle).2
        else scoreLoop b intrMap rest topN1
      | (none, topN1) => scoreLoop b intrMap rest topN1

/-- The result of the first loop of `topN`. -/
inductive Gathered where
  | failed (err : Error)
  | panicked (msg : String)
  | queue (topN : PriorityQueue)
  deriving DecidableEq, Repr

/-- The first loop of `topN` (lines 78-124), run for at most `fuel` batches. -/
def gather (b : BatchRankingService) (svc : Services) (start ddl : Int) :
    Nat → Int → PriorityQueue → Option Gathered
  | 0, _, _ => none
  | fuel + 1, offset, topN =>
    match svc.ListPub start offset b.batchSize with
    | (_, some err) => some (Gathered.failed err)
    | (arts, none) =>
      match svc.GetByIds (arts.map (fun art => art.Id)) with
      | (_, some err) => some (Gathered.failed err)
      | (intrMap, none) =>
        match scoreLoop b intrMap arts topN with
        | Outcome.panic msg => some (Gathered.panicked msg)
        | Outcome.ok topN1 =>
          if validator.len arts < b.batchSize then some (Gathered.queue topN1)
          else
            match arts.getLast? with
            | none => some (Gathered.panicked "index out of range [-1]")
            | some last =>
              if last.Utime < ddl then some (Gathered.queue topN1)
              else gather b svc start ddl fuel (validator.wrapInt (offset + validator.len arts)) topN1

/-- The last loop of `topN` (lines 127-130): `for i := topN.Len() - 1; i >= 0; i++`,
run for at most `fuel` passes.  An assignment to `res[i]` outside the slice
panics. -/
def extract : Nat → Int → PriorityQueue → List Article → Option (Outcome (List Article))
  | 0, _, _, _ => none
  | fuel + 1, i, topN, res =>
    if 0 ≤ i then
      match topN.Dequeue with
      | ((ele, _), topN1) =>
        if i < validator.len res then
          extract fuel (validator.wrapInt (i + 1)) topN1 (res.set i.toNat ele.art)
        else
          some (Outcome.panic ("index out of range [" ++ toString i ++ "] with length " ++
            toString res.length))
    else some (Outcome.ok res)

/-- `BatchRankingService.topN` (lines 59-133): `start` is `time.Now()` and the
deadline is seven days before it. -/
def topN (b : BatchRankingService) (svc : Services) (start : Int) (fuel : Nat) :
    Option (Outcome (List Article × Option Error)) :=
  match gather b svc start (start - 7 * 24 * 3600) fuel 0 (NewConcurrentPriorityQueue b.n) with
  | none => none
  | some (Gathered.failed err) => some (Outcome.ok ([], some err))
  | some (Gathered.panicked msg) => some (Outcome.panic msg)
  | some (Gathered.queue topN) =>
    match extract fuel (topN.Len - 1) topN (List.replicate topN.data.length Article.zero) with
    | none => none
    | some (Outcome.panic msg) => some (Outcome.panic msg)
    | some (Outcome.ok res) => some (Outcome.ok (res, none))

end service

namespace samarax

/-! ## The batch handler (pkg/samarax/batch_hanler.go) -/

/-- A `*sarama.ConsumerMessage`. -/
structure ConsumerMessage where
  Topic : String
  Partition : Int
  Offset : Int
  Value : String
  deriving DecidableEq, Repr

/-- The constant `batchSize` of `ConsumeClaim`. -/
def batchSize : Nat := 10

/-- What one `select` of the inner loop receives: the timeout of the batch, a
message, or the closing of the channel. -/
inductive Received where
  | timeout
  | message (msg : ConsumerMessage)
  | closed
  deriving DecidableEq, Repr

/-- How the inner loop ends: the channel was closed, or a batch is ready. -/
inductive Filled (T : Type) where
  | closed (logs : List String)
  | ready (batch : List ConsumerMessage) (ts : List T) (rest : List Received)
      (logs : List String)

/-- The inner loop of `ConsumeClaim` (lines 40-65), with `k` passes left.  When
nothing more arrives the timeout fires. -/
def fill {T : Type} (unmarshal : String → Except Error T) :
    Nat → List Received → List ConsumerMessage → List T → List String → Filled T
  | 0, received, batch, ts, logs => Filled.ready batch ts received logs
  | _ + 1, [], batch, ts, logs => Filled.ready batch ts [] logs
  | _ + 1, Received.timeout :: rest, batch, ts, logs => Filled.ready batch ts rest logs
  | _ + 1, Received.closed :: _, _, _, logs => Filled.closed logs
  | k + 1, Received.message msg :: rest, batch, ts, logs =>
    match unmarshal msg.Value with
    | Except.error _ => fill unmarshal k rest (batch ++ [msg]) ts (logs ++ ["反序列化失败"])
    | Except.ok t => fill unmarshal k rest ((batch ++ [msg]) ++ [msg]) (ts ++ [t]) logs

/-- What `ConsumeClaim` has done: the calls `fn(batch, ts)`, the messages marked,
the errors logged. -/
structure Trace (T : Type) where
  handled : List (List ConsumerMessage × List T)
  marked : List ConsumerMessage
  logs : List String

/-- `BatchHandler.ConsumeClaim` (lines 32-82), run for at most `fuel` batches:
`some nil` when it returned, `none` when it is still running. -/
def ConsumeClaim {T : Type} (unmarshal : String → Except Error T)
    (fn : List ConsumerMessage → List T → Option Error) :
    Nat → List Received → Trace T → Option (Option Error) × Trace T
  | 0, _, tr => (none, tr)
  | fuel + 1, received, tr =>
    match fill unmarshal batchSize received [] [] tr.logs with
    | Filled.closed logs => (some none, { tr with logs := logs })
    | Filled.ready batch ts rest logs =>
      ConsumeClaim unmarshal fn fuel rest
        { handled := tr.handled ++ [(batch, ts)],
          marked := tr.marked ++ batch,
          logs := match fn batch ts with
                  | some _ => logs ++ ["处理消息失败"]
                  | none => logs }

end samarax

namespace wrr

/-! ## The weighted round-robin picker (pkg/grpcx/balancer/wrr/wrr.go) -/

/-- The struct `weightConn`; `SubConn` names the sub-connection. -/
structure weightConn where
  SubConn : Nat
  weight : Int
  currentWeight : Int
  available : Bool
  deriving DecidableEq, Repr

/-- The struct `Picker`: the connections its slice of pointers points to. -/
structure Picker where
  conns : List weightConn
  deriving DecidableEq, Repr

/-- The sentinel `balancer.ErrNoSubConnAvailable`. -/
def ErrNoSubConnAvailable : Error := Error.other "no SubConn is available"

/-- The first loop of `Pick` (lines 34-37): the sum of the weights, in Go `int`. -/
def sumWeights (conns : List weightConn) : Int :=
  conns.foldl (fun total conn => validator.wrapInt (total + conn.weight)) 0

/-- The body of the second loop of `Pick` (line 42). -/
def addWeight (conn : weightConn) : weightConn :=
  { conn with currentWeight := validator.wrapInt (conn.currentWeight + conn.weight) }

/-- The second loop of `Pick` (lines 41-45). -/
def addWeights (conns : List weightConn) : List weightConn :=
  conns.map addWeight

/-- The third loop of `Pick` (lines 47-52): `maxCC` is the position of a
connection and the connection it points to; `i` is the position of the next
connection of the range.  The test `maxCC == nil` is false, since `maxCC` is
`p.conns[0]` before the loop. -/
def maxLoop : List weightConn → Nat → Nat × weightConn → Nat × weightConn
  | [], _, maxCC => maxCC
  | conn :: rest, i, maxCC =>
    if conn.currentWeight > maxCC.2.currentWeight then maxLoop rest (i + 1) (i, conn)
    else maxLoop rest (i + 1) maxCC

/-- The assignment through `maxCC` (line 54): the connection at position `m` loses `total`. -/
def subtractAt (total : Int) : Nat → List weightConn → List weightConn
  | _, [] => []
  | 0, conn :: rest =>
    { conn with currentWeight := validator.wrapInt (conn.currentWeight - total) } :: rest
  | m + 1, conn :: rest => conn :: subtractAt total m rest

/-- `Picker.Pick` (lines 28-58): the picked sub-connection or the error, and the
picker afterwards.  The total is taken first, then every connection gains its
weight, then `maxCC` starts at `p.conns[0]` and runs over the connections, and
the connection it ends on loses the total. -/
def Picker.Pick (p : Picker) : Except Error Nat × Picker :=
  match p.conns with
  | [] => (Except.error ErrNoSubConnAvailable, p)
  | conn0 :: rest =>
    (Except.ok (maxLoop (addWeights (conn0 :: rest)) 0 (0, addWeight conn0)).2.SubConn,
      { conns := subtractAt (sumWeights (conn0 :: rest))
                   (maxLoop (addWeights (conn0 :: rest)) 0 (0, addWeight conn0)).1
                   (addWeights (conn0 :: rest)) })

/-- `PickerBuilder.Build` (lines 59-73) over the ready sub-connections in the
order the range visits them, each with the `weight` entry of its metadata; a
missing entry gives weight 0. -/
def Build (readySCs : List (Nat × Option Int)) : Picker :=
  { conns := readySCs.map (fun sc =>
      { SubConn := sc.1, weight := sc.2.getD 0, currentWeight := sc.2.getD 0,
        available := false }) }

/-- `k` consecutive calls of `Pick`: the results in order and the picker afterwards. -/
def Picker.picks : Nat → Picker → List (Except Error Nat) × Picker
  | 0, p => ([], p)
  | k + 1, p => ((p.Pick).1 :: (Picker.picks k (p.Pick).2).1, (Picker.picks k (p.Pick).2).2)

/-! ### The state of a picker in closed form -/

/-- The sum of the weights of a list of connections, as a number without bound. -/
def total (conns : List weightConn) : Int := (conns.map (fun c => c.weight)).sum

/-- The connections `init` with the current weights that `t` picks with the
results `rs` leave: each connection has gained its weight `t` times and lost the
total once for each time it was picked. -/
def afterPicks (init : List weightConn) (t : Nat) (rs : List Nat) : List weightConn :=
  init.map (fun x =>
    { x with currentWeight :=
        ((t : Int) + 1) * x.weight - total init * (rs.count x.SubConn : Int) })

end wrr

namespace connpool

/-! ## Stores used to run the pool on concrete inputs -/

/-- Stores on which every write to the source succeeds and every write to the
destination fails. -/
def dstDownStores : Stores where
  execContext := fun s _ _ _ =>
    match s with
    | Side.src => (some { lastInsertId := 7, rowsAffected := 1 }, none)
    | Side.dst => (none, some (Error.other "dst down"))
  queryContext := fun s _ _ _ =>
    match s with
    | Side.src => (some [["src"]], none)
    | Side.dst => (none, some (Error.other "dst down"))
  queryRowContext := fun s _ _ _ =>
    match s with
    | Side.src => ["src"]
    | Side.dst => ["dst"]
  beginTx := fun s _ calls =>
    match s with
    | Side.src => (some { side := Side.src, id := calls.length }, none)
    | Side.dst => (none, some (Error.other "dst down"))
  txExecContext := fun tx _ _ _ =>
    match tx.side with
    | Side.src => (some { lastInsertId := 7, rowsAffected := 1 }, none)
    | Side.dst => (none, some (Error.other "dst down"))
  txQueryContext := fun tx _ _ _ =>
    match tx.side with
    | Side.src => (some [["src"]], none)
    | Side.dst => (none, some (Error.other "dst down"))
  txQueryRowContext := fun tx _ _ _ =>
    match tx.side with
    | Side.src => ["src"]
    | Side.dst => ["dst"]
  txCommit := fun tx _ =>
    match tx.side with
    | Side.src => none
    | Side.dst => some (Error.other "dst down")
  txRollback := fun tx _ =>
    match tx.side with
    | Side.src => none
    | Side.dst => some (Error.other "dst down")

/-- Stores on which every call on the destination succeeds and every call on the
source fails. -/
def srcDownStores : Stores where
  execContext := fun s _ _ _ =>
    match s with
    | Side.dst => (some { lastInsertId := 7, rowsAffected := 1 }, none)
    | Side.src => (none, some (Error.other "src down"))
  queryContext := fun s _ _ _ =>
    match s with
    | Side.dst => (some [["dst"]], none)
    | Side.src => (none, some (Error.other "src down"))
  queryRowContext := fun s _ _ _ =>
    match s with
    | Side.dst => ["dst"]
    | Side.src => ["src"]
  beginTx := fun s _ calls =>
    match s with
    | Side.dst => (some { side := Side.dst, id := calls.length }, none)
    | Side.src => (none, some (Error.other "src down"))
  txExecContext := fun tx _ _ _ =>
    match tx.side with
    | Side.dst => (some { lastInsertId := 7, rowsAffected := 1 }, none)
    | Side.src => (none, some (Error.other "src down"))
  txQueryContext := fun tx _ _ _ =>
    match tx.side with
    | Side.dst => (some [["dst"]], none)
    | Side.src => (none, some (Error.other "src down"))
  txQueryRowContext := fun tx _ _ _ =>
    match tx.side with
    | Side.dst => ["dst"]
    | Side.src => ["src"]
  txCommit := fun tx _ =>
    match tx.side with
    | Side.dst => none
    | Side.src => some (Error.other "src down")
  txRollback := fun tx _ =>
    match tx.side with
    | Side.dst => none
    | Side.src => some (Error.other "src down")

end connpool

namespace validator

/-! ## Tables used to run the scans on concrete inputs -/

/-- A base table: rows 3, 1, 2, 5 in storage order. -/
def demoBase : List Row := [⟨3, "a"⟩, ⟨1, "x"⟩, ⟨2, "y"⟩, ⟨5, "q"⟩]

/-- A target table: row 3 differs from the base, row 2 agrees, row 7 is an orphan. -/
def demoTarget : List Row := [⟨3, "b"⟩, ⟨2, "y"⟩, ⟨7, "z"⟩]

end validator

namespace validator

open migrator events

/-! ## Stores used to run the incremental scan and the failing reads -/

/-- A row last updated at time 5. -/
def staleRow : dao.Interactive :=
  { Id := 1, BizId := 10, Biz := "article", ReadCnt := 0, LikeCnt := 0, CollectCnt := 0,
    Utime := 5, Ctime := 5 }

/-- The same row after an update at time 50. -/
def updatedRow : dao.Interactive :=
  { Id := 1, BizId := 10, Biz := "article", ReadCnt := 9, LikeCnt := 0, CollectCnt := 0,
    Utime := 50, Ctime := 5 }

/-- A validator as `StartIncrementValidation` configures it: watermark 10, interval 1000. -/
def incrValidator : Validator := (((NewValidator "SRC").Incr).Utime 10).SleepInterval 1000

/-- A table whose rows at the moment `clock` are `rowsAt clock`, and whose reads
do not fail. -/
def changingDB {T : Type} [Entity T] (sel : T → T) (rowsAt : Nat → List T) : DB T :=
  { orderOffsetFirst := fun clock offset => (tableDB sel (rowsAt clock)).orderOffsetFirst clock offset,
    whereIdFirst := fun clock id => (tableDB sel (rowsAt clock)).whereIdFirst clock id,
    selectIdOrderOffsetLimitFind := fun clock offset limit =>
      (tableDB sel (rowsAt clock)).selectIdOrderOffsetLimitFind clock offset limit,
    selectIdWhereInFind := fun clock ids =>
      (tableDB sel (rowsAt clock)).selectIdWhereInFind clock ids }

/-- The rows of a table that holds `staleRow` during the first three collaborator
calls and `updatedRow` from then on. -/
def updatedLaterRows (clock : Nat) : List dao.Interactive :=
  if clock < 3 then [staleRow] else [updatedRow]

/-- The table of `updatedLaterRows` as base, against a target table that holds
`staleRow`. -/
def updatedLaterEnv : Env dao.Interactive :=
  { base := changingDB dao.Interactive.selectId updatedLaterRows,
    target := tableDB dao.Interactive.selectId [staleRow],
    producer := fun _ _ => none }

/-- A store whose reads fail with `err` from the `c`-th collaborator call on and
answer as `db` before. -/
def failFrom {T : Type} (err : Error) (c : Nat) (db : DB T) : DB T :=
  { orderOffsetFirst := fun clock offset =>
      if c ≤ clock then Except.error err else db.orderOffsetFirst clock offset,
    whereIdFirst := fun clock id =>
      if c ≤ clock then Except.error err else db.whereIdFirst clock id,
    selectIdOrderOffsetLimitFind := fun clock offset limit =>
      if c ≤ clock then ([], some err) else db.selectIdOrderOffsetLimitFind clock offset limit,
    selectIdWhereInFind := fun clock ids =>
      if c ≤ clock then ([], some err) else db.selectIdWhereInFind clock ids }

/-- A store whose read at the moment `c` fails with `err` and which answers as
`db` at every other moment. -/
def failAt {T : Type} (err : Error) (c : Nat) (db : DB T) : DB T :=
  { orderOffsetFirst := fun clock offset =>
      if clock = c then Except.error err else db.orderOffsetFirst clock offset,
    whereIdFirst := fun clock id =>
      if clock = c then Except.error err else db.whereIdFirst clock id,
    selectIdOrderOffsetLimitFind := fun clock offset limit =>
      if clock = c then ([], some err) else db.selectIdOrderOffsetLimitFind clock offset limit,
    selectIdWhereInFind := fun clock ids =>
      if clock = c then ([], some err) else db.selectIdWhereInFind clock ids }

/-- The tables `demoBase` and `demoTarget`, where the first read of the base runs
into its one-second timeout. -/
def timeoutEnv : Env Row :=
  { base := failAt Error.deadlineExceeded 0 (tableDB Row.selectId demoBase),
    target := tableDB Row.selectId demoTarget,
    producer := fun _ _ => none }

/-- The tables `demoBase` and `demoTarget`, where the first read of the base
fails with a query error. -/
def brokenReadEnv : Env Row :=
  { base := failAt (Error.other "bad connection") 0 (tableDB Row.selectId demoBase),
    target := tableDB Row.selectId demoTarget,
    producer := fun _ _ => none }

/-- Two tables whose reads fail with `err` from the `c`-th collaborator call on
and do not fail before. -/
def failingFrom (err : Error) (c : Nat) (base target : List Row) : Env Row :=
  { base := failFrom err c (tableDB Row.selectId base),
    target := failFrom err c (tableDB Row.selectId target),
    producer := fun _ _ => none }

/-- One row on each side, equal, and a context that is cancelled after the first
read: every later read fails with `context.Canceled`. -/
def cancelledEnv : Env Row := failingFrom Error.canceled 1 [⟨1, "x"⟩] [⟨1, "x"⟩]

end validator

namespace fixer

open connpool

/-! ## Tables used to run the fixer on concrete inputs -/

/-- A row of a table with the columns `id` and `val`. -/
def demoRecord (id val : Int) : Record :=
  fun c => if c = "id" then id else if c = "val" then val else 0

/-- A source table with rows 1 and 3, and a destination table in which row 3
differs and row 2 is an orphan. -/
def demoDBs : DBs :=
  { src := { columns := ["id", "val"], rows := [demoRecord 1 10, demoRecord 3 30] },
    dst := { columns := ["id", "val"], rows := [demoRecord 3 31, demoRecord 2 20] } }

/-- The fixer whose base is the source, as `NewConsumer` builds it over `demoDBs`. -/
def demoFixer : OverrideFixer :=
  { base := Side.src, target := Side.dst, columns := ["id", "val"] }

end fixer

namespace validator

/-- The tables `demoBase` and `demoTarget`, where the first batch query of the
target fails with a query error and returns no row. -/
def brokenTargetEnv : Env Row :=
  { base := tableDB Row.selectId demoBase,
    target := failAt (Error.other "bad connection") 0 (tableDB Row.selectId demoTarget),
    producer := fun _ _ => none }

/-- The tables `demoBase` and `demoTarget`, where the lookup of the first batch
of ids in the base fails with a query error and returns no row. -/
def brokenLookupEnv : Env Row :=
  { base := failAt (Error.other "bad connection") 1 (tableDB Row.selectId demoBase),
    target := tableDB Row.selectId demoTarget,
    producer := fun _ _ => none }

end validator

namespace service

/-- A published article, updated at the moment `utime`. -/
def demoArticle (id utime : Int) : Article :=
  { Id := id, Title := "t", Content := "c", Author := { Id := 1, Name := "a" }, Status := 2,
    Ctime := utime, Utime := utime }

/-- A ranking service as `NewBatchRankingService` builds it, with the like count
as the score. -/
def demoRanking : BatchRankingService :=
  { batchSize := 100, n := 100, scoreFunc := fun likeCnt _ => likeCnt }

/-- The collaborators over a fixed list of published articles, newest first, and
like counts; `ListPub` returns the articles not newer than `start`, from the
offset on, at most `limit` of them. -/
def demoServices (arts : List Article) (likes : List (Int × Int)) : Services :=
  { ListPub := fun start offset limit =>
      ((((arts.filter (fun art => art.Utime ≤ start)).drop offset.toNat).take limit.toNat), none),
    GetByIds := fun ids => (likes.filter (fun e => e.1 ∈ ids), none) }

end service

namespace samarax

/-- A message of the topic `t` with the given offset and payload. -/
def demoMessage (offset : Int) (value : String) : ConsumerMessage :=
  { Topic := "t", Partition := 0, Offset := offset, Value := value }

/-- A decoder of payloads into numbers: the payload must be one decimal digit. -/
def demoUnmarshal (value : String) : Except Error Nat :=
  match value.data with
  | [c] => if c.isDigit then Except.ok (c.toNat - 48) else Except.error (Error.other "invalid character")
  | _ => Except.error (Error.other "invalid character")

end samarax

namespace repository

/-- A user who has logged in through WeChat. -/
def demoUser : domain.User :=
  { Id := 1, Email := "a@b.c", Password := "p", Ctime := domain.Time.ofUnixMilli 1000,
    Phone := "155", WechatInfo := { OpenId := "open-1", UnionId := "union-1" }, Nickname := "" }

/-- The row that the DAO returns in the test of `FindById`, created at the
millisecond 1700000000000. -/
def testRow : dao.User :=
  { Id := 1, Email := { Str := "123@qq.com", Valid := true }, Password := "123456",
    Phone := { Str := "17376913117", Valid := true }, Ctime := 1700000000000, Utime := 102,
    Nickname := "", WechatUnionID := { Str := "", Valid := false },
    WechatOpenID := { Str := "", Valid := false } }

/-- The collaborators of the test case in which the cache misses, the DAO holds
`testRow` and the write back to the cache fails. -/
def testDeps : Deps :=
  { cacheGet := fun _ => (domain.User.zero, some (Error.other "key not exist")),
    cacheSet := fun _ => some (Error.other "redis错误"),
    daoFindById := fun _ => (testRow, none) }

end repository

/-! # Theorems -/

namespace connpool

/-! ## Routing of statements by the pool -/

theorem pattern_ne : PatternSrcFirst ≠ PatternSrcOnly ∧ PatternDstOnly ≠ PatternSrcOnly ∧
    PatternDstOnly ≠ PatternSrcFirst ∧ PatternDstFirst ≠ PatternSrcOnly ∧
    PatternDstFirst ≠ PatternSrcFirst ∧ PatternDstFirst ≠ PatternDstOnly := by
  decide

/-- C1: under `src_first` (resp. `dst_first`) `ExecContext` returns exactly the
result and the error of the call on the source (resp. destination), whatever the
call on the other store returns; in particular, when the primary write succeeds
and the secondary write fails, it reports no error and the primary's result. -/
theorem ExecContext_first_returns_primary (st : Stores) (d : DoubleWritePool) (query : String)
    (args : List String) (w : World) :
    (d.pattern = PatternSrcFirst →
      (d.ExecContext st query args w).1 = st.execContext Side.src query args w.calls) ∧
    (d.pattern = PatternDstFirst →
      (d.ExecContext st query args w).1 = st.execContext Side.dst query args w.calls) ∧
    (d.pattern = PatternSrcFirst → ∀ res r2 e,
      st.execContext Side.src query args w.calls = (res, none) →
      st.execContext Side.dst query args (w.calls ++ [Call.execContext Side.src query args])
        = (r2, some e) →
      (d.ExecContext st query args w).1 = (res, none)) ∧
    (d.pattern = PatternDstFirst → ∀ res r2 e,
      st.execContext Side.dst query args w.calls = (res, none) →
      st.execContext Side.src query args (w.calls ++ [Call.execContext Side.dst query args])
        = (r2, some e) →
      (d.ExecContext st query args w).1 = (res, none)) := by
  obtain ⟨h1, h2, h3, h4, h5, h6⟩ := pattern_ne
  have hsrc : d.pattern = PatternSrcFirst →
      (d.ExecContext st query args w).1 = st.execContext Side.src query args w.calls := by
    intro hp
    simp only [DoubleWritePool.ExecContext, hp, h1, if_false, if_true, poolExec]
    rcases hs : st.execContext Side.src query args w.calls with ⟨res, _ | err⟩
    · rcases hd : st.execContext Side.dst query args (w.call (Call.execContext Side.src query args)).calls
        with ⟨r2, _ | e2⟩ <;> simp [hd]
    · simp
  have hdst : d.pattern = PatternDstFirst →
      (d.ExecContext st query args w).1 = st.execContext Side.dst query args w.calls := by
    intro hp
    simp only [DoubleWritePool.ExecContext, hp, h4, h5, h6, if_false, if_true, poolExec]
    rcases hs : st.execContext Side.dst query args w.calls with ⟨res, _ | err⟩
    · rcases hd : st.execContext Side.src query args (w.call (Call.execContext Side.dst query args)).calls
        with ⟨r2, _ | e2⟩ <;> simp [hd]
    · simp
  refine ⟨hsrc, hdst, ?_, ?_⟩
  · intro hp res r2 e hs _
    rw [hsrc hp, hs]
  · intro hp res r2 e hs _
    rw [hdst hp, hs]

/-- Witness of C1: on stores whose destination is down, a write under `src_first`
reports the source's result and no error. -/
theorem ExecContext_first_returns_primary_witness :
    (DoubleWritePool.ExecContext { pattern := PatternSrcFirst } dstDownStores "insert" []
        World.empty).1 = (some { lastInsertId := 7, rowsAffected := 1 }, none) :=
  (ExecContext_first_returns_primary dstDownStores { pattern := PatternSrcFirst } "insert" []
    World.empty).2.2.1 rfl (some { lastInsertId := 7, rowsAffected := 1 }) none
    (Error.other "dst down") rfl rfl

end connpool

namespace connpool

/-- C2: the store calls made by `ExecContext`, in order, are: the source only
under `src_only`; the destination only under `dst_only`; under `src_first` the
source, followed by the destination exactly when the source call returned no
error; under `dst_first` the destination, followed by the source exactly when the
destination call returned no error. -/
theorem ExecContext_calls (st : Stores) (d : DoubleWritePool) (query : String)
    (args : List String) (w : World) :
    (d.pattern = PatternSrcOnly →
      (d.ExecContext st query args w).2.calls
        = w.calls ++ [Call.execContext Side.src query args]) ∧
    (d.pattern = PatternDstOnly →
      (d.ExecContext st query args w).2.calls
        = w.calls ++ [Call.execContext Side.dst query args]) ∧
    (d.pattern = PatternSrcFirst →
      (d.ExecContext st query args w).2.calls
        = w.calls ++ Call.execContext Side.src query args ::
            (if (st.execContext Side.src query args w.calls).2 = none
              then [Call.execContext Side.dst query args] else [])) ∧
    (d.pattern = PatternDstFirst →
      (d.ExecContext st query args w).2.calls
        = w.calls ++ Call.execContext Side.dst query args ::
            (if (st.execContext Side.dst query args w.calls).2 = none
              then [Call.execContext Side.src query args] else [])) := by
  obtain ⟨h1, h2, h3, h4, h5, h6⟩ := pattern_ne
  refine ⟨?_, ?_, ?_, ?_⟩
  · intro hp
    simp [DoubleWritePool.ExecContext, hp, poolExec, World.call]
  · intro hp
    simp [DoubleWritePool.ExecContext, hp, h2, h3, poolExec, World.call]
  · intro hp
    simp only [DoubleWritePool.ExecContext, hp, h1, if_false, if_true, poolExec]
    rcases hs : st.execContext Side.src query args w.calls with ⟨res, _ | err⟩
    · rcases hd : st.execContext Side.dst query args
          (w.calls ++ [Call.execContext Side.src query args]) with ⟨r2, _ | e2⟩ <;>
        simp [hd, World.call, World.logError]
    · simp [World.call]
  · intro hp
    simp only [DoubleWritePool.ExecContext, hp, h4, h5, h6, if_false, if_true, poolExec]
    rcases hs : st.execContext Side.dst query args w.calls with ⟨res, _ | err⟩
    · rcases hd : st.execContext Side.src query args
          (w.calls ++ [Call.execContext Side.dst query args]) with ⟨r2, _ | e2⟩ <;>
        simp [hd, World.call, World.logError]
    · simp [World.call]

/-- Witness of C2: with the source down, a write under `src_first` reaches the
source and nothing else. -/
theorem ExecContext_calls_witness :
    (DoubleWritePool.ExecContext { pattern := PatternSrcFirst } srcDownStores "insert" []
        World.empty).2.calls = [Call.execContext Side.src "insert" []] :=
  (ExecContext_calls srcDownStores { pattern := PatternSrcFirst } "insert" []
    World.empty).2.2.1 rfl

/-- C3: `QueryContext` and `QueryRowContext` make exactly one store call, on the
source under `src_only` and `src_first` and on the destination under `dst_only`
and `dst_first`, and return that call's answer; and after a successful
`UpdatePattern p` the reads of the pool go to the store that `p` names. -/
theorem Query_routes (st : Stores) (d : DoubleWritePool) (query : String)
    (args : List String) (w : World) :
    ((d.pattern = PatternSrcOnly ∨ d.pattern = PatternSrcFirst) →
      d.QueryContext st query args w
        = (st.queryContext Side.src query args w.calls,
            { calls := w.calls ++ [Call.queryContext Side.src query args], logs := w.logs }) ∧
      d.QueryRowContext st query args w
        = (Outcome.ok (st.queryRowContext Side.src query args w.calls),
            { calls := w.calls ++ [Call.queryRowContext Side.src query args], logs := w.logs })) ∧
    ((d.pattern = PatternDstOnly ∨ d.pattern = PatternDstFirst) →
      d.QueryContext st query args w
        = (st.queryContext Side.dst query args w.calls,
            { calls := w.calls ++ [Call.queryContext Side.dst query args], logs := w.logs }) ∧
      d.QueryRowContext st query args w
        = (Outcome.ok (st.queryRowContext Side.dst query args w.calls),
            { calls := w.calls ++ [Call.queryRowContext Side.dst query args], logs := w.logs })) ∧
    (∀ p : String, (d.UpdatePattern p).1 = none →
      ((p = PatternSrcOnly ∨ p = PatternSrcFirst) ∧
        ((d.UpdatePattern p).2.QueryContext st query args w).2.calls
          = w.calls ++ [Call.queryContext Side.src query args] ∧
        ((d.UpdatePattern p).2.QueryRowContext st query args w).2.calls
          = w.calls ++ [Call.queryRowContext Side.src query args]) ∨
      ((p = PatternDstOnly ∨ p = PatternDstFirst) ∧
        ((d.UpdatePattern p).2.QueryContext st query args w).2.calls
          = w.calls ++ [Call.queryContext Side.dst query args] ∧
        ((d.UpdatePattern p).2.QueryRowContext st query args w).2.calls
          = w.calls ++ [Call.queryRowContext Side.dst query args])) := by
  obtain ⟨h1, h2, h3, h4, h5, h6⟩ := pattern_ne
  have hsrc : ∀ d0 : DoubleWritePool, (d0.pattern = PatternSrcOnly ∨ d0.pattern = PatternSrcFirst) →
      d0.QueryContext st query args w
        = (st.queryContext Side.src query args w.calls,
            { calls := w.calls ++ [Call.queryContext Side.src query args], logs := w.logs }) ∧
      d0.QueryRowContext st query args w
        = (Outcome.ok (st.queryRowContext Side.src query args w.calls),
            { calls := w.calls ++ [Call.queryRowContext Side.src query args], logs := w.logs }) := by
    intro d0 hp
    simp [DoubleWritePool.QueryContext, DoubleWritePool.QueryRowContext, hp, poolQuery,
      poolQueryRow, World.call]
  have hdst : ∀ d0 : DoubleWritePool, (d0.pattern = PatternDstOnly ∨ d0.pattern = PatternDstFirst) →
      d0.QueryContext st query args w
        = (st.queryContext Side.dst query args w.calls,
            { calls := w.calls ++ [Call.queryContext Side.dst query args], logs := w.logs }) ∧
      d0.QueryRowContext st query args w
        = (Outcome.ok (st.queryRowContext Side.dst query args w.calls),
            { calls := w.calls ++ [Call.queryRowContext Side.dst query args], logs := w.logs }) := by
    intro d0 hp
    have hn : ¬ (d0.pattern = PatternSrcOnly ∨ d0.pattern = PatternSrcFirst) := by
      rcases hp with hp | hp <;> rw [hp] <;> simp [h2, h3, h4, h5]
    simp [DoubleWritePool.QueryContext, DoubleWritePool.QueryRowContext, hp, hn, poolQuery,
      poolQueryRow, World.call]
  refine ⟨hsrc d, hdst d, ?_⟩
  intro p hp
  unfold DoubleWritePool.UpdatePattern at hp ⊢
  by_cases hv : p = PatternSrcOnly ∨ p = PatternSrcFirst ∨ p = PatternDstOnly ∨ p = PatternDstFirst
  · rw [if_pos hv]
    rcases hv with hv | hv | hv | hv
    · left
      have := hsrc { d with pattern := p } (Or.inl hv)
      exact ⟨Or.inl hv, by rw [this.1], by rw [this.2]⟩
    · left
      have := hsrc { d with pattern := p } (Or.inr hv)
      exact ⟨Or.inr hv, by rw [this.1], by rw [this.2]⟩
    · right
      have := hdst { d with pattern := p } (Or.inl hv)
      exact ⟨Or.inl hv, by rw [this.1], by rw [this.2]⟩
    · right
      have := hdst { d with pattern := p } (Or.inr hv)
      exact ⟨Or.inr hv, by rw [this.1], by rw [this.2]⟩
  · rw [if_neg hv] at hp
    simp at hp

/-- Witness of C3: under `dst_first` a query is answered by the destination. -/
theorem Query_routes_witness :
    DoubleWritePool.QueryContext { pattern := PatternDstFirst } srcDownStores "select" []
        World.empty
      = ((some [["dst"]], none),
          { calls := [Call.queryContext Side.dst "select" []], logs := [] }) :=
  ((Query_routes srcDownStores { pattern := PatternDstFirst } "select" []
    World.empty).2.1 (Or.inr rfl)).1

/-- C4: `UpdatePattern p` returns nil and stores `p` when `p` is one of
`src_only`, `src_first`, `dst_first`, `dst_only`; for every other string it
returns the unknown-pattern error and leaves the stored pattern unchanged. -/
theorem UpdatePattern_spec (d : DoubleWritePool) (p : String) :
    ((p = "src_only" ∨ p = "src_first" ∨ p = "dst_first" ∨ p = "dst_only") →
      d.UpdatePattern p = (none, { pattern := p })) ∧
    (¬ (p = "src_only" ∨ p = "src_first" ∨ p = "dst_first" ∨ p = "dst_only") →
      d.UpdatePattern p = (some Error.errUnknownPattern, d)) := by
  constructor
  · intro hp
    have hv : p = PatternSrcOnly ∨ p = PatternSrcFirst ∨ p = PatternDstOnly ∨
        p = PatternDstFirst := by
      simp only [PatternSrcOnly, PatternSrcFirst, PatternDstOnly, PatternDstFirst]
      tauto
    simp [DoubleWritePool.UpdatePattern, hv]
  · intro hp
    have hv : ¬ (p = PatternSrcOnly ∨ p = PatternSrcFirst ∨ p = PatternDstOnly ∨
        p = PatternDstFirst) := by
      simp only [PatternSrcOnly, PatternSrcFirst, PatternDstOnly, PatternDstFirst]
      tauto
    simp [DoubleWritePool.UpdatePattern, hv]

/-- Witness of C4: an unknown pattern is rejected and the pattern stays `src_only`. -/
theorem UpdatePattern_spec_witness :
    NewDoubleWritePool.UpdatePattern "both" = (some Error.errUnknownPattern, NewDoubleWritePool) :=
  (UpdatePattern_spec NewDoubleWritePool "both").2 (by decide)

end connpool

namespace connpool

/-! ## Transactions -/

/-- What `BeginTx` does under the two `*_first` patterns, for every behaviour of
the stores: a failed primary begin returns no handle, the primary's error, and
makes no call on the secondary; after a successful primary begin and a failed
secondary begin, `dst_first` returns the handle and nil, and `src_first` returns
the handle and the secondary's error. -/
theorem BeginTx_first_cases (st : Stores) (d : DoubleWritePool) (opts : Option TxOptions)
    (w : World) :
    (d.pattern = PatternSrcFirst → ∀ t e, st.beginTx Side.src opts w.calls = (t, some e) →
      d.BeginTx st opts w = ((none, some e), w.call (Call.beginTx Side.src opts))) ∧
    (d.pattern = PatternDstFirst → ∀ t e, st.beginTx Side.dst opts w.calls = (t, some e) →
      d.BeginTx st opts w = ((none, some e), w.call (Call.beginTx Side.dst opts))) ∧
    (d.pattern = PatternDstFirst → ∀ t t2 e, st.beginTx Side.dst opts w.calls = (t, none) →
      st.beginTx Side.src opts (w.calls ++ [Call.beginTx Side.dst opts]) = (t2, some e) →
      (d.BeginTx st opts w).1 = (some { src := t2, dst := t, pattern := d.pattern }, none)) ∧
    (d.pattern = PatternSrcFirst → ∀ t t2 e, st.beginTx Side.src opts w.calls = (t, none) →
      st.beginTx Side.dst opts (w.calls ++ [Call.beginTx Side.src opts]) = (t2, some e) →
      (d.BeginTx st opts w).1
        = (some { src := t, dst := t2, pattern := d.pattern }, some e)) := by
  obtain ⟨h1, h2, h3, h4, h5, h6⟩ := pattern_ne
  refine ⟨?_, ?_, ?_, ?_⟩
  · intro hp t e hs
    simp [DoubleWritePool.BeginTx, hp, h1, poolBeginTx, hs]
  · intro hp t e hs
    simp [DoubleWritePool.BeginTx, hp, h4, h5, h6, poolBeginTx, hs]
  · intro hp t t2 e hs hd
    simp [DoubleWritePool.BeginTx, hp, h4, h5, h6, poolBeginTx, hs, World.call, hd]
  · intro hp t t2 e hs hd
    simp [DoubleWritePool.BeginTx, hp, h1, poolBeginTx, hs, World.call, hd]

/-- C5: evaluation of `BeginTx` where the claim fails.  Under `src_first`, with a
source that begins a transaction and a destination that does not, `BeginTx`
returns a composite handle together with the destination's error; under
`dst_first`, in the mirrored situation, it returns a composite handle and nil. -/
theorem BeginTx_srcFirst_returns_secondary_error :
    (DoubleWritePool.BeginTx { pattern := PatternSrcFirst } dstDownStores none World.empty).1
      = (some { src := some { side := Side.src, id := 0 }, dst := none,
                pattern := PatternSrcFirst },
          some (Error.other "dst down")) ∧
    (DoubleWritePool.BeginTx { pattern := PatternDstFirst } srcDownStores none World.empty).1
      = (some { src := none, dst := some { side := Side.dst, id := 0 },
                pattern := PatternDstFirst },
          none) := by
  constructor <;> rfl

/-- C6: on a composite handle whose pattern is `src_first` (resp. `dst_first`) and
whose primary transaction is `tp`, `Commit` and `Rollback` act on the primary
first.  If the primary fails, that error is returned and the primary call is the
only call made.  If the primary succeeds, nil is returned, and the only further
call is the same action on the secondary transaction when the handle holds one,
whatever that call returns. -/
theorem Commit_Rollback_primary_outcome (st : Stores) (d : DoubleWriteTx) (w : World)
    (tp : SqlTx) :
    (d.pattern = PatternSrcFirst → d.src = some tp →
      (∀ e, st.txCommit tp w.calls = some e →
        d.Commit st w = (Outcome.ok (some e), w.call (Call.txCommit tp))) ∧
      (st.txCommit tp w.calls = none →
        (d.Commit st w).1 = Outcome.ok none ∧
        (d.Commit st w).2.calls
          = w.calls ++ Call.txCommit tp :: d.dst.toList.map Call.txCommit) ∧
      (∀ e, st.txRollback tp w.calls = some e →
        d.Rollback st w = (Outcome.ok (some e), w.call (Call.txRollback tp))) ∧
      (st.txRollback tp w.calls = none →
        (d.Rollback st w).1 = Outcome.ok none ∧
        (d.Rollback st w).2.calls
          = w.calls ++ Call.txRollback tp :: d.dst.toList.map Call.txRollback)) ∧
    (d.pattern = PatternDstFirst → d.dst = some tp →
      (∀ e, st.txCommit tp w.calls = some e →
        d.Commit st w = (Outcome.ok (some e), w.call (Call.txCommit tp))) ∧
      (st.txCommit tp w.calls = none →
        (d.Commit st w).1 = Outcome.ok none ∧
        (d.Commit st w).2.calls
          = w.calls ++ Call.txCommit tp :: d.src.toList.map Call.txCommit) ∧
      (∀ e, st.txRollback tp w.calls = some e →
        d.Rollback st w = (Outcome.ok (some e), w.call (Call.txRollback tp))) ∧
      (st.txRollback tp w.calls = none →
        (d.Rollback st w).1 = Outcome.ok none ∧
        (d.Rollback st w).2.calls
          = w.calls ++ Call.txRollback tp :: d.src.toList.map Call.txRollback)) := by
  obtain ⟨h1, h2, h3, h4, h5, h6⟩ := pattern_ne
  refine ⟨?_, ?_⟩
  · intro hp hs
    refine ⟨?_, ?_, ?_, ?_⟩
    · intro e he
      simp [DoubleWriteTx.Commit, hp, h1, hs, sqlTxCommit, he]
    · intro he
      simp only [DoubleWriteTx.Commit, hp, h1, if_false, if_true, hs, sqlTxCommit, he]
      rcases hd : d.dst with _ | ts
      · simp [World.call]
      · rcases hc : st.txCommit ts (w.calls ++ [Call.txCommit tp]) with _ | e2 <;>
          simp [hc, World.call, World.logError]
    · intro e he
      simp [DoubleWriteTx.Rollback, hp, h1, hs, sqlTxRollback, he]
    · intro he
      simp only [DoubleWriteTx.Rollback, hp, h1, if_false, if_true, hs, sqlTxRollback, he]
      rcases hd : d.dst with _ | ts
      · simp [World.call]
      · rcases hc : st.txRollback ts (w.calls ++ [Call.txRollback tp]) with _ | e2 <;>
          simp [hc, World.call, World.logError]
  · intro hp hs
    refine ⟨?_, ?_, ?_, ?_⟩
    · intro e he
      simp [DoubleWriteTx.Commit, hp, h4, h5, hs, sqlTxCommit, he]
    · intro he
      simp only [DoubleWriteTx.Commit, hp, h4, h5, if_false, if_true, hs, sqlTxCommit, he]
      rcases hd : d.src with _ | ts
      · simp [World.call]
      · rcases hc : st.txCommit ts (w.calls ++ [Call.txCommit tp]) with _ | e2 <;>
          simp [hc, World.call, World.logError]
    · intro e he
      simp [DoubleWriteTx.Rollback, hp, h4, h5, hs, sqlTxRollback, he]
    · intro he
      simp only [DoubleWriteTx.Rollback, hp, h4, h5, if_false, if_true, hs, sqlTxRollback, he]
      rcases hd : d.src with _ | ts
      · simp [World.call]
      · rcases hc : st.txRollback ts (w.calls ++ [Call.txRollback tp]) with _ | e2 <;>
          simp [hc, World.call, World.logError]

/-- Witness of C6: with the destination down, committing a `src_first` handle that
holds both transactions returns nil after committing the source and then the
destination. -/
theorem Commit_Rollback_primary_outcome_witness :
    (DoubleWriteTx.Commit
        { src := some { side := Side.src, id := 0 }, dst := some { side := Side.dst, id := 1 },
          pattern := PatternSrcFirst } dstDownStores World.empty).1 = Outcome.ok none ∧
    (DoubleWriteTx.Commit
        { src := some { side := Side.src, id := 0 }, dst := some { side := Side.dst, id := 1 },
          pattern := PatternSrcFirst } dstDownStores World.empty).2.calls
      = [Call.txCommit { side := Side.src, id := 0 }, Call.txCommit { side := Side.dst, id := 1 }] :=
  ((Commit_Rollback_primary_outcome dstDownStores
    { src := some { side := Side.src, id := 0 }, dst := some { side := Side.dst, id := 1 },
      pattern := PatternSrcFirst } World.empty { side := Side.src, id := 0 }).1 rfl rfl).2.1 rfl

/-- The operations of a handle whose pattern is `src_only` or `src_first` and
whose source transaction is `tp`: the two queries are one call on `tp`; the
other three call `tp` first and, under `src_first` after a nil error, the
destination transaction of the handle.  `ExecContext` makes that second call
also when the handle holds no destination transaction, and then panics. -/
theorem tx_src_routes (st : Stores) (h : DoubleWriteTx) (tp : SqlTx)
    (hp : h.pattern = PatternSrcOnly ∨ h.pattern = PatternSrcFirst) (hs : h.src = some tp)
    (query : String) (args : List String) (w : World) :
    h.QueryContext st query args w
      = (Outcome.ok (st.txQueryContext tp query args w.calls),
          w.call (Call.txQueryContext tp query args)) ∧
    h.QueryRowContext st query args w
      = (Outcome.ok (st.txQueryRowContext tp query args w.calls),
          w.call (Call.txQueryRowContext tp query args)) ∧
    (h.ExecContext st query args w).1
      = (if h.pattern = PatternSrcFirst ∧ (st.txExecContext tp query args w.calls).2 = none ∧
            h.dst = none then Outcome.panic nilTx
         else Outcome.ok (st.txExecContext tp query args w.calls)) ∧
    (h.ExecContext st query args w).2.calls
      = w.calls ++ Call.txExecContext tp query args ::
          (if h.pattern = PatternSrcFirst ∧ (st.txExecContext tp query args w.calls).2 = none
            then h.dst.toList.map (fun td => Call.txExecContext td query args) else []) ∧
    (h.Commit st w).1 = Outcome.ok (st.txCommit tp w.calls) ∧
    (h.Commit st w).2.calls
      = w.calls ++ Call.txCommit tp ::
          (if h.pattern = PatternSrcFirst ∧ st.txCommit tp w.calls = none
            then h.dst.toList.map Call.txCommit else []) ∧
    (h.Rollback st w).1 = Outcome.ok (st.txRollback tp w.calls) ∧
    (h.Rollback st w).2.calls
      = w.calls ++ Call.txRollback tp ::
          (if h.pattern = PatternSrcFirst ∧ st.txRollback tp w.calls = none
            then h.dst.toList.map Call.txRollback else []) := by
  obtain ⟨h1, h2, h3, h4, h5, h6⟩ := pattern_ne
  rcases h with ⟨src, dst, pattern⟩
  simp only at hp hs
  subst hs
  refine ⟨?_, ?_, ?_, ?_, ?_, ?_, ?_, ?_⟩
  · simp [DoubleWriteTx.QueryContext, hp, sqlTxQuery]
  · simp [DoubleWriteTx.QueryRowContext, hp, sqlTxQueryRow]
  · rcases hp with hp | hp
    · subst hp
      simp [DoubleWriteTx.ExecContext, sqlTxExec, h1.symm]
    · subst hp
      simp only [DoubleWriteTx.ExecContext, h1, if_false, if_true, sqlTxExec]
      rcases hr : st.txExecContext tp query args w.calls with ⟨res, _ | e⟩
      · rcases dst with _ | td
        · simp
        · rcases hd : st.txExecContext td query args
            (w.call (Call.txExecContext tp query args)).calls with ⟨r2, _ | e2⟩ <;> simp [hd]
      · simp
  · rcases hp with hp | hp
    · subst hp
      simp [DoubleWriteTx.ExecContext, sqlTxExec, h1.symm, World.call]
    · subst hp
      simp only [DoubleWriteTx.ExecContext, h1, if_false, if_true, sqlTxExec]
      rcases hr : st.txExecContext tp query args w.calls with ⟨res, _ | e⟩
      · rcases dst with _ | td
        · simp [World.call]
        · rcases hd : st.txExecContext td query args
            (w.calls ++ [Call.txExecContext tp query args]) with ⟨r2, _ | e2⟩ <;>
            simp [hd, World.call, World.logError]
      · simp [World.call]
  · rcases hp with hp | hp
    · subst hp
      simp [DoubleWriteTx.Commit, sqlTxCommit]
    · subst hp
      simp only [DoubleWriteTx.Commit, h1, if_false, if_true, sqlTxCommit]
      rcases hr : st.txCommit tp w.calls with _ | e
      · rcases dst with _ | td
        · simp
        · rcases hd : st.txCommit td (w.call (Call.txCommit tp)).calls with _ | e2 <;>
            simp [hd]
      · simp
  · rcases hp with hp | hp
    · subst hp
      simp [DoubleWriteTx.Commit, sqlTxCommit, h1.symm, World.call]
    · subst hp
      simp only [DoubleWriteTx.Commit, h1, if_false, if_true, sqlTxCommit]
      rcases hr : st.txCommit tp w.calls with _ | e
      · rcases dst with _ | td
        · simp [World.call]
        · rcases hd : st.txCommit td (w.calls ++ [Call.txCommit tp]) with _ | e2 <;>
            simp [hd, World.call, World.logError]
      · simp [World.call]
  · rcases hp with hp | hp
    · subst hp
      simp [DoubleWriteTx.Rollback, sqlTxRollback]
    · subst hp
      simp only [DoubleWriteTx.Rollback, h1, if_false, if_true, sqlTxRollback]
      rcases hr : st.txRollback tp w.calls with _ | e
      · rcases dst with _ | td
        · simp
        · rcases hd : st.txRollback td (w.call (Call.txRollback tp)).calls with _ | e2 <;>
            simp [hd]
      · simp
  · rcases hp with hp | hp
    · subst hp
      simp [DoubleWriteTx.Rollback, sqlTxRollback, h1.symm, World.call]
    · subst hp
      simp only [DoubleWriteTx.Rollback, h1, if_false, if_true, sqlTxRollback]
      rcases hr : st.txRollback tp w.calls with _ | e
      · rcases dst with _ | td
        · simp [World.call]
        · rcases hd : st.txRollback td (w.calls ++ [Call.txRollback tp]) with _ | e2 <;>
            simp [hd, World.call, World.logError]
      · simp [World.call]

/-- The operations of a handle whose pattern is `dst_only` or `dst_first` and
whose destination transaction is `tp`: the two queries are one call on `tp`;
the other three call `tp` first and, under `dst_first` after a nil error, the
source transaction of the handle.  `ExecContext` makes that second call also
when the handle holds no source transaction, and then panics. -/
theorem tx_dst_routes (st : Stores) (h : DoubleWriteTx) (tp : SqlTx)
    (hp : h.pattern = PatternDstOnly ∨ h.pattern = PatternDstFirst) (hs : h.dst = some tp)
    (query : String) (args : List String) (w : World) :
    h.QueryContext st query args w
      = (Outcome.ok (st.txQueryContext tp query args w.calls),
          w.call (Call.txQueryContext tp query args)) ∧
    h.QueryRowContext st query args w
      = (Outcome.ok (st.txQueryRowContext tp query args w.calls),
          w.call (Call.txQueryRowContext tp query args)) ∧
    (h.ExecContext st query args w).1
      = (if h.pattern = PatternDstFirst ∧ (st.txExecContext tp query args w.calls).2 = none ∧
            h.src = none then Outcome.panic nilTx
         else Outcome.ok (st.txExecContext tp query args w.calls)) ∧
    (h.ExecContext st query args w).2.calls
      = w.calls ++ Call.txExecContext tp query args ::
          (if h.pattern = PatternDstFirst ∧ (st.txExecContext tp query args w.calls).2 = none
            then h.src.toList.map (fun td => Call.txExecContext td query args) else []) ∧
    (h.Commit st w).1 = Outcome.ok (st.txCommit tp w.calls) ∧
    (h.Commit st w).2.calls
      = w.calls ++ Call.txCommit tp ::
          (if h.pattern = PatternDstFirst ∧ st.txCommit tp w.calls = none
            then h.src.toList.map Call.txCommit else []) ∧
    (h.Rollback st w).1 = Outcome.ok (st.txRollback tp w.calls) ∧
    (h.Rollback st w).2.calls
      = w.calls ++ Call.txRollback tp ::
          (if h.pattern = PatternDstFirst ∧ st.txRollback tp w.calls = none
            then h.src.toList.map Call.txRollback else []) := by
  obtain ⟨h1, h2, h3, h4, h5, h6⟩ := pattern_ne
  rcases h with ⟨src, dst, pattern⟩
  simp only at hp hs
  subst hs
  have hn : ¬ (pattern = PatternSrcOnly ∨ pattern = PatternSrcFirst) := by
    rcases hp with hp | hp <;> rw [hp] <;> simp [h2, h3, h4, h5]
  refine ⟨?_, ?_, ?_, ?_, ?_, ?_, ?_, ?_⟩
  · simp [DoubleWriteTx.QueryContext, hp, hn, sqlTxQuery]
  · simp [DoubleWriteTx.QueryRowContext, hp, hn, sqlTxQueryRow]
  · rcases hp with hp | hp
    · subst hp
      simp [DoubleWriteTx.ExecContext, sqlTxExec, h2, h3, h6.symm]
    · subst hp
      simp only [DoubleWriteTx.ExecContext, h4, h5, h6, if_false, if_true, sqlTxExec]
      rcases hr : st.txExecContext tp query args w.calls with ⟨res, _ | e⟩
      · rcases src with _ | td
        · simp
        · rcases hd : st.txExecContext td query args
            (w.call (Call.txExecContext tp query args)).calls with ⟨r2, _ | e2⟩ <;> simp [hd]
      · simp
  · rcases hp with hp | hp
    · subst hp
      simp [DoubleWriteTx.ExecContext, sqlTxExec, h2, h3, h6.symm, World.call]
    · subst hp
      simp only [DoubleWriteTx.ExecContext, h4, h5, h6, if_false, if_true, sqlTxExec]
      rcases hr : st.txExecContext tp query args w.calls with ⟨res, _ | e⟩
      · rcases src with _ | td
        · simp [World.call]
        · rcases hd : st.txExecContext td query args
            (w.calls ++ [Call.txExecContext tp query args]) with ⟨r2, _ | e2⟩ <;>
            simp [hd, World.call, World.logError]
      · simp [World.call]
  · rcases hp with hp | hp
    · subst hp
      simp [DoubleWriteTx.Commit, sqlTxCommit, h2, h3, h6.symm]
    · subst hp
      simp only [DoubleWriteTx.Commit, h4, h5, h6, if_false, if_true, sqlTxCommit]
      rcases hr : st.txCommit tp w.calls with _ | e
      · rcases src with _ | td
        · simp
        · rcases hd : st.txCommit td (w.call (Call.txCommit tp)).calls with _ | e2 <;>
            simp [hd]
      · simp
  · rcases hp with hp | hp
    · subst hp
      simp [DoubleWriteTx.Commit, sqlTxCommit, h2, h3, h6.symm, World.call]
    · subst hp
      simp only [DoubleWriteTx.Commit, h4, h5, h6, if_false, if_true, sqlTxCommit]
      rcases hr : st.txCommit tp w.calls with _ | e
      · rcases src with _ | td
        · simp [World.call]
        · rcases hd : st.txCommit td (w.calls ++ [Call.txCommit tp]) with _ | e2 <;>
            simp [hd, World.call, World.logError]
      · simp [World.call]
  · rcases hp with hp | hp
    · subst hp
      simp [DoubleWriteTx.Rollback, sqlTxRollback, h2, h3, h6.symm]
    · subst hp
      simp only [DoubleWriteTx.Rollback, h4, h5, h6, if_false, if_true, sqlTxRollback]
      rcases hr : st.txRollback tp w.calls with _ | e
      · rcases src with _ | td
        · simp
        · rcases hd : st.txRollback td (w.call (Call.txRollback tp)).calls with _ | e2 <;>
            simp [hd]
      · simp
  · rcases hp with hp | hp
    · subst hp
      simp [DoubleWriteTx.Rollback, sqlTxRollback, h2, h3, h6.symm, World.call]
    · subst hp
      simp only [DoubleWriteTx.Rollback, h4, h5, h6, if_false, if_true, sqlTxRollback]
      rcases hr : st.txRollback tp w.calls with _ | e
      · rcases src with _ | td
        · simp [World.call]
        · rcases hd : st.txRollback td (w.calls ++ [Call.txRollback tp]) with _ | e2 <;>
            simp [hd, World.call, World.logError]
      · simp [World.call]

/-- The calls made directly on a pool whose pattern is `src_only` or `src_first`:
the two queries are one call on the source; `ExecContext` returns the answer
of the source and `BeginTx` begins on the source first, each followed by the
same call on the destination under `src_first` after a nil error. -/
theorem pool_src_routes (st : Stores) (d : DoubleWritePool)
    (hp : d.pattern = PatternSrcOnly ∨ d.pattern = PatternSrcFirst)
    (opts : Option TxOptions) (query : String) (args : List String) (w : World) :
    d.QueryContext st query args w
      = (st.queryContext Side.src query args w.calls,
          w.call (Call.queryContext Side.src query args)) ∧
    d.QueryRowContext st query args w
      = (Outcome.ok (st.queryRowContext Side.src query args w.calls),
          w.call (Call.queryRowContext Side.src query args)) ∧
    (d.ExecContext st query args w).1 = st.execContext Side.src query args w.calls ∧
    (d.ExecContext st query args w).2.calls
      = w.calls ++ Call.execContext Side.src query args ::
          (if d.pattern = PatternSrcFirst ∧ (st.execContext Side.src query args w.calls).2 = none
            then [Call.execContext Side.dst query args] else []) ∧
    (d.BeginTx st opts w).2.calls
      = w.calls ++ Call.beginTx Side.src opts ::
          (if d.pattern = PatternSrcFirst ∧ (st.beginTx Side.src opts w.calls).2 = none
            then [Call.beginTx Side.dst opts] else []) := by
  obtain ⟨h1, h2, h3, h4, h5, h6⟩ := pattern_ne
  rcases d with ⟨pattern⟩
  simp only at hp
  refine ⟨?_, ?_, ?_, ?_, ?_⟩
  · simp [DoubleWritePool.QueryContext, hp, poolQuery]
  · simp [DoubleWritePool.QueryRowContext, hp, poolQueryRow]
  · rcases hp with hp | hp
    · subst hp
      simp [DoubleWritePool.ExecContext, poolExec]
    · subst hp
      simp only [DoubleWritePool.ExecContext, h1, if_false, if_true, poolExec]
      rcases hr : st.execContext Side.src query args w.calls with ⟨res, _ | e⟩
      · rcases hd : st.execContext Side.dst query args
          (w.call (Call.execContext Side.src query args)).calls with ⟨r2, _ | e2⟩ <;> simp [hd]
      · simp
  · rcases hp with hp | hp
    · subst hp
      simp [DoubleWritePool.ExecContext, poolExec, h1.symm, World.call]
    · subst hp
      simp only [DoubleWritePool.ExecContext, h1, if_false, if_true, poolExec]
      rcases hr : st.execContext Side.src query args w.calls with ⟨res, _ | e⟩
      · rcases hd : st.execContext Side.dst query args
          (w.calls ++ [Call.execContext Side.src query args]) with ⟨r2, _ | e2⟩ <;>
          simp [hd, World.call, World.logError]
      · simp [World.call]
  · rcases hp with hp | hp
    · subst hp
      simp [DoubleWritePool.BeginTx, poolBeginTx, h1.symm, World.call]
    · subst hp
      simp only [DoubleWritePool.BeginTx, h1, if_false, if_true, poolBeginTx]
      rcases hr : st.beginTx Side.src opts w.calls with ⟨t, _ | e⟩
      · rcases hd : st.beginTx Side.dst opts
          (w.calls ++ [Call.beginTx Side.src opts]) with ⟨t2, _ | e2⟩ <;>
          simp [hd, World.call, World.logError]
      · simp [World.call]

/-- The calls made directly on a pool whose pattern is `dst_only` or `dst_first`:
the two queries are one call on the destination; `ExecContext` returns the
answer of the destination and `BeginTx` begins on the destination first, each
followed by the same call on the source under `dst_first` after a nil error. -/
theorem pool_dst_routes (st : Stores) (d : DoubleWritePool)
    (hp : d.pattern = PatternDstOnly ∨ d.pattern = PatternDstFirst)
    (opts : Option TxOptions) (query : String) (args : List String) (w : World) :
    d.QueryContext st query args w
      = (st.queryContext Side.dst query args w.calls,
          w.call (Call.queryContext Side.dst query args)) ∧
    d.QueryRowContext st query args w
      = (Outcome.ok (st.queryRowContext Side.dst query args w.calls),
          w.call (Call.queryRowContext Side.dst query args)) ∧
    (d.ExecContext st query args w).1 = st.execContext Side.dst query args w.calls ∧
    (d.ExecContext st query args w).2.calls
      = w.calls ++ Call.execContext Side.dst query args ::
          (if d.pattern = PatternDstFirst ∧ (st.execContext Side.dst query args w.calls).2 = none
            then [Call.execContext Side.src query args] else []) ∧
    (d.BeginTx st opts w).2.calls
      = w.calls ++ Call.beginTx Side.dst opts ::
          (if d.pattern = PatternDstFirst ∧ (st.beginTx Side.dst opts w.calls).2 = none
            then [Call.beginTx Side.src opts] else []) := by
  obtain ⟨h1, h2, h3, h4, h5, h6⟩ := pattern_ne
  rcases d with ⟨pattern⟩
  simp only at hp
  have hn : ¬ (pattern = PatternSrcOnly ∨ pattern = PatternSrcFirst) := by
    rcases hp with hp | hp <;> rw [hp] <;> simp [h2, h3, h4, h5]
  refine ⟨?_, ?_, ?_, ?_, ?_⟩
  · simp [DoubleWritePool.QueryContext, hp, hn, poolQuery]
  · simp [DoubleWritePool.QueryRowContext, hp, hn, poolQueryRow]
  · rcases hp with hp | hp
    · subst hp
      simp [DoubleWritePool.ExecContext, poolExec, h2, h3]
    · subst hp
      simp only [DoubleWritePool.ExecContext, h4, h5, h6, if_false, if_true, poolExec]
      rcases hr : st.execContext Side.dst query args w.calls with ⟨res, _ | e⟩
      · rcases hd : st.execContext Side.src query args
          (w.call (Call.execContext Side.dst query args)).calls with ⟨r2, _ | e2⟩ <;> simp [hd]
      · simp
  · rcases hp with hp | hp
    · subst hp
      simp [DoubleWritePool.ExecContext, poolExec, h2, h3, h6.symm, World.call]
    · subst hp
      simp only [DoubleWritePool.ExecContext, h4, h5, h6, if_false, if_true, poolExec]
      rcases hr : st.execContext Side.dst query args w.calls with ⟨res, _ | e⟩
      · rcases hd : st.execContext Side.src query args
          (w.calls ++ [Call.execContext Side.dst query args]) with ⟨r2, _ | e2⟩ <;>
          simp [hd, World.call, World.logError]
      · simp [World.call]
  · rcases hp with hp | hp
    · subst hp
      simp [DoubleWritePool.BeginTx, poolBeginTx, h2, h3, h6.symm, World.call]
    · subst hp
      simp only [DoubleWritePool.BeginTx, h4, h5, h6, if_false, if_true, poolBeginTx]
      rcases hr : st.beginTx Side.dst opts w.calls with ⟨t, _ | e⟩
      · rcases hd : st.beginTx Side.src opts
          (w.calls ++ [Call.beginTx Side.dst opts]) with ⟨t2, _ | e2⟩ <;>
          simp [hd, World.call, World.logError]
      · simp [World.call]

/-- A handle that `BeginTx` returns carries the pattern of the pool, and its
primary transaction is the one the primary store has just begun. -/
theorem BeginTx_handle (st : Stores) (d : DoubleWritePool) (opts : Option TxOptions)
    (w w1 : World) (h : DoubleWriteTx) (err : Option Error)
    (hb : d.BeginTx st opts w = ((some h, err), w1)) :
    h.pattern = d.pattern ∧
    ((d.pattern = PatternSrcOnly ∨ d.pattern = PatternSrcFirst) →
      h.src = (st.beginTx Side.src opts w.calls).1) ∧
    ((d.pattern = PatternDstOnly ∨ d.pattern = PatternDstFirst) →
      h.dst = (st.beginTx Side.dst opts w.calls).1) := by
  obtain ⟨h1, h2, h3, h4, h5, h6⟩ := pattern_ne
  unfold DoubleWritePool.BeginTx at hb
  split_ifs at hb with c1 c2 c3 c4
  · rcases hq : poolBeginTx st Side.src opts w with ⟨⟨a, b⟩, c⟩
    rw [hq] at hb
    simp only [Prod.mk.injEq, Option.some.injEq] at hb
    rw [← hb.1.1]
    have ha : a = (st.beginTx Side.src opts w.calls).1 := by
      unfold poolBeginTx at hq
      rw [← (Prod.mk.inj (Prod.mk.inj hq).1).1]
    refine ⟨rfl, fun _ => ha, ?_⟩
    rintro (hp | hp) <;> rw [c1] at hp
    · exact absurd hp.symm h2
    · exact absurd hp.symm h4
  · rcases hq : poolBeginTx st Side.src opts w with ⟨⟨a, _ | b⟩, c⟩
    · rw [hq] at hb
      dsimp only at hb
      have ha : a = (st.beginTx Side.src opts w.calls).1 := by
        unfold poolBeginTx at hq
        rw [← (Prod.mk.inj (Prod.mk.inj hq).1).1]
      have hd : ∀ x : DoubleWriteTx, x.src = a → x.pattern = d.pattern →
          x.pattern = d.pattern ∧
          ((d.pattern = PatternSrcOnly ∨ d.pattern = PatternSrcFirst) →
            x.src = (st.beginTx Side.src opts w.calls).1) ∧
          ((d.pattern = PatternDstOnly ∨ d.pattern = PatternDstFirst) →
            x.dst = (st.beginTx Side.dst opts w.calls).1) := by
        intro x hx hxp
        refine ⟨hxp, fun _ => hx.trans ha, ?_⟩
        rintro (hp | hp) <;> rw [c2] at hp
        · exact absurd hp.symm h3
        · exact absurd hp.symm h5
      rcases hq2 : poolBeginTx st Side.dst opts c with ⟨⟨a2, _ | b2⟩, c2⟩
      · rw [hq2] at hb
        simp only [Prod.mk.injEq, Option.some.injEq] at hb
        rw [← hb.1.1]
        exact hd _ rfl rfl
      · rw [hq2] at hb
        simp only [Prod.mk.injEq, Option.some.injEq] at hb
        rw [← hb.1.1]
        exact hd _ rfl rfl
    · rw [hq] at hb
      simp at hb
  · rcases hq : poolBeginTx st Side.dst opts w with ⟨⟨a, b⟩, c⟩
    rw [hq] at hb
    simp only [Prod.mk.injEq, Option.some.injEq] at hb
    rw [← hb.1.1]
    have ha : a = (st.beginTx Side.dst opts w.calls).1 := by
      unfold poolBeginTx at hq
      rw [← (Prod.mk.inj (Prod.mk.inj hq).1).1]
    refine ⟨rfl, ?_, fun _ => ha⟩
    rintro (hp | hp)
    · exact absurd hp c1
    · exact absurd hp c2
  · rcases hq : poolBeginTx st Side.dst opts w with ⟨⟨a, _ | b⟩, c⟩
    · rw [hq] at hb
      dsimp only at hb
      have ha : a = (st.beginTx Side.dst opts w.calls).1 := by
        unfold poolBeginTx at hq
        rw [← (Prod.mk.inj (Prod.mk.inj hq).1).1]
      have hd : ∀ x : DoubleWriteTx, x.dst = a → x.pattern = d.pattern →
          x.pattern = d.pattern ∧
          ((d.pattern = PatternSrcOnly ∨ d.pattern = PatternSrcFirst) →
            x.src = (st.beginTx Side.src opts w.calls).1) ∧
          ((d.pattern = PatternDstOnly ∨ d.pattern = PatternDstFirst) →
            x.dst = (st.beginTx Side.dst opts w.calls).1) := by
        intro x hx hxp
        refine ⟨hxp, ?_, fun _ => hx.trans ha⟩
        rintro (hp | hp)
        · exact absurd hp c1
        · exact absurd hp c2
      rcases hq2 : poolBeginTx st Side.src opts c with ⟨⟨a2, _ | b2⟩, c2⟩
      · rw [hq2] at hb
        simp only [Prod.mk.injEq, Option.some.injEq] at hb
        rw [← hb.1.1]
        exact hd _ rfl rfl
      · rw [hq2] at hb
        simp only [Prod.mk.injEq, Option.some.injEq] at hb
        rw [← hb.1.1]
        exact hd _ rfl rfl
    · rw [hq] at hb
      simp at hb
  · simp at hb

/-- C7: a handle that `BeginTx` returns carries the pattern the pool held at
that moment, and its calls go where that pattern says, whatever the pool's
pattern has become since: begun under `src_only` or `src_first`, the handle
holds the transaction the source began, both queries are one call on it, and
`ExecContext`, `Commit` and `Rollback` call it first and, under `src_first`
after a nil error, the destination transaction of the handle; begun under
`dst_only` or `dst_first`, the same with the two stores exchanged.  The pool
itself, after a successful `UpdatePattern p`, sends every later direct call
where `p` says: the queries to the source under `src_only` and `src_first` and
to the destination under `dst_only` and `dst_first`, and `ExecContext` and
`BeginTx` to that store first. -/
theorem BeginTx_handle_keeps_pattern (st : Stores) (d : DoubleWritePool)
    (opts : Option TxOptions) (w w1 : World) (h : DoubleWriteTx) (err : Option Error)
    (hb : d.BeginTx st opts w = ((some h, err), w1))
    (p : String) (query : String) (args : List String) (w2 : World) :
    h.pattern = d.pattern ∧
    ((d.pattern = PatternSrcOnly ∨ d.pattern = PatternSrcFirst) →
      h.src = (st.beginTx Side.src opts w.calls).1 ∧
      ∀ tp, h.src = some tp →
        h.QueryContext st query args w2
          = (Outcome.ok (st.txQueryContext tp query args w2.calls),
              w2.call (Call.txQueryContext tp query args)) ∧
        h.QueryRowContext st query args w2
          = (Outcome.ok (st.txQueryRowContext tp query args w2.calls),
              w2.call (Call.txQueryRowContext tp query args)) ∧
        (h.ExecContext st query args w2).1
          = (if d.pattern = PatternSrcFirst ∧
                (st.txExecContext tp query args w2.calls).2 = none ∧ h.dst = none
              then Outcome.panic nilTx
              else Outcome.ok (st.txExecContext tp query args w2.calls)) ∧
        (h.ExecContext st query args w2).2.calls
          = w2.calls ++ Call.txExecContext tp query args ::
              (if d.pattern = PatternSrcFirst ∧
                  (st.txExecContext tp query args w2.calls).2 = none
                then h.dst.toList.map (fun td => Call.txExecContext td query args) else []) ∧
        (h.Commit st w2).1 = Outcome.ok (st.txCommit tp w2.calls) ∧
        (h.Commit st w2).2.calls
          = w2.calls ++ Call.txCommit tp ::
              (if d.pattern = PatternSrcFirst ∧ st.txCommit tp w2.calls = none
                then h.dst.toList.map Call.txCommit else []) ∧
        (h.Rollback st w2).1 = Outcome.ok (st.txRollback tp w2.calls) ∧
        (h.Rollback st w2).2.calls
          = w2.calls ++ Call.txRollback tp ::
              (if d.pattern = PatternSrcFirst ∧ st.txRollback tp w2.calls = none
                then h.dst.toList.map Call.txRollback else [])) ∧
    ((d.pattern = PatternDstOnly ∨ d.pattern = PatternDstFirst) →
      h.dst = (st.beginTx Side.dst opts w.calls).1 ∧
      ∀ tp, h.dst = some tp →
        h.QueryContext st query args w2
          = (Outcome.ok (st.txQueryContext tp query args w2.calls),
              w2.call (Call.txQueryContext tp query args)) ∧
        h.QueryRowContext st query args w2
          = (Outcome.ok (st.txQueryRowContext tp query args w2.calls),
              w2.call (Call.txQueryRowContext tp query args)) ∧
        (h.ExecContext st query args w2).1
          = (if d.pattern = PatternDstFirst ∧
                (st.txExecContext tp query args w2.calls).2 = none ∧ h.src = none
              then Outcome.panic nilTx
              else Outcome.ok (st.txExecContext tp query args w2.calls)) ∧
        (h.ExecContext st query args w2).2.calls
          = w2.calls ++ Call.txExecContext tp query args ::
              (if d.pattern = PatternDstFirst ∧
                  (st.txExecContext tp query args w2.calls).2 = none
                then h.src.toList.map (fun td => Call.txExecContext td query args) else []) ∧
        (h.Commit st w2).1 = Outcome.ok (st.txCommit tp w2.calls) ∧
        (h.Commit st w2).2.calls
          = w2.calls ++ Call.txCommit tp ::
              (if d.pattern = PatternDstFirst ∧ st.txCommit tp w2.calls = none
                then h.src.toList.map Call.txCommit else []) ∧
        (h.Rollback st w2).1 = Outcome.ok (st.txRollback tp w2.calls) ∧
        (h.Rollback st w2).2.calls
          = w2.calls ++ Call.txRollback tp ::
              (if d.pattern = PatternDstFirst ∧ st.txRollback tp w2.calls = none
                then h.src.toList.map Call.txRollback else [])) ∧
    ((d.UpdatePattern p).1 = none →
      (d.UpdatePattern p).2.pattern = p ∧
      ((p = PatternSrcOnly ∨ p = PatternSrcFirst) →
        (d.UpdatePattern p).2.QueryContext st query args w2
          = (st.queryContext Side.src query args w2.calls,
              w2.call (Call.queryContext Side.src query args)) ∧
        (d.UpdatePattern p).2.QueryRowContext st query args w2
          = (Outcome.ok (st.queryRowContext Side.src query args w2.calls),
              w2.call (Call.queryRowContext Side.src query args)) ∧
        ((d.UpdatePattern p).2.ExecContext st query args w2).1
          = st.execContext Side.src query args w2.calls ∧
        ((d.UpdatePattern p).2.ExecContext st query args w2).2.calls
          = w2.calls ++ Call.execContext Side.src query args ::
              (if p = PatternSrcFirst ∧ (st.execContext Side.src query args w2.calls).2 = none
                then [Call.execContext Side.dst query args] else []) ∧
        ((d.UpdatePattern p).2.BeginTx st opts w2).2.calls
          = w2.calls ++ Call.beginTx Side.src opts ::
              (if p = PatternSrcFirst ∧ (st.beginTx Side.src opts w2.calls).2 = none
                then [Call.beginTx Side.dst opts] else [])) ∧
      ((p = PatternDstOnly ∨ p = PatternDstFirst) →
        (d.UpdatePattern p).2.QueryContext st query args w2
          = (st.queryContext Side.dst query args w2.calls,
              w2.call (Call.queryContext Side.dst query args)) ∧
        (d.UpdatePattern p).2.QueryRowContext st query args w2
          = (Outcome.ok (st.queryRowContext Side.dst query args w2.calls),
              w2.call (Call.queryRowContext Side.dst query args)) ∧
        ((d.UpdatePattern p).2.ExecContext st query args w2).1
          = st.execContext Side.dst query args w2.calls ∧
        ((d.UpdatePattern p).2.ExecContext st query args w2).2.calls
          = w2.calls ++ Call.execContext Side.dst query args ::
              (if p = PatternDstFirst ∧ (st.execContext Side.dst query args w2.calls).2 = none
                then [Call.execContext Side.src query args] else []) ∧
        ((d.UpdatePattern p).2.BeginTx st opts w2).2.calls
          = w2.calls ++ Call.beginTx Side.dst opts ::
              (if p = PatternDstFirst ∧ (st.beginTx Side.dst opts w2.calls).2 = none
                then [Call.beginTx Side.src opts] else []))) := by
  obtain ⟨hpat, hsrc, hdst⟩ := BeginTx_handle st d opts w w1 h err hb
  refine ⟨hpat, ?_, ?_, ?_⟩
  · intro hp
    refine ⟨hsrc hp, ?_⟩
    intro tp htp
    have hr := tx_src_routes st h tp (by rw [hpat]; exact hp) htp query args w2
    rw [hpat] at hr
    exact hr
  · intro hp
    refine ⟨hdst hp, ?_⟩
    intro tp htp
    have hr := tx_dst_routes st h tp (by rw [hpat]; exact hp) htp query args w2
    rw [hpat] at hr
    exact hr
  · intro hu
    have hd : (d.UpdatePattern p).2 = { pattern := p } := by
      unfold DoubleWritePool.UpdatePattern at hu ⊢
      split_ifs at hu ⊢
      rfl
    rw [hd]
    refine ⟨rfl, ?_, ?_⟩
    · intro hp
      exact pool_src_routes st { pattern := p } hp opts query args w2
    · intro hp
      exact pool_dst_routes st { pattern := p } hp opts query args w2

/-- Witness of C7: a handle opened under `src_only` still queries the source
transaction after the pool has been switched to `dst_only`, while a query made
on the pool goes to the destination. -/
theorem BeginTx_handle_keeps_pattern_witness :
    DoubleWriteTx.QueryContext
        { src := some { side := Side.src, id := 0 }, dst := none, pattern := PatternSrcOnly }
        dstDownStores "select" []
        { calls := [Call.beginTx Side.src none], logs := [] }
      = (Outcome.ok (dstDownStores.txQueryContext { side := Side.src, id := 0 } "select" []
            [Call.beginTx Side.src none]),
          { calls := [Call.beginTx Side.src none,
                      Call.txQueryContext { side := Side.src, id := 0 } "select" []],
            logs := [] }) ∧
    (DoubleWritePool.UpdatePattern { pattern := PatternSrcOnly } PatternDstOnly).2.QueryContext
        dstDownStores "select" [] { calls := [Call.beginTx Side.src none], logs := [] }
      = (dstDownStores.queryContext Side.dst "select" [] [Call.beginTx Side.src none],
          { calls := [Call.beginTx Side.src none, Call.queryContext Side.dst "select" []],
            logs := [] }) := by
  have hw := BeginTx_handle_keeps_pattern dstDownStores { pattern := PatternSrcOnly } none
    World.empty { calls := [Call.beginTx Side.src none], logs := [] }
    { src := some { side := Side.src, id := 0 }, dst := none, pattern := PatternSrcOnly }
    none rfl PatternDstOnly "select" []
    { calls := [Call.beginTx Side.src none], logs := [] }
  exact ⟨((hw.2.1 (Or.inl rfl)).2 { side := Side.src, id := 0 } rfl).1,
    ((hw.2.2.2 rfl).2.2 (Or.inl rfl)).1⟩

end connpool

namespace validator

open migrator events

/-! ## Arithmetic and list facts used by the scans -/

theorem wrapInt_of_range (x : Int) (h0 : 0 ≤ x) (h1 : x < 2 ^ 63) : wrapInt x = x := by
  unfold wrapInt
  norm_num at h1 ⊢
  omega

/-! ## Effects of the helpers -/

theorem notify_events {T : Type} (v : Validator) (env : Env T) (id : Int) (typ : String) (s : Run) :
    (v.notify env id typ s).events
      = s.events ++ [{ ID := id, Direction := v.direction, Typ := typ }] := by
  unfold Validator.notify
  split <;> simp [Run.emit, Run.logError]

theorem callFromBase_eq {T : Type} (v : Validator) (env : Env T) (offset : Int) (s : Run) :
    v.callFromBase env offset s
      = (env.base.orderOffsetFirst s.clock offset, s.read (Read.baseFirst offset)) := by
  unfold Validator.callFromBase
  split <;> rfl

section scans

variable {T : Type} [Entity T]

theorem sortById_perm (rows : List T) : (sortById rows).Perm rows :=
  List.perm_insertionSort _ rows

theorem sortById_length (rows : List T) : (sortById rows).length = rows.length :=
  (sortById_perm rows).length_eq

theorem mem_sortById (rows : List T) (r : T) : r ∈ sortById rows ↔ r ∈ rows :=
  (sortById_perm rows).mem_iff

theorem lookupById_eq_none (rows : List T) (id : Int) :
    lookupById rows id = none ↔ id ∉ rows.map Entity.ID := by
  unfold lookupById
  rw [List.find?_eq_none]
  simp only [decide_eq_true_eq, List.mem_map, not_exists, not_and, mem_sortById]

theorem lookupById_some (rows : List T) (id : Int) (d : T) (h : lookupById rows id = some d) :
    d ∈ rows ∧ Entity.ID d = id := by
  unfold lookupById at h
  have h1 := List.find?_some h
  have h2 := List.mem_of_find?_eq_some h
  exact ⟨(mem_sortById rows d).1 h2, by simpa using h1⟩

/-! ## The forward scan -/

/-- One pass of the forward loop at an offset that holds a row. -/
theorem forwardIter_row (v : Validator) (sel : T → T) (base target : List T)
    (producer : Nat → InconsistentEvent → Option Error) (k : Nat) (s : Run) (r : T)
    (hr : (sortById base).get? k = some r) (hk : (k : Int) + 1 < 2 ^ 63) :
    ∃ s1, v.forwardIter (tableEnv sel base target producer) (k : Int) s
        = Step.next ((k : Int) + 1) s1 ∧
      s1.events = s.events ++ forwardEventsOf v target r := by
  have hw : wrapInt ((k : Int) + 1) = (k : Int) + 1 :=
    wrapInt_of_range _ (by omega) hk
  unfold Validator.forwardIter
  rw [callFromBase_eq]
  simp only [tableEnv, tableDB, Int.toNat_ofNat, hr, hw]
  unfold forwardEventsOf
  rcases hl : lookupById target (Entity.ID r) with _ | d
  · refine ⟨_, rfl, ?_⟩
    rw [notify_events]
    simp [Run.read, eventFor]
  · by_cases hc : Entity.CompareTo r d = true
    · simp only [hc, if_true]
      exact ⟨_, rfl, by simp [Run.read]⟩
    · simp only [hc, if_false]
      refine ⟨_, rfl, ?_⟩
      rw [notify_events]
      simp [Run.read, eventFor]

/-- One pass of the forward loop at the offset just past the last row. -/
theorem forwardIter_end (v : Validator) (sel : T → T) (base target : List T)
    (producer : Nat → InconsistentEvent → Option Error) (k : Nat) (s : Run)
    (hr : (sortById base).get? k = none) (hfull : v.sleepInterval ≤ 0) :
    ∃ s1, v.forwardIter (tableEnv sel base target producer) (k : Int) s = Step.ret none s1 ∧
      s1.events = s.events := by
  unfold Validator.forwardIter
  rw [callFromBase_eq]
  simp only [tableEnv, tableDB, Int.toNat_ofNat, hr]
  simp [hfull, Run.read]

/-- The forward loop over two tables returns nil within `m + 1` passes when `m`
rows remain, and reports the events of the remaining rows in order. -/
theorem forwardLoop_table (v : Validator) (sel : T → T) (base target : List T)
    (producer : Nat → InconsistentEvent → Option Error)
    (hfull : v.sleepInterval ≤ 0) (hsize : base.length < 2 ^ 63) :
    ∀ (m k : Nat) (s : Run) (fuel : Nat), k + m = (sortById base).length → m < fuel →
      ∃ s1, v.forwardLoop (tableEnv sel base target producer) fuel (k : Int) s
          = some (none, s1) ∧
        s1.events = s.events ++ ((sortById base).drop k).flatMap (forwardEventsOf v target) := by
  intro m
  induction m with
  | zero =>
    intro k s fuel hk hf
    obtain ⟨f, rfl⟩ : ∃ f, fuel = f + 1 := ⟨fuel - 1, by omega⟩
    have hnone : (sortById base).get? k = none := List.get?_eq_none.2 (by omega)
    obtain ⟨s1, h1, h2⟩ := forwardIter_end v sel base target producer k s hnone hfull
    refine ⟨s1, ?_, ?_⟩
    · simp [Validator.forwardLoop, h1]
    · rw [h2, List.drop_of_length_le (by omega)]
      simp
  | succ m ih =>
    intro k s fuel hk hf
    obtain ⟨f, rfl⟩ : ∃ f, fuel = f + 1 := ⟨fuel - 1, by omega⟩
    have hlt : k < (sortById base).length := by omega
    have hget : (sortById base).get? k = some ((sortById base).get ⟨k, hlt⟩) :=
      List.get?_eq_get hlt
    have hlen := sortById_length base
    have hk63 : (k : Int) + 1 < 2 ^ 63 := by
      have : k + 1 < 2 ^ 63 := by omega
      exact_mod_cast this
    obtain ⟨s1, h1, h2⟩ := forwardIter_row v sel base target producer k s _ hget hk63
    obtain ⟨s2, h3, h4⟩ := ih (k + 1) s1 f (by omega) (by omega)
    refine ⟨s2, ?_, ?_⟩
    · simp only [Validator.forwardLoop, h1]
      exact_mod_cast h3
    · rw [h4, h2, List.drop_eq_getElem_cons hlt, List.flatMap_cons, List.append_assoc]
      rfl

theorem filter_targetMissing (v : Validator) (target : List T) (l : List T) :
    (l.flatMap (forwardEventsOf v target)).filter
        (fun e => decide (e.Typ = InconsistentEventTypeTargetMissing))
      = (l.filter (fun r => decide (Entity.ID r ∉ target.map Entity.ID))).map
          (eventFor v InconsistentEventTypeTargetMissing) := by
  induction l with
  | nil => rfl
  | cons r l ih =>
    rw [List.flatMap_cons, List.filter_append, ih]
    by_cases hm : Entity.ID r ∈ target.map Entity.ID
    · have hne : lookupById target (Entity.ID r) ≠ none := by
        rw [Ne, lookupById_eq_none]
        exact not_not.2 hm
      obtain ⟨d, hd⟩ := Option.ne_none_iff_exists'.1 hne
      have hf : List.filter (fun e => decide (e.Typ = InconsistentEventTypeTargetMissing))
          (forwardEventsOf v target r) = [] := by
        unfold forwardEventsOf
        rw [hd]
        by_cases hc : Entity.CompareTo r d = true
        · simp [hc]
        · simp only [hc, if_false]
          simp [eventFor, InconsistentEventTypeNEQ, InconsistentEventTypeTargetMissing]
      rw [hf, List.filter_cons_of_neg (by simpa using hm)]
      rfl
    · have hn : lookupById target (Entity.ID r) = none := (lookupById_eq_none _ _).2 hm
      have hf : List.filter (fun e => decide (e.Typ = InconsistentEventTypeTargetMissing))
          (forwardEventsOf v target r) = [eventFor v InconsistentEventTypeTargetMissing r] := by
        unfold forwardEventsOf
        rw [hn]
        simp [eventFor]
      rw [hf, List.filter_cons_of_pos (by simpa using hm)]
      rfl

theorem filter_neq (v : Validator) (target : List T) (l : List T) :
    (l.flatMap (forwardEventsOf v target)).filter
        (fun e => decide (e.Typ = InconsistentEventTypeNEQ))
      = (l.filter (mismatches target)).map (eventFor v InconsistentEventTypeNEQ) := by
  induction l with
  | nil => rfl
  | cons r l ih =>
    rw [List.flatMap_cons, List.filter_append, ih]
    rcases hl : lookupById target (Entity.ID r) with _ | d
    · have hf : List.filter (fun e => decide (e.Typ = InconsistentEventTypeNEQ))
          (forwardEventsOf v target r) = [] := by
        unfold forwardEventsOf
        rw [hl]
        simp [eventFor, InconsistentEventTypeNEQ, InconsistentEventTypeTargetMissing]
      have hm : mismatches target r = false := by
        unfold mismatches
        rw [hl]
      rw [hf, List.filter_cons_of_neg (by simp [hm])]
      rfl
    · by_cases hc : Entity.CompareTo r d = true
      · have hf : List.filter (fun e => decide (e.Typ = InconsistentEventTypeNEQ))
            (forwardEventsOf v target r) = [] := by
          unfold forwardEventsOf
          rw [hl]
          simp [hc]
        have hm : mismatches target r = false := by
          unfold mismatches
          rw [hl]
          simp [hc]
        rw [hf, List.filter_cons_of_neg (by simp [hm])]
        rfl
      · have hf : List.filter (fun e => decide (e.Typ = InconsistentEventTypeNEQ))
            (forwardEventsOf v target r) = [eventFor v InconsistentEventTypeNEQ r] := by
          unfold forwardEventsOf
          rw [hl]
          simp [hc, eventFor]
        have hm : mismatches target r = true := by
          unfold mismatches
          rw [hl]
          simpa using hc
        rw [hf, List.filter_cons_of_pos hm]
        rfl

/-- The whole forward scan over two tables. -/
theorem validateBaseToTarget_table (v : Validator) (sel : T → T) (base target : List T)
    (producer : Nat → InconsistentEvent → Option Error) (fuel : Nat)
    (hfull : v.sleepInterval ≤ 0) (hsize : base.length < 2 ^ 63) (hfuel : base.length < fuel) :
    ∃ s, v.validateBaseToTarget (tableEnv sel base target producer) fuel = some (none, s) ∧
      s.events = (sortById base).flatMap (forwardEventsOf v target) := by
  have h := forwardLoop_table v sel base target producer hfull hsize (sortById base).length 0
    Run.start fuel (by omega) (by rw [sortById_length]; exact hfuel)
  obtain ⟨s, h1, h2⟩ := h
  refine ⟨s, ?_, ?_⟩
  · unfold Validator.validateBaseToTarget
    exact_mod_cast h1
  · rw [h2]
    simp [Run.start]

/-- C8: over a base table and a target table whose reads do not fail, one
full-mode forward scan returns nil, and the `target_missing` events it hands to
the producer are, in primary-key order, one for each base row whose id is absent
from the target, carrying that id; so for every id the number of `target_missing`
events with that id is the number of base rows with that id and absent from the
target. -/
theorem validateBaseToTarget_target_missing (v : Validator) (sel : T → T)
    (base target : List T) (producer : Nat → InconsistentEvent → Option Error) (fuel : Nat)
    (hfull : v.sleepInterval ≤ 0) (hsize : base.length < 2 ^ 63) (hfuel : base.length < fuel) :
    ∃ s, v.validateBaseToTarget (tableEnv sel base target producer) fuel = some (none, s) ∧
      s.events.filter (fun e => decide (e.Typ = InconsistentEventTypeTargetMissing))
        = ((sortById base).filter (fun r => decide (Entity.ID r ∉ target.map Entity.ID))).map
            (fun r => { ID := Entity.ID r, Direction := v.direction,
                        Typ := InconsistentEventTypeTargetMissing }) ∧
      ∀ i : Int,
        (s.events.filter
            (fun e => decide (e.Typ = InconsistentEventTypeTargetMissing ∧ e.ID = i))).length
          = (base.filter
              (fun r => decide (Entity.ID r = i ∧ i ∉ target.map Entity.ID))).length := by
  obtain ⟨s, h1, h2⟩ :=
    validateBaseToTarget_table v sel base target producer fuel hfull hsize hfuel
  have h3 := filter_targetMissing v target (sortById base)
  rw [← h2] at h3
  refine ⟨s, h1, h3, ?_⟩
  intro i
  have hsplit : s.events.filter
      (fun e => decide (e.Typ = InconsistentEventTypeTargetMissing ∧ e.ID = i))
      = (s.events.filter (fun e => decide (e.Typ = InconsistentEventTypeTargetMissing))).filter
          (fun e => decide (e.ID = i)) := by
    rw [List.filter_filter]
    congr 1
    funext e
    simp [and_comm]
  rw [hsplit, h3, List.filter_map, List.length_map, List.filter_filter]
  have hp := (sortById_perm base).filter
    (fun r => decide (Entity.ID r = i ∧ i ∉ target.map Entity.ID))
  rw [← hp.length_eq]
  congr 1
  apply List.filter_congr
  intro r _
  simp only [Function.comp, eventFor, Bool.decide_and, Bool.and_eq_true, decide_eq_true_eq,
    Bool.decide_eq_true]
  by_cases hi : Entity.ID r = i
  · subst hi
    simp
  · simp [hi]

theorem eq_of_ID_eq (rows : List T) (hkey : (rows.map Entity.ID).Nodup) (a b : T)
    (ha : a ∈ rows) (hb : b ∈ rows) (h : Entity.ID a = Entity.ID b) : a = b :=
  List.inj_on_of_nodup_map hkey ha hb h

theorem lookupById_self (rows : List T) (hkey : (rows.map Entity.ID).Nodup) (r : T)
    (hr : r ∈ rows) : lookupById rows (Entity.ID r) = some r := by
  rcases hl : lookupById rows (Entity.ID r) with _ | d
  · exact absurd (List.mem_map_of_mem Entity.ID hr) ((lookupById_eq_none _ _).1 hl)
  · obtain ⟨hd, hid⟩ := lookupById_some rows _ d hl
    rw [eq_of_ID_eq rows hkey d r hd hr hid]

theorem forwardEventsOf_ID (v : Validator) (target : List T) (r : T) (e : InconsistentEvent)
    (he : e ∈ forwardEventsOf v target r) : e.ID = Entity.ID r := by
  unfold forwardEventsOf at he
  split at he
  · simp only [List.mem_singleton] at he
    rw [he]
    rfl
  · split at he
    · simp at he
    · simp only [List.mem_singleton] at he
      rw [he]
      rfl

/-- C9: over a base table with distinct ids and a target table, whose reads do not
fail, one full-mode forward scan returns nil, and the `neq` events it hands to
the producer are, in primary-key order, one for each base row whose id is in the
target and whose target row does not compare equal; a base row whose target row
compares equal has no event of any type; and a scan of a table against itself,
for a reflexive `CompareTo`, hands no event to the producer. -/
theorem validateBaseToTarget_neq (v : Validator) (sel : T → T)
    (base target : List T) (producer : Nat → InconsistentEvent → Option Error) (fuel : Nat)
    (hfull : v.sleepInterval ≤ 0) (hsize : base.length < 2 ^ 63) (hfuel : base.length < fuel)
    (hkey : (base.map Entity.ID).Nodup) :
    ∃ s, v.validateBaseToTarget (tableEnv sel base target producer) fuel = some (none, s) ∧
      s.events.filter (fun e => decide (e.Typ = InconsistentEventTypeNEQ))
        = ((sortById base).filter (mismatches target)).map
            (fun r => { ID := Entity.ID r, Direction := v.direction,
                        Typ := InconsistentEventTypeNEQ }) ∧
      (∀ r ∈ base, mismatches target r = true →
        (s.events.filter
          (fun e => decide (e.Typ = InconsistentEventTypeNEQ ∧ e.ID = Entity.ID r))).length = 1) ∧
      (∀ r ∈ base, ∀ d, lookupById target (Entity.ID r) = some d →
        Entity.CompareTo r d = true → ∀ e ∈ s.events, e.ID ≠ Entity.ID r) ∧
      (target = base → (∀ x : T, Entity.CompareTo x x = true) → s.events = []) := by
  obtain ⟨s, h1, h2⟩ :=
    validateBaseToTarget_table v sel base target producer fuel hfull hsize hfuel
  have h3 := filter_neq v target (sortById base)
  rw [← h2] at h3
  have hkeys : ((sortById base).map Entity.ID).Nodup :=
    ((sortById_perm base).map Entity.ID).nodup_iff.2 hkey
  refine ⟨s, h1, h3, ?_, ?_, ?_⟩
  · intro r hr hm
    have hsplit : s.events.filter
        (fun e => decide (e.Typ = InconsistentEventTypeNEQ ∧ e.ID = Entity.ID r))
        = (s.events.filter (fun e => decide (e.Typ = InconsistentEventTypeNEQ))).filter
            (fun e => decide (e.ID = Entity.ID r)) := by
      rw [List.filter_filter]
      congr 1
      funext e
      rw [Bool.decide_and, Bool.and_comm]
    rw [hsplit, h3, List.filter_map, List.length_map, List.filter_filter]
    have hone : List.filter
        (fun a => ((fun e : InconsistentEvent => decide (e.ID = Entity.ID r)) ∘
          eventFor v InconsistentEventTypeNEQ) a && mismatches target a) (sortById base)
        = List.filter (fun a => ((fun i : Int => i == Entity.ID r) ∘ Entity.ID) a)
            (sortById base) := by
      apply List.filter_congr
      intro a ha
      by_cases hid : Entity.ID a = Entity.ID r
      · have har : a = r := eq_of_ID_eq base hkey a r ((mem_sortById base a).1 ha) hr hid
        subst har
        simp [eventFor, hm]
      · simp [eventFor, hid]
    rw [hone]
    have hmem : r ∈ sortById base := (mem_sortById base r).2 hr
    have hcount := List.count_eq_one_of_mem hkeys (List.mem_map_of_mem Entity.ID hmem)
    rw [List.count, List.countP_map, List.countP_eq_length_filter] at hcount
    exact hcount
  · intro r hr d hl hc e he
    rw [h2, List.mem_flatMap] at he
    obtain ⟨r1, hr1, he1⟩ := he
    intro hid
    have hid1 := forwardEventsOf_ID v target r1 e he1
    have hrr : r1 = r :=
      eq_of_ID_eq base hkey r1 r ((mem_sortById base r1).1 hr1) hr (by rw [← hid1, hid])
    subst hrr
    unfold forwardEventsOf at he1
    rw [hl] at he1
    simp [hc] at he1
  · intro ht hrefl
    subst ht
    rw [h2, List.flatMap_eq_nil_iff]
    intro r hr
    have hr1 : r ∈ target := (mem_sortById target r).1 hr
    unfold forwardEventsOf
    rw [lookupById_self target hkey r hr1]
    simp [hrefl]

end scans

/-- Witness of C8: base rows 1, 2, 3, 5 against target rows 2, 3, 7. -/
theorem validateBaseToTarget_target_missing_witness :
    ∃ s, (NewValidator "SRC").validateBaseToTarget
        (tableEnv Row.selectId demoBase demoTarget (fun _ _ => none)) 5 = some (none, s) ∧
      s.events.filter (fun e => decide (e.Typ = InconsistentEventTypeTargetMissing))
        = ((sortById demoBase).filter
            (fun r => decide (Entity.ID r ∉ demoTarget.map Entity.ID))).map
            (fun r => { ID := Entity.ID r, Direction := (NewValidator "SRC").direction,
                        Typ := InconsistentEventTypeTargetMissing }) ∧
      ∀ i : Int,
        (s.events.filter
            (fun e => decide (e.Typ = InconsistentEventTypeTargetMissing ∧ e.ID = i))).length
          = (demoBase.filter
              (fun r => decide (Entity.ID r = i ∧ i ∉ demoTarget.map Entity.ID))).length :=
  validateBaseToTarget_target_missing (NewValidator "SRC") Row.selectId demoBase demoTarget
    (fun _ _ => none) 5 (by decide) (by decide) (by decide)

/-- Witness of C9: row 3 differs between base and target, row 2 agrees. -/
theorem validateBaseToTarget_neq_witness :
    ∃ s, (NewValidator "SRC").validateBaseToTarget
        (tableEnv Row.selectId demoBase demoTarget (fun _ _ => none)) 5 = some (none, s) ∧
      s.events.filter (fun e => decide (e.Typ = InconsistentEventTypeNEQ))
        = ((sortById demoBase).filter (mismatches demoTarget)).map
            (fun r => { ID := Entity.ID r, Direction := (NewValidator "SRC").direction,
                        Typ := InconsistentEventTypeNEQ }) ∧
      (∀ r ∈ demoBase, mismatches demoTarget r = true →
        (s.events.filter
          (fun e => decide (e.Typ = InconsistentEventTypeNEQ ∧ e.ID = Entity.ID r))).length = 1) ∧
      (∀ r ∈ demoBase, ∀ d, lookupById demoTarget (Entity.ID r) = some d →
        Entity.CompareTo r d = true → ∀ e ∈ s.events, e.ID ≠ Entity.ID r) ∧
      (demoTarget = demoBase → (∀ x : Row, Entity.CompareTo x x = true) → s.events = []) :=
  validateBaseToTarget_neq (NewValidator "SRC") Row.selectId demoBase demoTarget
    (fun _ _ => none) 5 (by decide) (by decide) (by decide) (by decide)

end validator

namespace validator

open migrator events

/-! ## The reverse scan -/

theorem notifyBaseMissing_events {T : Type} [Entity T] (v : Validator) (env : Env T)
    (ts : List T) (s : Run) :
    (v.notifyBaseMissing env ts s).events
      = s.events ++ ts.map (eventFor v InconsistentEventTypeTBaseMissing) := by
  unfold Validator.notifyBaseMissing
  induction ts generalizing s with
  | nil => simp
  | cons t ts ih =>
    rw [List.foldl_cons, ih, notify_events]
    simp [eventFor]

section reverse

variable {T : Type} [Entity T]

theorem deduplicateFunc_of_nodup (l : List T) (h : (l.map Entity.ID).Nodup) :
    deduplicateFunc (fun src dst : T => decide (Entity.ID src = Entity.ID dst)) l = l := by
  induction l with
  | nil => rfl
  | cons a l ih =>
    rw [List.map_cons, List.nodup_cons] at h
    have hany : l.any (fun src => decide (Entity.ID src = Entity.ID a)) = false := by
      rw [Bool.eq_false_iff]
      intro hc
      rw [List.any_eq_true] at hc
      obtain ⟨x, hx, hxa⟩ := hc
      apply h.1
      rw [← of_decide_eq_true hxa]
      exact List.mem_map_of_mem Entity.ID hx
    simp only [deduplicateFunc, hany, ih h.2]
    simp

theorem DiffSetFunc_of_nodup (src dst : List T) (h : (src.map Entity.ID).Nodup) :
    DiffSetFunc src dst (fun a b : T => decide (Entity.ID a = Entity.ID b))
      = src.filter (fun val => decide (Entity.ID val ∉ dst.map Entity.ID)) := by
  unfold DiffSetFunc
  have hp : (fun val : T => !dst.any (fun d => decide (Entity.ID d = Entity.ID val)))
      = (fun val : T => decide (Entity.ID val ∉ dst.map Entity.ID)) := by
    funext val
    by_cases hm : Entity.ID val ∈ dst.map Entity.ID
    · have : dst.any (fun d => decide (Entity.ID d = Entity.ID val)) = true := by
        rw [List.any_eq_true]
        obtain ⟨d, hd, hid⟩ := List.mem_map.1 hm
        exact ⟨d, hd, decide_eq_true hid⟩
      simp [this, hm]
    · have : dst.any (fun d => decide (Entity.ID d = Entity.ID val)) = false := by
        rw [Bool.eq_false_iff]
        intro hc
        rw [List.any_eq_true] at hc
        obtain ⟨d, hd, hid⟩ := hc
        exact hm (List.mem_map.2 ⟨d, hd, of_decide_eq_true hid⟩)
      simp [this, hm]
  rw [hp]
  apply deduplicateFunc_of_nodup
  exact h.sublist ((List.filter_sublist _).map Entity.ID)

/-- The batch the reverse scan reads at offset `k`. -/
theorem batch_eq (rows : List T) (k : Nat) (b : Int) (hb : 0 < b) :
    offsetLimit (k : Int) b (sortById rows) = ((sortById rows).drop k).take b.toNat := by
  unfold offsetLimit
  rw [if_neg (by omega)]
  simp

/-- One pass of the reverse loop at an offset that holds a row: the events of the
batch are reported, and the loop either returns, in which case the batch was the
rest of the table, or goes on right after the batch. -/
theorem reverseIter_batch (v : Validator) (sel : T → T) (base target : List T)
    (producer : Nat → InconsistentEvent → Option Error) (k : Nat) (s : Run)
    (hfull : v.sleepInterval ≤ 0) (hbatch : 0 < v.batchSize)
    (hsel : ∀ r : T, Entity.ID (sel r) = Entity.ID r)
    (hkey : (target.map Entity.ID).Nodup)
    (hk : k < (sortById target).length) (hsize : target.length < 2 ^ 63) :
    ∃ s1, s1.events = s.events ++
        ((((sortById target).drop k).take v.batchSize.toNat).filter
          (fun r => decide (Entity.ID r ∉ base.map Entity.ID))).map
          (eventFor v InconsistentEventTypeTBaseMissing) ∧
      ((v.reverseIter (tableEnv sel base target producer) (k : Int) s = Step.ret none s1 ∧
          ((sortById target).drop k).take v.batchSize.toNat = (sortById target).drop k) ∨
        v.reverseIter (tableEnv sel base target producer) (k : Int) s
          = Step.next ((k + (((sortById target).drop k).take v.batchSize.toNat).length : Nat) : Int)
              s1) := by
  set batch := ((sortById target).drop k).take v.batchSize.toNat with hbdef
  have hlenpos : 0 < batch.length := by
    rw [hbdef, List.length_take, List.length_drop]
    have : 0 < v.batchSize.toNat := by omega
    omega
  have hlenle : k + batch.length ≤ (sortById target).length := by
    rw [hbdef, List.length_take, List.length_drop]
    omega
  have hsub : batch.Sublist (sortById target) :=
    (List.take_sublist _ _).trans (List.drop_sublist _ _)
  have hkeys : ((sortById target).map Entity.ID).Nodup :=
    ((sortById_perm target).map Entity.ID).nodup_iff.2 hkey
  have hbkey : (batch.map Entity.ID).Nodup := hkeys.sublist (hsub.map Entity.ID)
  have hselmap : (batch.map sel).map Entity.ID = batch.map Entity.ID := by
    rw [List.map_map]
    apply List.map_congr_left
    intro r _
    exact hsel r
  have hev : (batch.map sel).map (eventFor v InconsistentEventTypeTBaseMissing)
      = batch.map (eventFor v InconsistentEventTypeTBaseMissing) := by
    rw [List.map_map]
    apply List.map_congr_left
    intro r _
    simp [eventFor, hsel r]
  have hw : wrapInt ((k : Int) + len (batch.map sel)) = ((k + batch.length : Nat) : Int) := by
    have hl := sortById_length target
    have h63 : k + batch.length < 2 ^ 63 := by omega
    have h63i : ((k + batch.length : Nat) : Int) < 2 ^ 63 := by exact_mod_cast h63
    simp only [len, List.length_map]
    rw [← Nat.cast_add]
    exact wrapInt_of_range _ (by omega) h63i
  have hlen0 : ¬ len (batch.map sel) = 0 := by
    simp only [len, List.length_map]
    omega
  unfold Validator.reverseIter
  simp only [tableEnv, tableDB, batch_eq target k v.batchSize hbatch, ← hbdef, hselmap]
  simp only [reduceCtorEq, or_self, if_false, hlen0, false_or, ne_eq, not_true_eq_false, hw]
  by_cases hsrc : len (List.map sel (List.filter
      (fun r => decide (Entity.ID r ∈ batch.map Entity.ID)) (sortById base))) = 0
  · simp only [hsrc, if_true]
    refine ⟨_, ?_, Or.inr rfl⟩
    rw [notifyBaseMissing_events, hev]
    have hall : batch.filter (fun r => decide (Entity.ID r ∉ base.map Entity.ID)) = batch := by
      rw [List.filter_eq_self]
      intro r hr
      simp only [decide_eq_true_eq]
      intro hmem
      obtain ⟨x, hx, hid⟩ := List.mem_map.1 hmem
      have hx1 : x ∈ List.filter (fun r => decide (Entity.ID r ∈ batch.map Entity.ID))
          (sortById base) := by
        rw [List.mem_filter]
        refine ⟨(mem_sortById base x).2 hx, ?_⟩
        simp only [decide_eq_true_eq]
        rw [hid]
        exact List.mem_map_of_mem Entity.ID hr
      simp only [len, List.length_map] at hsrc
      have h0 : (List.filter (fun r => decide (Entity.ID r ∈ batch.map Entity.ID))
          (sortById base)).length = 0 := by exact_mod_cast hsrc
      rw [List.length_eq_zero] at h0
      rw [h0] at hx1
      simp at hx1
    rw [hall]
    simp [Run.read]
  · simp only [hsrc, if_false]
    have hdiff : DiffSetFunc (batch.map sel)
        (List.map sel (List.filter (fun r => decide (Entity.ID r ∈ batch.map Entity.ID))
          (sortById base)))
        (fun src dst : T => decide (Entity.ID src = Entity.ID dst))
        = (batch.filter (fun r => decide (Entity.ID r ∉ base.map Entity.ID))).map sel := by
      rw [DiffSetFunc_of_nodup _ _ (by rw [hselmap]; exact hbkey), List.filter_map]
      refine congrArg (List.map sel) (List.filter_congr ?_)
      intro r hr
      simp only [Function.comp, hsel r, List.map_map]
      rw [decide_eq_decide]
      apply not_congr
      constructor
      · intro hm
        obtain ⟨x, hx, hid⟩ := List.mem_map.1 hm
        rw [List.mem_filter] at hx
        simp only [Function.comp, hsel x] at hid
        rw [← hid]
        exact List.mem_map_of_mem Entity.ID ((mem_sortById base x).1 hx.1)
      · intro hm
        obtain ⟨x, hx, hid⟩ := List.mem_map.1 hm
        refine List.mem_map.2 ⟨x, ?_, ?_⟩
        · rw [List.mem_filter]
          refine ⟨(mem_sortById base x).2 hx, ?_⟩
          simp only [decide_eq_true_eq]
          rw [hid]
          exact List.mem_map_of_mem Entity.ID hr
        · simp only [Function.comp, hsel x]
          exact hid
    have hevs : (v.notifyBaseMissing (tableEnv sel base target producer)
        ((batch.filter (fun r => decide (Entity.ID r ∉ base.map Entity.ID))).map sel)
        ((s.read (Read.targetBatch (k : Int) v.batchSize)).read
          (Read.baseIn (batch.map Entity.ID)))).events
        = s.events ++ (batch.filter (fun r => decide (Entity.ID r ∉ base.map Entity.ID))).map
            (eventFor v InconsistentEventTypeTBaseMissing) := by
      rw [notifyBaseMissing_events, List.map_map]
      refine congrArg (fun l => s.events ++ l) (List.map_congr_left ?_)
      intro r _
      simp [eventFor, hsel r]
    simp only [tableEnv, tableDB] at hevs
    rw [hdiff]
    by_cases hshort : len (batch.map sel) < v.batchSize
    · simp only [hshort, if_true, hfull]
      refine ⟨_, hevs, Or.inl ⟨rfl, ?_⟩⟩
      rw [hbdef]
      apply List.take_of_length_le
      simp only [len, List.length_map] at hshort
      rw [hbdef, List.length_take] at hshort
      omega
    · simp only [hshort, if_false]
      exact ⟨_, hevs, Or.inr rfl⟩

/-- One pass of the reverse loop at an offset past the last row. -/
theorem reverseIter_end (v : Validator) (sel : T → T) (base target : List T)
    (producer : Nat → InconsistentEvent → Option Error) (k : Nat) (s : Run)
    (hfull : v.sleepInterval ≤ 0) (hbatch : 0 < v.batchSize)
    (hk : (sortById target).length ≤ k) :
    ∃ s1, v.reverseIter (tableEnv sel base target producer) (k : Int) s = Step.ret none s1 ∧
      s1.events = s.events := by
  unfold Validator.reverseIter
  simp only [tableEnv, tableDB, batch_eq target k v.batchSize hbatch,
    List.drop_of_length_le hk]
  simp [len, hfull, Run.read]

theorem drop_take_length {α : Type} (xs : List α) (b : Nat) :
    xs.drop (xs.take b).length = xs.drop b := by
  by_cases h : b ≤ xs.length
  · rw [List.length_take, Nat.min_eq_left h]
  · rw [List.length_take, Nat.min_eq_right (by omega), List.drop_of_length_le (le_refl _),
      List.drop_of_length_le (by omega)]

/-- The reverse loop over two tables returns nil within `m + 1` passes when `m`
rows remain, and reports the rows of the rest of the target that the base lacks. -/
theorem reverseLoop_table (v : Validator) (sel : T → T) (base target : List T)
    (producer : Nat → InconsistentEvent → Option Error)
    (hfull : v.sleepInterval ≤ 0) (hbatch : 0 < v.batchSize)
    (hsel : ∀ r : T, Entity.ID (sel r) = Entity.ID r)
    (hkey : (target.map Entity.ID).Nodup) (hsize : target.length < 2 ^ 63) :
    ∀ (m k : Nat) (s : Run) (fuel : Nat), k + m = (sortById target).length → m < fuel →
      ∃ s1, v.reverseLoop (tableEnv sel base target producer) fuel (k : Int) s
          = some (none, s1) ∧
        s1.events = s.events ++
          (((sortById target).drop k).filter
            (fun r => decide (Entity.ID r ∉ base.map Entity.ID))).map
            (eventFor v InconsistentEventTypeTBaseMissing) := by
  intro m
  induction m using Nat.strong_induction_on with
  | _ m ih =>
    intro k s fuel hk hf
    obtain ⟨f, rfl⟩ : ∃ f, fuel = f + 1 := ⟨fuel - 1, by omega⟩
    by_cases hm : m = 0
    · obtain ⟨s1, h1, h2⟩ :=
        reverseIter_end v sel base target producer k s hfull hbatch (by omega)
      refine ⟨s1, ?_, ?_⟩
      · simp [Validator.reverseLoop, h1]
      · rw [h2, List.drop_of_length_le (by omega)]
        simp
    · obtain ⟨s1, h1, h2⟩ := reverseIter_batch v sel base target producer k s hfull hbatch
        hsel hkey (by omega) hsize
      rcases h2 with ⟨h2, h3⟩ | h2
      · refine ⟨s1, ?_, ?_⟩
        · simp [Validator.reverseLoop, h2]
        · rw [h1, h3]
      · have hc : 0 < (((sortById target).drop k).take v.batchSize.toNat).length := by
          rw [List.length_take, List.length_drop]
          have : 0 < v.batchSize.toNat := by omega
          omega
        have hle : (((sortById target).drop k).take v.batchSize.toNat).length ≤ m := by
          rw [List.length_take, List.length_drop]
          omega
        obtain ⟨s2, h4, h5⟩ := ih
          (m - (((sortById target).drop k).take v.batchSize.toNat).length) (by omega)
          (k + (((sortById target).drop k).take v.batchSize.toNat).length) s1 f
          (by omega) (by omega)
        refine ⟨s2, ?_, ?_⟩
        · simp only [Validator.reverseLoop, h2]
          exact h4
        · rw [h5, h1, List.append_assoc, ← List.map_append, ← List.filter_append,
            ← List.drop_drop, drop_take_length, List.take_append_drop]

/-- C10: over a target table with distinct ids and a base table, whose reads do
not fail, and for every positive batch size (100 in `NewValidator`), one
full-mode reverse scan returns nil within `target.length + 1` passes, whatever
the size of the target, and the events it hands to the producer are, in
primary-key order, one `Base_missing` event for each target row whose id is
absent from the base; so an id has exactly one event when it is in the target and
not in the base, and none otherwise. -/
theorem validateTargetToBase_base_missing (v : Validator) (sel : T → T)
    (base target : List T) (producer : Nat → InconsistentEvent → Option Error) (fuel : Nat)
    (hfull : v.sleepInterval ≤ 0) (hbatch : 0 < v.batchSize)
    (hsel : ∀ r : T, Entity.ID (sel r) = Entity.ID r)
    (hkey : (target.map Entity.ID).Nodup) (hsize : target.length < 2 ^ 63)
    (hfuel : target.length < fuel) :
    ∃ s, v.validateTargetToBase (tableEnv sel base target producer) fuel = some (none, s) ∧
      s.events
        = ((sortById target).filter (fun r => decide (Entity.ID r ∉ base.map Entity.ID))).map
            (fun r => { ID := Entity.ID r, Direction := v.direction,
                        Typ := InconsistentEventTypeTBaseMissing }) ∧
      ∀ i : Int,
        (s.events.filter
            (fun e => decide (e.Typ = InconsistentEventTypeTBaseMissing ∧ e.ID = i))).length
          = if i ∈ target.map Entity.ID ∧ i ∉ base.map Entity.ID then 1 else 0 := by
  obtain ⟨s, h1, h2⟩ := reverseLoop_table v sel base target producer hfull hbatch hsel hkey
    hsize (sortById target).length 0 Run.start fuel (by omega)
    (by rw [sortById_length]; exact hfuel)
  have hev : s.events
      = ((sortById target).filter (fun r => decide (Entity.ID r ∉ base.map Entity.ID))).map
          (eventFor v InconsistentEventTypeTBaseMissing) := by
    rw [h2]
    simp [Run.start]
  refine ⟨s, ?_, hev, ?_⟩
  · unfold Validator.validateTargetToBase
    exact_mod_cast h1
  · intro i
    have hkeys : ((sortById target).map Entity.ID).Nodup :=
      ((sortById_perm target).map Entity.ID).nodup_iff.2 hkey
    rw [hev, List.filter_map, List.length_map, List.filter_filter]
    by_cases hi : i ∈ target.map Entity.ID ∧ i ∉ base.map Entity.ID
    · rw [if_pos hi]
      have hmem : i ∈ (sortById target).map Entity.ID :=
        ((sortById_perm target).map Entity.ID).mem_iff.2 hi.1
      have hcount := List.count_eq_one_of_mem hkeys hmem
      rw [List.count, List.countP_map, List.countP_eq_length_filter] at hcount
      rw [← hcount]
      refine congrArg List.length (List.filter_congr ?_)
      intro r _
      by_cases hr : Entity.ID r = i
      · subst hr
        simp [eventFor, hi.2]
      · simp [eventFor, hr]
    · rw [if_neg hi, List.length_eq_zero, List.filter_eq_nil_iff]
      intro r hr
      simp only [Function.comp, eventFor, Bool.and_eq_true, decide_eq_true_eq, not_and]
      rintro ⟨_, hid⟩ hb
      apply hi
      subst hid
      exact ⟨List.mem_map_of_mem Entity.ID ((mem_sortById target r).1 hr), hb⟩

end reverse

/-- Witness of C10: target rows 2, 3, 7 against base rows 1, 2, 3, 5. -/
theorem validateTargetToBase_base_missing_witness :
    ∃ s, (NewValidator "SRC").validateTargetToBase
        (tableEnv Row.selectId demoBase demoTarget (fun _ _ => none)) 4 = some (none, s) ∧
      s.events
        = ((sortById demoTarget).filter
            (fun r => decide (Entity.ID r ∉ demoBase.map Entity.ID))).map
            (fun r => { ID := Entity.ID r, Direction := (NewValidator "SRC").direction,
                        Typ := InconsistentEventTypeTBaseMissing }) ∧
      ∀ i : Int,
        (s.events.filter
            (fun e => decide (e.Typ = InconsistentEventTypeTBaseMissing ∧ e.ID = i))).length
          = if i ∈ demoTarget.map Entity.ID ∧ i ∉ demoBase.map Entity.ID then 1 else 0 :=
  validateTargetToBase_base_missing (NewValidator "SRC") Row.selectId demoBase demoTarget
    (fun _ _ => none) 4 (by decide) (by decide) (fun _ => rfl) (by decide) (by decide)
    (by decide)

end validator

namespace validator

open migrator events

/-! ## The incremental forward scan -/

/-- One pass of the forward loop of `incrValidator` at offset 1 of
`updatedLaterEnv`: the read finds no row, the loop sleeps and stays at offset 1. -/
theorem forwardIter_updatedLater (s : Run) :
    incrValidator.forwardIter updatedLaterEnv 1 s
      = Step.next 1 ((s.read (Read.baseFirst 1)).sleep 1000) := by
  unfold Validator.forwardIter
  rw [callFromBase_eq]
  by_cases h : s.clock < 3 <;>
    simp [updatedLaterEnv, changingDB, updatedLaterRows, tableDB, sortById, h, incrValidator, Validator.SleepInterval,
      Validator.Utime, Validator.Incr, NewValidator]

theorem forwardPasses_updatedLater (n : Nat) :
    ∀ s : Run, ∃ s1, incrValidator.forwardPasses updatedLaterEnv n 1 s = Step.next 1 s1 ∧
      s1.events = s.events ∧ s1.reads = s.reads ++ List.replicate n (Read.baseFirst 1) ∧
      s1.clock = s.clock + 2 * n ∧ s1.sleeps = s.sleeps ++ List.replicate n 1000 := by
  induction n with
  | zero =>
    intro s
    exact ⟨s, rfl, rfl, by simp, rfl, by simp⟩
  | succ n ih =>
    intro s
    obtain ⟨s1, h1, h2, h3, h4, h5⟩ := ih ((s.read (Read.baseFirst 1)).sleep 1000)
    refine ⟨s1, ?_, ?_, ?_, ?_, ?_⟩
    · simp only [Validator.forwardPasses, forwardIter_updatedLater]
      exact h1
    · rw [h2]
      rfl
    · rw [h3]
      simp [Run.read, Run.sleep, List.replicate_succ]
    · rw [h4]
      simp only [Run.read, Run.sleep]
      omega
    · rw [h5]
      simp [Run.read, Run.sleep, List.replicate_succ]

/-- C11: evaluation of `incrFromBase` where the claim fails.  For every
watermark `w`, `incrFromBase` of a validator configured with `Incr().Utime(w)`
issues the query of `fullFromBase` and returns its answer; over a base table
that holds one row updated at time 5, with watermark 10, it returns that row, and
the forward scan compares it and reports it. -/
theorem incrFromBase_ignores_utime :
    (∀ (T : Type) [Entity T] (v : Validator) (w : Int) (env : Env T) (offset : Int) (s : Run),
      ((v.Incr).Utime w).incrFromBase env offset s = v.fullFromBase env offset s) ∧
    (incrValidator.incrFromBase
        (tableEnv dao.Interactive.selectId [staleRow] [] (fun _ _ => none)) 0 Run.start).1
      = Except.ok staleRow ∧
    staleRow.Utime < incrValidator.utime ∧
    (incrValidator.forwardPasses
        (tableEnv dao.Interactive.selectId [staleRow] [] (fun _ _ => none)) 1 0
        Run.start).state.events
      = [{ ID := 1, Direction := "SRC", Typ := InconsistentEventTypeTargetMissing }] := by
  refine ⟨fun T _ v w env offset s => rfl, rfl, by decide, ?_⟩
  decide

/-- C12: evaluation of the incremental forward scan where the claim fails.  The
base row at offset 0 is examined once and found equal to the target row; it is
updated afterwards; however many passes follow, the scan sleeps and reads offset
1 again, never reads offset 0 again and reports nothing, while the base row and
the target row for id 1 differ. -/
theorem forward_scan_never_rereads (n : Nat) :
    ∃ s, incrValidator.forwardPasses updatedLaterEnv (n + 2) 0 Run.start = Step.next 1 s ∧
      s.events = [] ∧
      s.reads
        = [Read.baseFirst 0, Read.targetById 1] ++ List.replicate (n + 1) (Read.baseFirst 1) ∧
      s.sleeps = List.replicate (n + 1) 1000 ∧
      updatedLaterEnv.base.whereIdFirst s.clock 1 = Except.ok updatedRow ∧
      updatedLaterEnv.target.whereIdFirst s.clock 1 = Except.ok staleRow ∧
      Entity.CompareTo updatedRow staleRow = false := by
  have hfirst : incrValidator.forwardIter updatedLaterEnv 0 Run.start
      = Step.next 1 ((Run.start.read (Read.baseFirst 0)).read (Read.targetById 1)) := by
    decide
  obtain ⟨s, h1, h2, h3, h4, h5⟩ := forwardPasses_updatedLater (n + 1)
    ((Run.start.read (Read.baseFirst 0)).read (Read.targetById 1))
  refine ⟨s, ?_, ?_, ?_, ?_, ?_, ?_, by decide⟩
  · simp only [Validator.forwardPasses, hfirst]
    exact h1
  · rw [h2]
    rfl
  · rw [h3]
    rfl
  · rw [h5]
    rfl
  · have hc : ¬ s.clock < 3 := by
      rw [h4]
      simp only [Run.read, Run.start]
      omega
    simp only [updatedLaterEnv, changingDB, updatedLaterRows, hc, if_false]
    rfl
  · rfl

end validator

namespace validator

open migrator events

/-! ## Order of the reads of the forward scan -/

theorem notify_reads {T : Type} (v : Validator) (env : Env T) (id : Int) (typ : String)
    (s : Run) : (v.notify env id typ s).reads = s.reads := by
  unfold Validator.notify
  split <;> simp [Run.emit, Run.logError]

section order

variable {T : Type} [Entity T]

/-- The reads of one pass of the forward loop at an offset that holds a row. -/
theorem forwardIter_row_reads (v : Validator) (sel : T → T) (base target : List T)
    (producer : Nat → InconsistentEvent → Option Error) (k : Nat) (s : Run) (r : T)
    (hr : (sortById base).get? k = some r) (hk : (k : Int) + 1 < 2 ^ 63) :
    ∃ s1, v.forwardIter (tableEnv sel base target producer) (k : Int) s
        = Step.next ((k : Int) + 1) s1 ∧
      s1.reads = s.reads ++ [Read.baseFirst (k : Int), Read.targetById (Entity.ID r)] := by
  have hw : wrapInt ((k : Int) + 1) = (k : Int) + 1 :=
    wrapInt_of_range _ (by omega) hk
  unfold Validator.forwardIter
  rw [callFromBase_eq]
  simp only [tableEnv, tableDB, Int.toNat_ofNat, hr, hw]
  rcases hl : lookupById target (Entity.ID r) with _ | d
  · refine ⟨_, rfl, ?_⟩
    rw [notify_reads]
    simp [Run.read]
  · by_cases hc : Entity.CompareTo r d = true
    · simp only [hc, if_true]
      exact ⟨_, rfl, by simp [Run.read]⟩
    · simp only [hc, if_false]
      refine ⟨_, rfl, ?_⟩
      rw [notify_reads]
      simp [Run.read]

/-- The read of the pass of the forward loop at the offset just past the last row. -/
theorem forwardIter_end_reads (v : Validator) (sel : T → T) (base target : List T)
    (producer : Nat → InconsistentEvent → Option Error) (k : Nat) (s : Run)
    (hr : (sortById base).get? k = none) (hfull : v.sleepInterval ≤ 0) :
    ∃ s1, v.forwardIter (tableEnv sel base target producer) (k : Int) s = Step.ret none s1 ∧
      s1.reads = s.reads ++ [Read.baseFirst (k : Int)] := by
  unfold Validator.forwardIter
  rw [callFromBase_eq]
  simp only [tableEnv, tableDB, Int.toNat_ofNat, hr]
  simp [hfull, Run.read]

/-- The reads of the forward loop over two tables, from offset `k` on. -/
theorem forwardLoop_table_reads (v : Validator) (sel : T → T) (base target : List T)
    (producer : Nat → InconsistentEvent → Option Error)
    (hfull : v.sleepInterval ≤ 0) (hsize : base.length < 2 ^ 63) :
    ∀ (m k : Nat) (s : Run) (fuel : Nat), k + m = (sortById base).length → m < fuel →
      ∃ s1, v.forwardLoop (tableEnv sel base target producer) fuel (k : Int) s
          = some (none, s1) ∧
        s1.reads = s.reads ++
          (((sortById base).drop k).enumFrom k).flatMap
            (fun p => [Read.baseFirst (p.1 : Int), Read.targetById (Entity.ID p.2)]) ++
          [Read.baseFirst ((sortById base).length : Int)] := by
  intro m
  induction m with
  | zero =>
    intro k s fuel hk hf
    obtain ⟨f, rfl⟩ : ∃ f, fuel = f + 1 := ⟨fuel - 1, by omega⟩
    have hnone : (sortById base).get? k = none := List.get?_eq_none.2 (by omega)
    obtain ⟨s1, h1, h2⟩ := forwardIter_end_reads v sel base target producer k s hnone hfull
    refine ⟨s1, ?_, ?_⟩
    · simp [Validator.forwardLoop, h1]
    · have hkl : k = (sortById base).length := by omega
      rw [h2, List.drop_of_length_le (by omega), ← hkl]
      simp
  | succ m ih =>
    intro k s fuel hk hf
    obtain ⟨f, rfl⟩ : ∃ f, fuel = f + 1 := ⟨fuel - 1, by omega⟩
    have hlt : k < (sortById base).length := by omega
    have hget : (sortById base).get? k = some ((sortById base).get ⟨k, hlt⟩) :=
      List.get?_eq_get hlt
    have hlen := sortById_length base
    have hk63 : (k : Int) + 1 < 2 ^ 63 := by
      have : k + 1 < 2 ^ 63 := by omega
      exact_mod_cast this
    obtain ⟨s1, h1, h2⟩ := forwardIter_row_reads v sel base target producer k s _ hget hk63
    obtain ⟨s2, h3, h4⟩ := ih (k + 1) s1 f (by omega) (by omega)
    refine ⟨s2, ?_, ?_⟩
    · simp only [Validator.forwardLoop, h1]
      exact_mod_cast h3
    · rw [h4, h2, List.drop_eq_getElem_cons hlt, List.enumFrom_cons, List.flatMap_cons]
      simp only [List.append_assoc, List.get_eq_getElem]

/-- C13: over a base table of `n` rows (fewer than 2^63) and a target table,
whose reads do not fail, with `sleepInterval <= 0`, the forward scan returns nil
within `n + 1` passes; its reads are, for each offset from 0 to `n - 1` in turn,
the base row at that offset followed by the lookup of that row's id in the
target, and then the read at offset `n` that finds the end; the rows read are the
rows of the base, each once, in ascending order of primary key. -/
theorem validateBaseToTarget_visits_in_order (v : Validator) (sel : T → T)
    (base target : List T) (producer : Nat → InconsistentEvent → Option Error) (fuel : Nat)
    (hfull : v.sleepInterval ≤ 0) (hsize : base.length < 2 ^ 63) (hfuel : base.length < fuel) :
    ∃ s, v.validateBaseToTarget (tableEnv sel base target producer) fuel = some (none, s) ∧
      s.reads
        = (sortById base).enum.flatMap
            (fun p => [Read.baseFirst (p.1 : Int), Read.targetById (Entity.ID p.2)]) ++
          [Read.baseFirst (base.length : Int)] ∧
      (sortById base).Perm base ∧
      (sortById base).Sorted (fun a b => Entity.ID a ≤ Entity.ID b) := by
  obtain ⟨s, h1, h2⟩ := forwardLoop_table_reads v sel base target producer hfull hsize
    (sortById base).length 0 Run.start fuel (by omega) (by rw [sortById_length]; exact hfuel)
  refine ⟨s, ?_, ?_, sortById_perm base, ?_⟩
  · unfold Validator.validateBaseToTarget
    exact_mod_cast h1
  · rw [h2, sortById_length]
    simp [Run.start, List.enum]
  · haveI : IsTotal T (fun a b => Entity.ID a ≤ Entity.ID b) :=
      ⟨fun a b => le_total (Entity.ID a) (Entity.ID b)⟩
    haveI : IsTrans T (fun a b => Entity.ID a ≤ Entity.ID b) :=
      ⟨fun a b c hab hbc => le_trans hab hbc⟩
    exact List.sorted_insertionSort _ base

end order

/-- Witness of C13: the four rows of `demoBase` are read at offsets 0 to 3. -/
theorem validateBaseToTarget_visits_in_order_witness :
    ∃ s, (NewValidator "SRC").validateBaseToTarget
        (tableEnv Row.selectId demoBase demoTarget (fun _ _ => none)) 5 = some (none, s) ∧
      s.reads
        = (sortById demoBase).enum.flatMap
            (fun p => [Read.baseFirst (p.1 : Int), Read.targetById (Entity.ID p.2)]) ++
          [Read.baseFirst (demoBase.length : Int)] ∧
      (sortById demoBase).Perm demoBase ∧
      (sortById demoBase).Sorted (fun a b => Entity.ID a ≤ Entity.ID b) :=
  validateBaseToTarget_visits_in_order (NewValidator "SRC") Row.selectId demoBase demoTarget
    (fun _ _ => none) 5 (by decide) (by decide) (by decide)

end validator

namespace validator

open migrator events

/-! ## Failing reads and cancellation -/

/-- C14 as stated fails: the first read of the base runs into its timeout, and
the forward scan returns nil at once, with four base rows unread. -/
theorem forward_scan_returns_on_timeout :
    timeoutEnv.base.orderOffsetFirst 0 0 = Except.error Error.deadlineExceeded ∧
    (NewValidator "SRC").validateBaseToTarget timeoutEnv 1
      = some (none, { clock := 1, reads := [Read.baseFirst 0], events := [], sleeps := [],
                      logs := [] }) ∧
    demoBase.length = 4 :=
  ⟨rfl, by decide, rfl⟩

section errors

variable {T : Type} [Entity T]

/-- C14, amended: in one pass of the forward scan, a base read that fails with an
error other than `context.Canceled`, `context.DeadlineExceeded` and
`gorm.ErrRecordNotFound`, and a target lookup that fails with an error other than
`gorm.ErrRecordNotFound`, are logged, hand no event to the producer, and move the
scan to the next offset; a base read that fails with `context.Canceled` or
`context.DeadlineExceeded` makes the scan return nil, with no event. -/
theorem forwardIter_query_error (v : Validator) (env : Env T) (offset : Int) (s : Run) :
    (∀ e, env.base.orderOffsetFirst s.clock offset = Except.error e →
      e ≠ Error.canceled → e ≠ Error.deadlineExceeded → e ≠ Error.errRecordNotFound →
      v.forwardIter env offset s
        = Step.next (wrapInt (offset + 1))
            ((s.read (Read.baseFirst offset)).logError "base=>target 查询base失败") ∧
      (v.forwardIter env offset s).state.events = s.events) ∧
    (∀ src e, env.base.orderOffsetFirst s.clock offset = Except.ok src →
      env.target.whereIdFirst (s.clock + 1) (Entity.ID src) = Except.error e →
      e ≠ Error.errRecordNotFound →
      v.forwardIter env offset s
        = Step.next (wrapInt (offset + 1))
            (((s.read (Read.baseFirst offset)).read (Read.targetById (Entity.ID src))).logError
              "base=>target 查询target失败") ∧
      (v.forwardIter env offset s).state.events = s.events) ∧
    (∀ e, env.base.orderOffsetFirst s.clock offset = Except.error e →
      (e = Error.canceled ∨ e = Error.deadlineExceeded) →
      v.forwardIter env offset s = Step.ret none (s.read (Read.baseFirst offset)) ∧
      (v.forwardIter env offset s).state.events = s.events) := by
  refine ⟨?_, ?_, ?_⟩
  · intro e he h1 h2 h3
    have h : v.forwardIter env offset s
        = Step.next (wrapInt (offset + 1))
            ((s.read (Read.baseFirst offset)).logError "base=>target 查询base失败") := by
      unfold Validator.forwardIter
      rw [callFromBase_eq, he]
      simp [h1, h2, h3]
    exact ⟨h, by rw [h]; rfl⟩
  · intro src e hb ht hne
    have h : v.forwardIter env offset s
        = Step.next (wrapInt (offset + 1))
            (((s.read (Read.baseFirst offset)).read (Read.targetById (Entity.ID src))).logError
              "base=>target 查询target失败") := by
      unfold Validator.forwardIter
      rw [callFromBase_eq, hb]
      have hc : (s.read (Read.baseFirst offset)).clock = s.clock + 1 := rfl
      simp only [hc, ht]
    exact ⟨h, by rw [h]; rfl⟩
  · intro e he hce
    have h : v.forwardIter env offset s = Step.ret none (s.read (Read.baseFirst offset)) := by
      unfold Validator.forwardIter
      rw [callFromBase_eq, he]
      simp [hce]
    exact ⟨h, by rw [h]; rfl⟩

end errors

/-- Witness of C14: the first read of the base fails with a query error; the scan
logs it and moves to offset 1. -/
theorem forwardIter_query_error_witness :
    (NewValidator "SRC").forwardIter brokenReadEnv 0 Run.start
        = Step.next (wrapInt (0 + 1))
            ((Run.start.read (Read.baseFirst 0)).logError "base=>target 查询base失败") ∧
      ((NewValidator "SRC").forwardIter brokenReadEnv 0 Run.start).state.events
        = Run.start.events :=
  (forwardIter_query_error (NewValidator "SRC") brokenReadEnv 0 Run.start).1
    (Error.other "bad connection") rfl (by decide) (by decide) (by decide)

/-- C15 as stated fails: the context is cancelled after the first read of the
forward scan; the next store read, the lookup in the target, fails with
`context.Canceled` and the scan does not return there: it returns at the read
after it. -/
theorem forward_scan_returns_one_read_late :
    cancelledEnv.target.whereIdFirst 1 1 = Except.error Error.canceled ∧
    (NewValidator "SRC").validateBaseToTarget cancelledEnv 1 = none ∧
    (NewValidator "SRC").validateBaseToTarget cancelledEnv 2
      = some (none,
          { clock := 3,
            reads := [Read.baseFirst 0, Read.targetById 1, Read.baseFirst 1],
            events := [], sleeps := [], logs := ["base=>target 查询target失败"] }) :=
  ⟨rfl, by decide, by decide⟩

section cancel

variable {T : Type} [Entity T]

/-- Any pass of the forward loop whose target lookup fails with
`context.Canceled` hands no event to the producer. -/
theorem forwardIter_cancelled_lookup (v : Validator) (env : Env T) (offset : Int) (s : Run)
    (htarget : ∀ i, env.target.whereIdFirst (s.clock + 1) i = Except.error Error.canceled) :
    (v.forwardIter env offset s).state.events = s.events ∧
    s.clock + 1 ≤ (v.forwardIter env offset s).state.clock := by
  unfold Validator.forwardIter
  rw [callFromBase_eq]
  rcases hb : env.base.orderOffsetFirst s.clock offset with e | src
  · simp only
    split_ifs <;> simp [Step.state, Run.read, Run.sleep, Run.logError]
  · have hc : (s.read (Read.baseFirst offset)).clock = s.clock + 1 := rfl
    simp only [hc, htarget]
    simp [Step.state, Run.read, Run.logError]

/-- C15, amended: once the context is cancelled, so that every read of the base
row, of the target row and of the target batch from the moment `c` on fails with
`context.Canceled`, a forward scan that stands before a base read returns nil at
that read, a forward scan whose next read is the target lookup returns nil within
two passes, and a reverse scan that stands before a target batch read returns nil
at that read; none of them hands an event to the producer. -/
theorem scans_return_after_cancel (v : Validator) (env : Env T) (c : Nat)
    (hbase : ∀ t, c ≤ t → ∀ o, env.base.orderOffsetFirst t o = Except.error Error.canceled)
    (htarget : ∀ t, c ≤ t → ∀ i, env.target.whereIdFirst t i = Except.error Error.canceled)
    (hbatch : ∀ t, c ≤ t → ∀ o l,
      (env.target.selectIdOrderOffsetLimitFind t o l).2 = some Error.canceled) :
    (∀ (offset : Int) (s : Run) (fuel : Nat), c ≤ s.clock →
      v.forwardLoop env (fuel + 1) offset s = some (none, s.read (Read.baseFirst offset))) ∧
    (∀ (offset : Int) (s : Run) (fuel : Nat), c ≤ s.clock + 1 →
      ∃ s1, v.forwardLoop env (fuel + 2) offset s = some (none, s1) ∧ s1.events = s.events) ∧
    (∀ (offset : Int) (s : Run) (fuel : Nat), c ≤ s.clock →
      v.reverseLoop env (fuel + 1) offset s
        = some (none, s.read (Read.targetBatch offset v.batchSize))) := by
  have hfwd : ∀ (offset : Int) (s : Run), c ≤ s.clock →
      v.forwardIter env offset s = Step.ret none (s.read (Read.baseFirst offset)) := by
    intro offset s hs
    unfold Validator.forwardIter
    rw [callFromBase_eq, hbase s.clock hs offset]
    simp
  refine ⟨?_, ?_, ?_⟩
  · intro offset s fuel hs
    simp [Validator.forwardLoop, hfwd offset s hs]
  · intro offset s fuel hs
    obtain ⟨h1, h2⟩ := forwardIter_cancelled_lookup v env offset s
      (fun i => htarget (s.clock + 1) hs i)
    rcases hstep : v.forwardIter env offset s with ⟨o1, s1⟩ | ⟨err, s1⟩
    · rw [hstep] at h1 h2
      simp only [Step.state] at h1 h2
      refine ⟨s1.read (Read.baseFirst o1), ?_, ?_⟩
      · simp only [Validator.forwardLoop, hstep, hfwd o1 s1 (by omega)]
      · simp [Run.read, h1]
    · rw [hstep] at h1
      simp only [Step.state] at h1
      have herr : err = none := by
        unfold Validator.forwardIter at hstep
        rw [callFromBase_eq] at hstep
        rcases hb : env.base.orderOffsetFirst s.clock offset with e | src
        · rw [hb] at hstep
          simp only at hstep
          split_ifs at hstep <;> simp_all
        · rw [hb] at hstep
          have hc : (s.read (Read.baseFirst offset)).clock = s.clock + 1 := rfl
          simp only [hc, htarget (s.clock + 1) hs] at hstep
          simp at hstep
      subst herr
      exact ⟨s1, by simp [Validator.forwardLoop, hstep], h1⟩
  · intro offset s fuel hs
    have hrev : v.reverseIter env offset s
        = Step.ret none (s.read (Read.targetBatch offset v.batchSize)) := by
      unfold Validator.reverseIter
      rcases hq : env.target.selectIdOrderOffsetLimitFind s.clock offset v.batchSize
        with ⟨xs, err⟩
      have he : err = some Error.canceled := by
        have := hbatch s.clock hs offset v.batchSize
        rw [hq] at this
        exact this
      subst he
      simp
    simp [Validator.reverseLoop, hrev]

end cancel

/-- Witness of C15: on `cancelledEnv`, a forward scan that stands before a base
read after the cancellation returns nil at that read. -/
theorem scans_return_after_cancel_witness :
    (NewValidator "SRC").forwardLoop cancelledEnv (0 + 1) 7
        { clock := 1, reads := [], events := [], sleeps := [], logs := [] }
      = some (none,
          Run.read { clock := 1, reads := [], events := [], sleeps := [], logs := [] }
            (Read.baseFirst 7)) :=
  (scans_return_after_cancel (NewValidator "SRC") cancelledEnv 1
    (fun t ht o => by simp [cancelledEnv, failingFrom, failFrom, ht])
    (fun t ht i => by simp [cancelledEnv, failingFrom, failFrom, ht])
    (fun t ht o l => by simp [cancelledEnv, failingFrom, failFrom, ht])).1 7
    { clock := 1, reads := [], events := [], sleeps := [], logs := [] } 0 (by decide)

end validator

namespace fixer

open connpool events

/-! ## The override fixer -/

theorem get_set_same (d : DBs) (s : Side) (t : Table) : (d.set s t).get s = t := by
  cases s <;> rfl

theorem get_set_other (d : DBs) (s s1 : Side) (t : Table) (h : s1 ≠ s) :
    (d.set s t).get s1 = d.get s1 := by
  cases s <;> cases s1 <;> first | rfl | exact absurd rfl h

theorem set_set (d : DBs) (s : Side) (t t1 : Table) : (d.set s t).set s t1 = d.set s t1 := by
  cases s <;> rfl

theorem set_get (d : DBs) (s : Side) : d.set s (d.get s) = d := by
  cases s <;> rfl

theorem whereIdFirst_ok (t : Table) (id : Int) (b : Record)
    (h : whereIdFirst none t id = Except.ok b) :
    t.rows.find? (fun r => decide (r.ID = id)) = some b ∧ b.ID = id ∧ b ∈ t.rows := by
  unfold whereIdFirst at h
  simp only at h
  rcases hf : t.rows.find? (fun r => decide (r.ID = id)) with _ | r
  · rw [hf] at h
    simp at h
  · rw [hf] at h
    simp only [Except.ok.injEq] at h
    subst h
    exact ⟨hf, by simpa using List.find?_some hf, List.mem_of_find?_eq_some hf⟩

theorem whereIdFirst_notFound (t : Table) (id : Int) (e : Error)
    (h : whereIdFirst none t id = Except.error e) :
    e = Error.errRecordNotFound ∧ ∀ r ∈ t.rows, r.ID ≠ id := by
  unfold whereIdFirst at h
  simp only at h
  rcases hf : t.rows.find? (fun r => decide (r.ID = id)) with _ | r
  · rw [hf] at h
    simp only [Except.error.injEq] at h
    refine ⟨h.symm, ?_⟩
    intro r hr
    have := List.find?_eq_none.1 hf r hr
    simpa using this
  · rw [hf] at h
    simp at h

theorem assignColumns_ID (columns : List String) (old new : Record) (h : old.ID = new.ID) :
    (assignColumns columns old new).ID = new.ID := by
  unfold assignColumns Record.ID
  unfold Record.ID at h
  show (if "id" ∈ columns then new "id" else old "id") = new "id"
  split_ifs
  · rfl
  · exact h

theorem assignColumns_idem (columns : List String) (old new : Record) :
    assignColumns columns (assignColumns columns old new) new
      = assignColumns columns old new := by
  funext c
  unfold assignColumns
  split_ifs <;> rfl

theorem assignColumns_self (columns : List String) (r : Record) :
    assignColumns columns r r = r := by
  funext c
  unfold assignColumns
  split_ifs <;> rfl

/-- An upsert of the same row a second time changes nothing. -/
theorem createOnConflict_idem (columns : List String) (t : Table) (b : Record) :
    createOnConflict none columns (createOnConflict none columns t b).2 b
      = createOnConflict none columns t b := by
  unfold createOnConflict
  simp only
  by_cases hany : t.rows.any (fun old => decide (old.ID = b.ID)) = true
  · simp only [hany, if_true]
    have hany2 : (updateRows columns t.rows b).any (fun old => decide (old.ID = b.ID)) = true := by
      rw [List.any_eq_true] at hany ⊢
      obtain ⟨old, ho, hid⟩ := hany
      have hid1 : old.ID = b.ID := of_decide_eq_true hid
      refine ⟨assignColumns columns old b, ?_, ?_⟩
      · unfold updateRows
        exact List.mem_map.2 ⟨old, ho, by simp [hid1]⟩
      · exact decide_eq_true (assignColumns_ID columns old b hid1)
    simp only [hany2, if_true]
    have hrows : updateRows columns (updateRows columns t.rows b) b
        = updateRows columns t.rows b := by
      unfold updateRows
      rw [List.map_map]
      apply List.map_congr_left
      intro old _
      by_cases hid : old.ID = b.ID
      · simp [hid, assignColumns_ID columns old b hid, assignColumns_idem]
      · simp [hid]
    rw [hrows]
  · simp only [hany, if_false, Bool.false_eq_true]
    have hany2 : (t.rows ++ [b]).any (fun old => decide (old.ID = b.ID)) = true := by
      simp
    simp only [hany2, if_true]
    have hrows : updateRows columns (t.rows ++ [b]) b = t.rows ++ [b] := by
      unfold updateRows
      rw [List.map_append]
      have h1 : List.map (fun old => if old.ID = b.ID then assignColumns columns old b else old)
          t.rows = t.rows := by
        conv_rhs => rw [← List.map_id t.rows]
        apply List.map_congr_left
        intro old ho
        have hne : ¬ old.ID = b.ID := by
          intro hid
          apply hany
          rw [List.any_eq_true]
          exact ⟨old, ho, decide_eq_true hid⟩
        simp [hne]
      rw [h1]
      simp [assignColumns_self]
    rw [hrows]

/-- When `Rows()` and `Columns()` succeed, `NewOverrideFixer` holds the two
handles it was given and the column list of the base table. -/
theorem NewOverrideFixer_ok (base target : Side) (dbs : DBs) :
    NewOverrideFixer none none base target dbs
      = (some { base := base, target := target, columns := (dbs.get base).columns }, none) :=
  rfl

/-- C16: when every store operation succeeds, and the fixer holds the column
list of its base table (as `NewOverrideFixer` reads it) and has its base and its
target on different stores, `Fix id` returns nil and leaves the base as it was;
afterwards, if the base has no row with that id then the target has none either,
and if the base has the row `b` then the target has a row with that id, and every
target row with that id has the value of `b` in every column of the table. -/
theorem Fix_target_matches_base (f : OverrideFixer) (id : Int) (dbs : DBs)
    (hne : f.base ≠ f.target) (hcols : f.columns = (dbs.get f.base).columns) :
    (f.Fix Faults.ok id dbs).1 = none ∧
    (f.Fix Faults.ok id dbs).2.get f.base = dbs.get f.base ∧
    ((∀ r ∈ (dbs.get f.base).rows, r.ID ≠ id) →
      ∀ r ∈ ((f.Fix Faults.ok id dbs).2.get f.target).rows, r.ID ≠ id) ∧
    (∀ b, whereIdFirst none (dbs.get f.base) id = Except.ok b →
      (∃ r ∈ ((f.Fix Faults.ok id dbs).2.get f.target).rows, r.ID = id) ∧
      ∀ r ∈ ((f.Fix Faults.ok id dbs).2.get f.target).rows, r.ID = id →
        ∀ c ∈ (dbs.get f.base).columns, r c = b c) := by
  rcases hq : whereIdFirst none (dbs.get f.base) id with e | b
  · obtain ⟨he, hnone⟩ := whereIdFirst_notFound _ _ _ hq
    subst he
    have hfix : f.Fix Faults.ok id dbs
        = (none, dbs.set f.target
            { columns := (dbs.get f.target).columns,
              rows := (dbs.get f.target).rows.filter (fun r => !decide (r.ID = id)) }) := by
      unfold OverrideFixer.Fix
      simp only [Faults.ok, hq]
      rfl
    rw [hfix]
    refine ⟨rfl, get_set_other _ _ _ _ hne, ?_, ?_⟩
    · intro _ r hr
      rw [get_set_same] at hr
      simp only [List.mem_filter, Bool.not_eq_true', decide_eq_false_iff_not] at hr
      exact hr.2
    · intro b hb
      simp at hb
  · obtain ⟨_, hbid, hbmem⟩ := whereIdFirst_ok _ _ _ hq
    have hfix : f.Fix Faults.ok id dbs
        = ((createOnConflict none f.columns (dbs.get f.target) b).1,
            dbs.set f.target (createOnConflict none f.columns (dbs.get f.target) b).2) := by
      unfold OverrideFixer.Fix
      simp only [Faults.ok, hq]
    rw [hfix]
    refine ⟨?_, get_set_other _ _ _ _ hne, ?_, ?_⟩
    · unfold createOnConflict
      simp only
      split_ifs <;> rfl
    · intro habs
      exact absurd hbid (habs b hbmem)
    · intro b1 hb1
      simp only [Except.ok.injEq] at hb1
      subst hb1
      rw [get_set_same]
      unfold createOnConflict
      simp only
      by_cases hany : (dbs.get f.target).rows.any (fun old => decide (old.ID = b.ID)) = true
      · simp only [hany, if_true]
        constructor
        · rw [List.any_eq_true] at hany
          obtain ⟨old, ho, hid⟩ := hany
          have hid1 : old.ID = b.ID := of_decide_eq_true hid
          refine ⟨assignColumns f.columns old b, ?_, ?_⟩
          · unfold updateRows
            exact List.mem_map.2 ⟨old, ho, by simp [hid1]⟩
          · rw [assignColumns_ID f.columns old b hid1, hbid]
        · intro r hr hrid c hc
          unfold updateRows at hr
          obtain ⟨old, _, hold⟩ := List.mem_map.1 hr
          by_cases hid : old.ID = b.ID
          · rw [if_pos hid] at hold
            rw [← hold]
            unfold assignColumns
            rw [if_pos (by rw [hcols]; exact hc)]
          · rw [if_neg hid] at hold
            rw [hold, hrid, hbid] at hid
            exact absurd rfl hid
      · simp only [hany, if_false, Bool.false_eq_true]
        constructor
        · exact ⟨b, by simp, hbid⟩
        · intro r hr hrid c _
          rw [List.mem_append] at hr
          rcases hr with hr | hr
          · exfalso
            apply hany
            rw [List.any_eq_true]
            exact ⟨r, hr, decide_eq_true (by rw [hrid, hbid])⟩
          · simp only [List.mem_singleton] at hr
            rw [hr]

/-- Witness of C16: row 3 of the destination is overwritten by row 3 of the source. -/
theorem Fix_target_matches_base_witness :
    (∃ r ∈ ((demoFixer.Fix Faults.ok 3 demoDBs).2.get demoFixer.target).rows, r.ID = 3) ∧
    ∀ r ∈ ((demoFixer.Fix Faults.ok 3 demoDBs).2.get demoFixer.target).rows, r.ID = 3 →
      ∀ c ∈ (demoDBs.get demoFixer.base).columns, r c = demoRecord 3 30 c :=
  (Fix_target_matches_base demoFixer 3 demoDBs (by decide) rfl).2.2.2 (demoRecord 3 30) rfl

/-- C17: with its base and its target on different stores, and every store
operation succeeding, `Fix id` run a second time returns what the first run
returned and leaves both stores as the first run left them; and `Fix id` changes
neither store when neither table has a row with that id, or when the base has the
row `b`, the target has a row with that id, and every target row with that id is
`b`. -/
theorem Fix_idempotent (f : OverrideFixer) (id : Int) (dbs : DBs) (hne : f.base ≠ f.target) :
    f.Fix Faults.ok id (f.Fix Faults.ok id dbs).2 = f.Fix Faults.ok id dbs ∧
    ((∀ r ∈ (dbs.get f.base).rows, r.ID ≠ id) → (∀ r ∈ (dbs.get f.target).rows, r.ID ≠ id) →
      f.Fix Faults.ok id dbs = (none, dbs)) ∧
    (∀ b, whereIdFirst none (dbs.get f.base) id = Except.ok b →
      (∃ r ∈ (dbs.get f.target).rows, r.ID = id) →
      (∀ r ∈ (dbs.get f.target).rows, r.ID = id → r = b) →
      f.Fix Faults.ok id dbs = (none, dbs)) := by
  rcases hq : whereIdFirst none (dbs.get f.base) id with e | b
  · obtain ⟨he, hnone⟩ := whereIdFirst_notFound _ _ _ hq
    subst he
    have hfix : ∀ d : DBs,
        whereIdFirst none (d.get f.base) id = Except.error Error.errRecordNotFound →
        f.Fix Faults.ok id d
          = (none, d.set f.target
              { columns := (d.get f.target).columns,
                rows := (d.get f.target).rows.filter (fun r => !decide (r.ID = id)) }) := by
      intro d hd
      unfold OverrideFixer.Fix
      simp only [Faults.ok, hd]
      rfl
    refine ⟨?_, ?_, ?_⟩
    · rw [hfix dbs hq]
      rw [hfix _ (by rw [get_set_other _ _ _ _ hne]; exact hq), get_set_same, set_set]
      simp [List.filter_filter]
    · intro _ htar
      rw [hfix dbs hq]
      have hrows : (dbs.get f.target).rows.filter (fun r => !decide (r.ID = id))
          = (dbs.get f.target).rows := by
        rw [List.filter_eq_self]
        intro r hr
        simp [htar r hr]
      rw [hrows]
      exact congrArg (fun d => (none, d)) (set_get dbs f.target)
    · intro b hb
      simp at hb
  · obtain ⟨_, hbid, hbmem⟩ := whereIdFirst_ok _ _ _ hq
    have hfix : ∀ d : DBs, whereIdFirst none (d.get f.base) id = Except.ok b →
        f.Fix Faults.ok id d
          = ((createOnConflict none f.columns (d.get f.target) b).1,
              d.set f.target (createOnConflict none f.columns (d.get f.target) b).2) := by
      intro d hd
      unfold OverrideFixer.Fix
      simp only [Faults.ok, hd]
    refine ⟨?_, ?_, ?_⟩
    · rw [hfix dbs hq]
      rw [hfix _ (by rw [get_set_other _ _ _ _ hne]; exact hq), get_set_same, set_set,
        createOnConflict_idem]
    · intro habs
      exact absurd hbid (habs b hbmem)
    · intro b1 hb1 hex hall
      simp only [Except.ok.injEq] at hb1
      subst hb1
      rw [hfix dbs hq]
      have hany : (dbs.get f.target).rows.any (fun old => decide (old.ID = b.ID)) = true := by
        rw [List.any_eq_true]
        obtain ⟨r, hr, hrid⟩ := hex
        exact ⟨r, hr, decide_eq_true (by rw [hrid, hbid])⟩
      have hrows : updateRows f.columns (dbs.get f.target).rows b = (dbs.get f.target).rows := by
        unfold updateRows
        conv_rhs => rw [← List.map_id (dbs.get f.target).rows]
        apply List.map_congr_left
        intro old ho
        by_cases hid : old.ID = b.ID
        · have : old = b := hall old ho (by rw [hid, hbid])
          subst this
          simp [assignColumns_self]
        · simp [hid]
      unfold createOnConflict
      simp only [hany, if_true, hrows]
      exact congrArg (fun d => (none, d)) (set_get dbs f.target)

/-- Witness of C17: repairing row 3 of `demoDBs` twice is repairing it once. -/
theorem Fix_idempotent_witness :
    demoFixer.Fix Faults.ok 3 (demoFixer.Fix Faults.ok 3 demoDBs).2
      = demoFixer.Fix Faults.ok 3 demoDBs :=
  (Fix_idempotent demoFixer 3 demoDBs (by decide)).1

end fixer

namespace validator

open migrator events

/-! ## The direction stamped on events -/

section direction

variable {T : Type} [Entity T]

/-- One pass of the forward loop adds only events that carry the direction of
the validator. -/
theorem forwardIter_direction (v : Validator) (env : Env T) (offset : Int) (s : Run) :
    ∃ es, (v.forwardIter env offset s).state.events = s.events ++ es ∧
      ∀ e ∈ es, e.Direction = v.direction := by
  unfold Validator.forwardIter
  rw [callFromBase_eq]
  rcases hb : env.base.orderOffsetFirst s.clock offset with e | src
  · refine ⟨[], ?_, by simp⟩
    simp only
    split_ifs <;> simp [Step.state, Run.read, Run.sleep, Run.logError]
  · simp only
    rcases ht : env.target.whereIdFirst (s.read (Read.baseFirst offset)).clock (Entity.ID src)
      with e | d
    · by_cases he : e = Error.errRecordNotFound
      · subst he
        refine ⟨[{ ID := Entity.ID src, Direction := v.direction,
                   Typ := InconsistentEventTypeTargetMissing }], ?_, by simp⟩
        simp [Step.state, notify_events, Run.read]
      · refine ⟨[], ?_, by simp⟩
        simp [Step.state, Run.read, Run.logError, he]
    · by_cases hc : Entity.CompareTo src d = true
      · refine ⟨[], ?_, by simp⟩
        simp [Step.state, Run.read, hc]
      · refine ⟨[{ ID := Entity.ID src, Direction := v.direction,
                   Typ := InconsistentEventTypeNEQ }], ?_, by simp⟩
        simp [Step.state, notify_events, Run.read, hc]

/-- One pass of the reverse loop adds only events that carry the direction of
the validator. -/
theorem reverseIter_direction (v : Validator) (env : Env T) (offset : Int) (s : Run) :
    ∃ es, (v.reverseIter env offset s).state.events = s.events ++ es ∧
      ∀ e ∈ es, e.Direction = v.direction := by
  have hmap : ∀ ts : List T,
      ∀ e ∈ ts.map (eventFor v InconsistentEventTypeTBaseMissing), e.Direction = v.direction := by
    intro ts e he
    obtain ⟨r, _, hr⟩ := List.mem_map.1 he
    rw [← hr]
    rfl
  unfold Validator.reverseIter
  split
  split_ifs
  all_goals first
    | (refine ⟨[], ?_, by simp⟩
       simp [Step.state, Run.read, Run.sleep, Run.logError]
       done)
    | skip
  all_goals split
  all_goals split_ifs
  all_goals first
    | (refine ⟨[], ?_, by simp⟩
       simp [Step.state, Run.read, Run.sleep, Run.logError]
       done)
    | exact ⟨_, notifyBaseMissing_events v env _ _, hmap _⟩

/-- Every event a forward scan has handed to the producer after any number of
passes carries the direction of the validator, when those it started with do. -/
theorem forwardPasses_direction (v : Validator) (env : Env T) (n : Nat) :
    ∀ (offset : Int) (s : Run), (∀ e ∈ s.events, e.Direction = v.direction) →
      ∀ e ∈ (v.forwardPasses env n offset s).state.events, e.Direction = v.direction := by
  induction n with
  | zero =>
    intro offset s hs e he
    exact hs e he
  | succ n ih =>
    intro offset s hs e he
    obtain ⟨es, h1, h2⟩ := forwardIter_direction v env offset s
    rcases hstep : v.forwardIter env offset s with ⟨o1, s1⟩ | ⟨err, s1⟩
    · rw [hstep] at h1
      simp only [Step.state] at h1
      simp only [Validator.forwardPasses, hstep] at he
      refine ih o1 s1 ?_ e he
      intro e1 he1
      rw [h1, List.mem_append] at he1
      exact he1.elim (hs e1) (h2 e1)
    · rw [hstep] at h1
      simp only [Step.state] at h1
      simp only [Validator.forwardPasses, hstep, Step.state] at he
      rw [h1, List.mem_append] at he
      exact he.elim (hs e) (h2 e)

/-- The same for a reverse scan. -/
theorem reversePasses_direction (v : Validator) (env : Env T) (n : Nat) :
    ∀ (offset : Int) (s : Run), (∀ e ∈ s.events, e.Direction = v.direction) →
      ∀ e ∈ (v.reversePasses env n offset s).state.events, e.Direction = v.direction := by
  induction n with
  | zero =>
    intro offset s hs e he
    exact hs e he
  | succ n ih =>
    intro offset s hs e he
    obtain ⟨es, h1, h2⟩ := reverseIter_direction v env offset s
    rcases hstep : v.reverseIter env offset s with ⟨o1, s1⟩ | ⟨err, s1⟩
    · rw [hstep] at h1
      simp only [Step.state] at h1
      simp only [Validator.reversePasses, hstep] at he
      refine ih o1 s1 ?_ e he
      intro e1 he1
      rw [h1, List.mem_append] at he1
      exact he1.elim (hs e1) (h2 e1)
    · rw [hstep] at h1
      simp only [Step.state] at h1
      simp only [Validator.reversePasses, hstep, Step.state] at he
      rw [h1, List.mem_append] at he
      exact he.elim (hs e) (h2 e)

end direction

end validator

namespace scheduler

open connpool validator migrator events fixer

/-! ## The scheduler and the consumer -/

/-- Whatever the store operations return, `Fix` leaves the base of the fixer as
it was when the base and the target are different stores. -/
theorem Fix_base_unchanged (f : OverrideFixer) (faults : Faults) (id : Int) (dbs : DBs)
    (hne : f.base ≠ f.target) : (f.Fix faults id dbs).2.get f.base = dbs.get f.base := by
  unfold OverrideFixer.Fix
  split
  · exact get_set_other _ _ _ _ hne
  · exact get_set_other _ _ _ _ hne
  · rfl

/-- What `NewConsumer` returns: the error of the first failing `Rows()` call and
no consumer, or else a consumer whose first fixer has the source as base and
the destination as target and whose second fixer has them exchanged. -/
theorem NewConsumer_cases (e2 e4 : Option Error) (dbs : DBs) (topic : String) :
    (∀ err e3, NewConsumer (some err) e2 e3 e4 dbs topic = (none, some err)) ∧
    (∀ err, NewConsumer none e2 (some err) e4 dbs topic = (none, some err)) ∧
    ∃ cols1 cols2,
      NewConsumer none e2 none e4 dbs topic
        = (some { srcFirst := { base := Side.src, target := Side.dst, columns := cols1 },
                  dstFirst := { base := Side.dst, target := Side.src, columns := cols2 },
                  topic := topic }, none) := by
  refine ⟨fun _ _ => rfl, ?_, ?_⟩
  · intro err
    rcases e2 with _ | e2 <;> rfl
  · rcases e2 with _ | e2 <;> rcases e4 with _ | e4 <;> exact ⟨_, _, rfl⟩

/-- C18: under `src_only` and `src_first` the scheduler builds a validator with
base = source, target = destination and direction "SRC", and under `dst_first`
and `dst_only` one with base = destination, target = source and direction "DST";
the configuration calls of the two start actions keep the direction; every event
either scan hands to the producer carries the direction of its validator.
`NewConsumer` returns a consumer whenever the two `Rows()` calls succeed, and
the error of the first one that fails otherwise.  The consumer it returns
repairs an event of direction "SRC" by the `Fix` of the fixer whose base is the
source and whose target is the destination, which leaves the source as it was;
an event of direction "DST" by the `Fix` of the fixer whose base is the
destination and whose target is the source, which leaves the destination as it
was; for any other direction it returns an error and leaves both stores as they
were. -/
theorem repair_uses_detection_base :
    (∀ s : Scheduler, (s.pattern = PatternSrcOnly ∨ s.pattern = PatternSrcFirst) →
      s.newValidator
        = Except.ok { base := Side.src, target := Side.dst, v := NewValidator "SRC" }) ∧
    (∀ s : Scheduler, (s.pattern = PatternDstFirst ∨ s.pattern = PatternDstOnly) →
      s.newValidator
        = Except.ok { base := Side.dst, target := Side.src, v := NewValidator "DST" }) ∧
    (∀ (d : String) (w i : Int), (NewValidator d).direction = d ∧
      (NewValidator d).Full.direction = d ∧
      ((((NewValidator d).Incr).Utime w).SleepInterval i).direction = d) ∧
    (∀ (T : Type) [Entity T] (v : Validator) (env : Env T) (n : Nat),
      (∀ e ∈ (v.forwardPasses env n 0 Run.start).state.events, e.Direction = v.direction) ∧
      (∀ e ∈ (v.reversePasses env n 0 Run.start).state.events, e.Direction = v.direction)) ∧
    (∀ (e1 e2 e3 e4 : Option Error) (dbs : DBs) (topic : String) (c : Consumer),
      NewConsumer e1 e2 e3 e4 dbs topic = (some c, none) →
      c.srcFirst.base = Side.src ∧ c.srcFirst.target = Side.dst ∧
      c.dstFirst.base = Side.dst ∧ c.dstFirst.target = Side.src) ∧
    (∀ (c : Consumer) (faults : Faults) (t : InconsistentEvent) (dbs : DBs),
      (t.Direction = "SRC" → c.Consume faults t dbs = c.srcFirst.Fix faults t.ID dbs) ∧
      (t.Direction = "DST" → c.Consume faults t dbs = c.dstFirst.Fix faults t.ID dbs) ∧
      (t.Direction ≠ "SRC" → t.Direction ≠ "DST" →
        c.Consume faults t dbs = (some (Error.other "未知的校验方向"), dbs))) ∧
    (∀ (e2 e4 : Option Error) (dbs0 : DBs) (topic : String),
      (∀ err e3, NewConsumer (some err) e2 e3 e4 dbs0 topic = (none, some err)) ∧
      (∀ err, NewConsumer none e2 (some err) e4 dbs0 topic = (none, some err)) ∧
      ∃ c, NewConsumer none e2 none e4 dbs0 topic = (some c, none) ∧
        c.topic = topic ∧
        ∀ (faults : Faults) (t : InconsistentEvent) (dbs : DBs),
          (t.Direction = "SRC" →
            c.Consume faults t dbs
              = OverrideFixer.Fix
                  { base := Side.src, target := Side.dst, columns := c.srcFirst.columns }
                  faults t.ID dbs ∧
            (c.Consume faults t dbs).2.src = dbs.src) ∧
          (t.Direction = "DST" →
            c.Consume faults t dbs
              = OverrideFixer.Fix
                  { base := Side.dst, target := Side.src, columns := c.dstFirst.columns }
                  faults t.ID dbs ∧
            (c.Consume faults t dbs).2.dst = dbs.dst)) := by
  obtain ⟨h1, h2, h3, h4, h5, h6⟩ := pattern_ne
  refine ⟨?_, ?_, ?_, ?_, ?_, ?_, ?_⟩
  · intro s hp
    simp [Scheduler.newValidator, hp]
  · intro s hp
    have hn : ¬ (s.pattern = PatternSrcOnly ∨ s.pattern = PatternSrcFirst) := by
      rcases hp with hp | hp <;> rw [hp] <;> simp [h2, h3, h4, h5]
    simp [Scheduler.newValidator, hp, hn]
  · intro d w i
    exact ⟨rfl, rfl, rfl⟩
  · intro T _ v env n
    exact ⟨forwardPasses_direction v env n 0 Run.start (by simp [Run.start]),
      reversePasses_direction v env n 0 Run.start (by simp [Run.start])⟩
  · intro e1 e2 e3 e4 dbs topic c hc
    unfold NewConsumer NewOverrideFixer at hc
    rcases e1 with _ | e1 <;> rcases e2 with _ | e2 <;> rcases e3 with _ | e3 <;>
      rcases e4 with _ | e4 <;> simp at hc <;> subst hc <;> exact ⟨rfl, rfl, rfl, rfl⟩
  · intro c faults t dbs
    refine ⟨?_, ?_, ?_⟩
    · intro hd
      simp [Consumer.Consume, hd]
    · intro hd
      simp [Consumer.Consume, hd]
    · intro hs hd
      simp [Consumer.Consume, hs, hd]
  · intro e2 e4 dbs0 topic
    obtain ⟨hr1, hr2, cols1, cols2, hc⟩ := NewConsumer_cases e2 e4 dbs0 topic
    refine ⟨hr1, hr2, _, hc, rfl, ?_⟩
    intro faults t dbs
    constructor
    · intro hd
      have hcons : Consumer.Consume
          { srcFirst := { base := Side.src, target := Side.dst, columns := cols1 },
            dstFirst := { base := Side.dst, target := Side.src, columns := cols2 },
            topic := topic } faults t dbs
          = OverrideFixer.Fix { base := Side.src, target := Side.dst, columns := cols1 }
              faults t.ID dbs := by
        simp [Consumer.Consume, hd]
      refine ⟨hcons, ?_⟩
      rw [hcons]
      exact Fix_base_unchanged { base := Side.src, target := Side.dst, columns := cols1 }
        faults t.ID dbs (fun h => Side.noConfusion h)
    · intro hd
      have hns : t.Direction ≠ "SRC" := by
        rw [hd]
        decide
      have hcons : Consumer.Consume
          { srcFirst := { base := Side.src, target := Side.dst, columns := cols1 },
            dstFirst := { base := Side.dst, target := Side.src, columns := cols2 },
            topic := topic } faults t dbs
          = OverrideFixer.Fix { base := Side.dst, target := Side.src, columns := cols2 }
              faults t.ID dbs := by
        simp [Consumer.Consume, hd, hns]
      refine ⟨hcons, ?_⟩
      rw [hcons]
      exact Fix_base_unchanged { base := Side.dst, target := Side.src, columns := cols2 }
        faults t.ID dbs (fun h => Side.noConfusion h)

/-- Witness of C18: the consumer that `NewConsumer` builds over `demoDBs` repairs
an event of direction "SRC" for row 3 from the source: the source keeps its
rows, and row 3 of the destination takes the value of row 3 of the source.  An
event of an unknown direction is refused. -/
theorem repair_uses_detection_base_witness :
    NewConsumer none none none none demoDBs "inconsistent_interactive"
      = (some { srcFirst := demoFixer,
                dstFirst := { base := Side.dst, target := Side.src, columns := ["id", "val"] },
                topic := "inconsistent_interactive" }, none) ∧
    (Consumer.Consume
        { srcFirst := demoFixer,
          dstFirst := { base := Side.dst, target := Side.src, columns := ["id", "val"] },
          topic := "inconsistent_interactive" }
        Faults.ok { ID := 3, Direction := "SRC", Typ := "neq" } demoDBs).1 = none ∧
    ((Consumer.Consume
        { srcFirst := demoFixer,
          dstFirst := { base := Side.dst, target := Side.src, columns := ["id", "val"] },
          topic := "inconsistent_interactive" }
        Faults.ok { ID := 3, Direction := "SRC", Typ := "neq" } demoDBs).2.src.rows.map
      (fun r => (r "id", r "val"))) = [(1, 10), (3, 30)] ∧
    ((Consumer.Consume
        { srcFirst := demoFixer,
          dstFirst := { base := Side.dst, target := Side.src, columns := ["id", "val"] },
          topic := "inconsistent_interactive" }
        Faults.ok { ID := 3, Direction := "SRC", Typ := "neq" } demoDBs).2.dst.rows.map
      (fun r => (r "id", r "val"))) = [(3, 30), (2, 20)] ∧
    Consumer.Consume
        { srcFirst := demoFixer,
          dstFirst := { base := Side.dst, target := Side.src, columns := ["id", "val"] },
          topic := "inconsistent_interactive" }
        Faults.ok { ID := 3, Direction := "BOTH", Typ := "neq" } demoDBs
      = (some (Error.other "未知的校验方向"), demoDBs) := by
  have hsrc := (repair_uses_detection_base.2.2.2.2.2.1
    { srcFirst := demoFixer,
      dstFirst := { base := Side.dst, target := Side.src, columns := ["id", "val"] },
      topic := "inconsistent_interactive" }
    Faults.ok { ID := 3, Direction := "SRC", Typ := "neq" } demoDBs).1 rfl
  have hother := (repair_uses_detection_base.2.2.2.2.2.1
    { srcFirst := demoFixer,
      dstFirst := { base := Side.dst, target := Side.src, columns := ["id", "val"] },
      topic := "inconsistent_interactive" }
    Faults.ok { ID := 3, Direction := "BOTH", Typ := "neq" } demoDBs).2.2
    (by decide) (by decide)
  refine ⟨rfl, ?_, ?_, ?_, hother⟩
  · rw [hsrc]
    rfl
  · rw [hsrc]
    rfl
  · rw [hsrc]
    rfl

/-- C19: evaluation of `StartFullValidation` where the claim fails.  After two
consecutive calls on a new scheduler no context has been cancelled, the two full
runs are both uncancelled, and `cancelFull` is the cancel function of the second
run, so a later `StopFullValidation` cancels the second run only. -/
theorem StartFullValidation_keeps_previous_run :
    ((Sys.init NewDoubleWritePool).run [Action.startFull, Action.startFull]).cancelled = [] ∧
    (((Sys.init NewDoubleWritePool).run [Action.startFull, Action.startFull]).fullRuns.map
      Running.ctx) = [0, 1] ∧
    (((Sys.init NewDoubleWritePool).run [Action.startFull, Action.startFull]).uncancelled
      ((Sys.init NewDoubleWritePool).run
        [Action.startFull, Action.startFull]).fullRuns).length = 2 ∧
    ((Sys.init NewDoubleWritePool).run [Action.startFull, Action.startFull]).sched.cancelFull
      = CancelFunc.cancelOf 1 ∧
    ((Sys.init NewDoubleWritePool).run
      [Action.startFull, Action.startFull, Action.stopFull]).cancelled = [1] := by
  decide

/-- C20: evaluation of the incremental start where the claim fails.  Right after
a first `StartIncrementValidation` returns, `cancelIncr` is still the empty
function of `NewScheduler`; when a second call follows before the goroutine of
the first has run, both goroutines capture that empty function, and after both
have started there are two incremental runs, neither cancelled. -/
theorem StartIncrementValidation_two_active_runs :
    ((Sys.init NewDoubleWritePool).run
      [Action.startIncr { Utime := 0, Interval := 1000 }]).sched.cancelIncr
      = CancelFunc.noop ∧
    ((Sys.init NewDoubleWritePool).run
      [Action.startIncr { Utime := 0, Interval := 1000 },
       Action.startIncr { Utime := 0, Interval := 1000 },
       Action.goroutine 0, Action.goroutine 0]).cancelled = [] ∧
    (((Sys.init NewDoubleWritePool).run
      [Action.startIncr { Utime := 0, Interval := 1000 },
       Action.startIncr { Utime := 0, Interval := 1000 },
       Action.goroutine 0, Action.goroutine 0]).incrRuns.map Running.ctx) = [0, 1] ∧
    (((Sys.init NewDoubleWritePool).run
      [Action.startIncr { Utime := 0, Interval := 1000 },
       Action.startIncr { Utime := 0, Interval := 1000 },
       Action.goroutine 0, Action.goroutine 0]).uncancelled
      ((Sys.init NewDoubleWritePool).run
        [Action.startIncr { Utime := 0, Interval := 1000 },
         Action.startIncr { Utime := 0, Interval := 1000 },
         Action.goroutine 0, Action.goroutine 0]).incrRuns).length = 2 := by
  decide

end scheduler

namespace scheduler

open connpool validator

/-! ## The pattern actions -/

/-- The pool accepts each of the four constants of the pattern actions. -/
theorem UpdatePattern_action (d : DoubleWritePool) (a : PatternAction) :
    d.UpdatePattern a.pattern = (none, { pattern := a.pattern }) := by
  cases a <;> simp [DoubleWritePool.UpdatePattern, PatternAction.pattern]

/-- A pattern action stores its constant in the scheduler and in the pool,
answers `OK` and returns nil. -/
theorem call_eq (sys : Sys) (a : PatternAction) :
    sys.call a = (({ Code := 0, Msg := "OK" }, none),
      { sys with sched := { sys.sched with pattern := a.pattern,
                                            pool := { pattern := a.pattern } } }) := by
  cases a <;>
    simp [Sys.call, SrcOnly, SrcFirst, DstFirst, DstOnly, setPattern,
      DoubleWritePool.UpdatePattern, PatternAction.pattern]

/-- The scheduler's pattern and the pool's pattern agree after every sequence of
pattern actions from a state in which they agree. -/
theorem calls_pattern (acts : List PatternAction) (sys : Sys)
    (h : sys.sched.pattern = sys.sched.pool.pattern) :
    (sys.calls acts).sched.pattern = (sys.calls acts).sched.pool.pattern := by
  induction acts generalizing sys with
  | nil => exact h
  | cons a rest ih =>
    have : sys.calls (a :: rest) = (sys.call a).2.calls rest := rfl
    rw [this]
    apply ih
    rw [call_eq]

/-- C21: starting from `NewScheduler` over the pool of `NewDoubleWritePool`, after
every sequence of calls of `SrcOnly`, `SrcFirst`, `DstFirst` and `DstOnly` the
scheduler's pattern equals the pool's pattern.  In every state, the pool's
`UpdatePattern` returns nil for the constant of each of these actions, so the
branch that returns the pool's error is never taken: the action returns `OK`
and nil, and both patterns are the constant of the action. -/
theorem pattern_actions_keep_patterns_equal (acts : List PatternAction) (a : PatternAction)
    (sys : Sys) :
    ((Sys.init NewDoubleWritePool).calls acts).sched.pattern
      = ((Sys.init NewDoubleWritePool).calls acts).sched.pool.pattern ∧
    (sys.sched.pool.UpdatePattern a.pattern).1 = none ∧
    (sys.call a).1 = ({ Code := 0, Msg := "OK" }, none) ∧
    (sys.call a).2.sched.pattern = a.pattern ∧
    (sys.call a).2.sched.pool.pattern = a.pattern ∧
    (sys.call a).2.sched.cancelFull = sys.sched.cancelFull ∧
    (sys.call a).2.sched.cancelIncr = sys.sched.cancelIncr := by
  refine ⟨calls_pattern acts _ rfl, ?_, ?_, ?_, ?_, ?_, ?_⟩
  · rw [UpdatePattern_action]
  all_goals rw [call_eq]

end scheduler

namespace dao

open migrator

/-- C22: `Interactive.CompareTo(dst)` is true exactly when `dst` is an
`Interactive` value whose eight fields equal the receiver's; it is false for a
pointer to an `Interactive` and for a value of any other type; it is reflexive
and symmetric, and on two `Interactive` values it is the comparison the
validator uses. -/
theorem CompareTo_full_equality (i : Interactive) (dst : EntityValue) :
    (i.CompareToEntity dst = true ↔
      ∃ val, dst = EntityValue.interactive val ∧ i.Id = val.Id ∧ i.BizId = val.BizId ∧
        i.Biz = val.Biz ∧ i.ReadCnt = val.ReadCnt ∧ i.LikeCnt = val.LikeCnt ∧
        i.CollectCnt = val.CollectCnt ∧ i.Utime = val.Utime ∧ i.Ctime = val.Ctime) ∧
    (∀ val, i.CompareToEntity (EntityValue.interactivePtr val) = false) ∧
    (∀ typeName id, i.CompareToEntity (EntityValue.other typeName id) = false) ∧
    i.CompareToEntity (EntityValue.interactive i) = true ∧
    (∀ j : Interactive, i.CompareToEntity (EntityValue.interactive j)
      = j.CompareToEntity (EntityValue.interactive i)) ∧
    (∀ j : Interactive, i.CompareToEntity (EntityValue.interactive j) = Entity.CompareTo i j) := by
  refine ⟨?_, fun _ => rfl, fun _ _ => rfl, by simp [Interactive.CompareToEntity], ?_, ?_⟩
  · cases dst with
    | interactive val =>
      simp only [Interactive.CompareToEntity, decide_eq_true_eq, EntityValue.interactive.injEq]
      constructor
      · intro h
        exact ⟨val, rfl, by subst h; exact ⟨rfl, rfl, rfl, rfl, rfl, rfl, rfl, rfl⟩⟩
      · rintro ⟨v, rfl, h1, h2, h3, h4, h5, h6, h7, h8⟩
        cases i
        cases val
        simp_all
    | interactivePtr val => simp [Interactive.CompareToEntity]
    | other typeName id => simp [Interactive.CompareToEntity]
  · intro j
    simp only [Interactive.CompareToEntity]
    by_cases h : i = j
    · subst h; rfl
    · have h2 : ¬ j = i := fun e => h e.symm
      simp [h, h2]
  · intro j
    rfl

end dao

namespace repository

/-- C23: `FindById` returns the cached user and nil, after the cache lookup
alone, when the cache lookup succeeds.  When it fails and the DAO lookup fails,
it returns the zero user, whose creation time is the zero time, and the DAO's
error, and nothing is written to the cache.  When the DAO lookup succeeds, it
returns nil and the user with the id, email, password and phone of the row,
the creation time at the row's millisecond, the two WeChat ids of the row and
no nickname, and offers that user to the cache, whatever the write to the
cache returns. -/
theorem FindById_cases (r : Deps) (id : Int) :
    (∀ u, r.cacheGet id = (u, none) →
      FindById r id = ((u, none), [Call.cacheGet id])) ∧
    (∀ u e ue err, r.cacheGet id = (u, some e) → r.daoFindById id = (ue, some err) →
      FindById r id
        = (({ Id := 0, Email := "", Password := "", Ctime := domain.Time.zero, Phone := "",
              WechatInfo := { OpenId := "", UnionId := "" }, Nickname := "" }, some err),
            [Call.cacheGet id, Call.daoFindById id])) ∧
    (∀ u e ue, r.cacheGet id = (u, some e) → r.daoFindById id = (ue, none) →
      ∀ cacheSet : domain.User → Option Error,
        FindById { r with cacheSet := cacheSet } id
          = (({ Id := ue.Id, Email := ue.Email.Str, Password := ue.Password,
                Ctime := { unixNano := ue.Ctime * 1000000 }, Phone := ue.Phone.Str,
                WechatInfo := { OpenId := ue.WechatOpenID.Str,
                                UnionId := ue.WechatUnionID.Str },
                Nickname := "" }, none),
              [Call.cacheGet id, Call.daoFindById id,
               Call.cacheSet
                 { Id := ue.Id, Email := ue.Email.Str, Password := ue.Password,
                   Ctime := { unixNano := ue.Ctime * 1000000 }, Phone := ue.Phone.Str,
                   WechatInfo := { OpenId := ue.WechatOpenID.Str,
                                   UnionId := ue.WechatUnionID.Str },
                   Nickname := "" }])) ∧
    (∀ ms : Int, (domain.Time.mk (ms * 1000000)).UnixMilli = ms) ∧
    domain.Time.zero.UnixMilli = -62135596800000 := by
  refine ⟨?_, ?_, ?_, ?_, ?_⟩
  · intro u h
    simp [FindById, h]
  · intro u e ue err h1 h2
    simp [FindById, h1, h2, domain.User.zero]
  · intro u e ue h1 h2 cacheSet
    simp [FindById, h1, h2, entityToDomain, domain.Time.ofUnixMilli]
  · intro ms
    exact Int.mul_fdiv_cancel ms (by decide)
  · decide

/-- Witness of C23: the test case in which the cache misses, the DAO holds the
row of user 1 and the write back to the cache fails. -/
theorem FindById_cases_witness :
    FindById testDeps 1
      = (({ Id := 1, Email := "123@qq.com", Password := "123456",
            Ctime := { unixNano := 1700000000000 * 1000000 }, Phone := "17376913117",
            WechatInfo := { OpenId := "", UnionId := "" }, Nickname := "" }, none),
          [Call.cacheGet 1, Call.daoFindById 1,
           Call.cacheSet
             { Id := 1, Email := "123@qq.com", Password := "123456",
               Ctime := { unixNano := 1700000000000 * 1000000 }, Phone := "17376913117",
               WechatInfo := { OpenId := "", UnionId := "" }, Nickname := "" }]) :=
  (FindById_cases testDeps 1).2.2.1
    domain.User.zero (Error.other "key not exist") testRow rfl rfl testDeps.cacheSet

/-- C29: evaluation of the conversions where the claim fails.  A user with open
id `open-1` and union id `union-1` comes back from `domainToEntity` followed by
`entityToDomain` with the two exchanged, and the column that `FindByWechat`
compares with an open id holds the union id. -/
theorem domainToEntity_swaps_wechat_ids :
    (entityToDomain (domainToEntity demoUser)).WechatInfo
      = { OpenId := "union-1", UnionId := "open-1" } ∧
    demoUser.WechatInfo = { OpenId := "open-1", UnionId := "union-1" } ∧
    findByWechatColumn (domainToEntity demoUser) = { Str := "union-1", Valid := true } ∧
    (domainToEntity demoUser).WechatUnionID = { Str := "open-1", Valid := true } := by
  decide

end repository

namespace validator

/-- C24: evaluation of the reverse scan where the claim fails.  In full mode, when
the first batch query of the target fails with a query error and returns no
row, the scan returns nil after that one read, and nothing is logged. -/
theorem reverse_scan_returns_on_failed_target_query :
    (NewValidator "SRC").validateTargetToBase brokenTargetEnv 1
      = some (none,
          { clock := 1, reads := [Read.targetBatch 0 100], events := [], sleeps := [],
            logs := [] }) := by
  rfl

/-- C25: evaluation of the reverse scan where the claim fails.  The target holds
the ids 2, 3 and 7 and the base holds 2 and 3; when the lookup of the batch in
the base fails with a query error and returns no row, the scan emits a
`Base_missing` event for each of 2, 3 and 7 and logs nothing. -/
theorem reverse_scan_reports_batch_on_failed_lookup :
    (NewValidator "SRC").validateTargetToBase brokenLookupEnv 2
      = some (none,
          { clock := 6,
            reads := [Read.targetBatch 0 100, Read.baseIn [2, 3, 7], Read.targetBatch 3 100],
            events := [{ ID := 2, Direction := "SRC", Typ := "Base_missing" },
                       { ID := 3, Direction := "SRC", Typ := "Base_missing" },
                       { ID := 7, Direction := "SRC", Typ := "Base_missing" }],
            sleeps := [], logs := [] }) ∧
    ((NewValidator "SRC").validateTargetToBase
        (tableEnv Row.selectId demoBase demoTarget (fun _ _ => none)) 1).map
      (fun r => r.2.events) = some [{ ID := 7, Direction := "SRC", Typ := "Base_missing" }] := by
  constructor <;> rfl

end validator

namespace connpool

/-- C26: evaluation of `ExecContext` where the claim fails.  Under `dst_first`,
with a source that cannot begin a transaction, `BeginTx` returns nil and a
handle without a source transaction.  `ExecContext` on that handle executes on
the destination and then calls the missing source transaction, which panics;
`Commit` and `Rollback` on the same handle skip it and return nil. -/
theorem ExecContext_panics_on_missing_secondary :
    (DoubleWritePool.BeginTx { pattern := PatternDstFirst } srcDownStores none World.empty).1
      = (some { src := none, dst := some { side := Side.dst, id := 0 },
                pattern := PatternDstFirst }, none) ∧
    (DoubleWriteTx.ExecContext
        { src := none, dst := some { side := Side.dst, id := 0 }, pattern := PatternDstFirst }
        srcDownStores "UPDATE t SET a = 1" []
        (DoubleWritePool.BeginTx { pattern := PatternDstFirst } srcDownStores none
          World.empty).2).1 = Outcome.panic nilTx ∧
    (DoubleWriteTx.ExecContext
        { src := none, dst := some { side := Side.dst, id := 0 }, pattern := PatternDstFirst }
        srcDownStores "UPDATE t SET a = 1" []
        (DoubleWritePool.BeginTx { pattern := PatternDstFirst } srcDownStores none
          World.empty).2).2.calls
      = [Call.beginTx Side.dst none, Call.beginTx Side.src none,
         Call.txExecContext { side := Side.dst, id := 0 } "UPDATE t SET a = 1" []] ∧
    (DoubleWriteTx.Commit
        { src := none, dst := some { side := Side.dst, id := 0 }, pattern := PatternDstFirst }
        srcDownStores
        (DoubleWritePool.BeginTx { pattern := PatternDstFirst } srcDownStores none
          World.empty).2).1 = Outcome.ok none ∧
    (DoubleWriteTx.Rollback
        { src := none, dst := some { side := Side.dst, id := 0 }, pattern := PatternDstFirst }
        srcDownStores
        (DoubleWritePool.BeginTx { pattern := PatternDstFirst } srcDownStores none
          World.empty).2).1 = Outcome.ok none := by
  refine ⟨?_, ?_, ?_, ?_, ?_⟩ <;> rfl

end connpool

namespace service

/-- C27: evaluation of `topN` where the claim fails.  With one published article
the result slice has length 1; the last loop stores the article at index 0,
increments the index and then assigns at index 1, which panics.  With no
published article the loop is not entered and the result is empty. -/
theorem topN_indexes_out_of_bounds :
    topN demoRanking (demoServices [demoArticle 1 1000] [(1, 5)]) 2000 3
      = some (Outcome.panic "index out of range [1] with length 1") ∧
    topN demoRanking (demoServices [demoArticle 1 1000, demoArticle 2 900] [(1, 5), (2, 7)])
        2000 3
      = some (Outcome.panic "index out of range [2] with length 2") ∧
    topN demoRanking (demoServices [] []) 2000 3 = some (Outcome.ok ([], none)) := by
  refine ⟨?_, ?_, ?_⟩ <;> rfl

end service

namespace samarax

/-- C28: evaluation of `ConsumeClaim` where the claim fails.  Two messages arrive
before the timeout, the first with the payload `7`, the second with a payload
that cannot be decoded, and then the channel is closed.  The handler function
is called once, with the first message twice and the second message once in
`msgs`, and with the one decoded value in `ts`; all three entries are marked. -/
theorem ConsumeClaim_batch_has_duplicates :
    (ConsumeClaim demoUnmarshal (fun _ _ => none) 2
        [Received.message (demoMessage 0 "7"), Received.message (demoMessage 1 "x"),
         Received.timeout, Received.closed]
        { handled := [], marked := [], logs := [] }).1 = some none ∧
    (ConsumeClaim demoUnmarshal (fun _ _ => none) 2
        [Received.message (demoMessage 0 "7"), Received.message (demoMessage 1 "x"),
         Received.timeout, Received.closed]
        { handled := [], marked := [], logs := [] }).2.handled
      = [([demoMessage 0 "7", demoMessage 0 "7", demoMessage 1 "x"], [7])] ∧
    (ConsumeClaim demoUnmarshal (fun _ _ => none) 2
        [Received.message (demoMessage 0 "7"), Received.message (demoMessage 1 "x"),
         Received.timeout, Received.closed]
        { handled := [], marked := [], logs := [] }).2.marked
      = [demoMessage 0 "7", demoMessage 0 "7", demoMessage 1 "x"] := by
  refine ⟨?_, ?_, ?_⟩ <;> rfl

end samarax

namespace wrr

open validator

/-! ## The weighted round-robin picker -/

theorem wrapInt_signed (x : Int) (h0 : -(2 ^ 63) ≤ x) (h1 : x < 2 ^ 63) : wrapInt x = x := by
  unfold wrapInt
  norm_num at h0 h1 ⊢
  omega

theorem total_cons (c : weightConn) (rest : List weightConn) :
    total (c :: rest) = c.weight + total rest := by
  simp [total]

theorem total_nonneg (conns : List weightConn) (hw : ∀ c ∈ conns, 0 ≤ c.weight) :
    0 ≤ total conns := by
  apply List.sum_nonneg
  intro x hx
  obtain ⟨y, hy, rfl⟩ := List.mem_map.1 hx
  exact hw y hy

theorem weight_le_total (conns : List weightConn) (hw : ∀ c ∈ conns, 0 ≤ c.weight)
    (c : weightConn) (hc : c ∈ conns) : c.weight ≤ total conns := by
  apply List.single_le_sum
  · intro x hx
    obtain ⟨y, hy, rfl⟩ := List.mem_map.1 hx
    exact hw y hy
  · exact List.mem_map.2 ⟨c, hc, rfl⟩

theorem total_pos (conns : List weightConn) (hne : conns ≠ [])
    (hw : ∀ c ∈ conns, 0 < c.weight) : 0 < total conns := by
  cases conns with
  | nil => exact absurd rfl hne
  | cons c rest =>
    have h1 := hw c (List.mem_cons_self _ _)
    have h2 := weight_le_total (c :: rest) (fun x hx => le_of_lt (hw x hx)) c
      (List.mem_cons_self _ _)
    linarith

/-- The first loop of `Pick` adds the weights up without wrapping when their sum
is in range. -/
theorem sumWeights_acc (conns : List weightConn) (hw : ∀ c ∈ conns, 0 ≤ c.weight) :
    ∀ acc : Int, 0 ≤ acc → acc + total conns < 2 ^ 63 →
      conns.foldl (fun total conn => wrapInt (total + conn.weight)) acc
        = acc + total conns := by
  induction conns with
  | nil =>
    intro acc _ _
    simp [total]
  | cons c rest ih =>
    intro acc h0 hb
    have hc : 0 ≤ c.weight := hw c (List.mem_cons_self _ _)
    have hrest : 0 ≤ total rest :=
      total_nonneg rest (fun x hx => hw x (List.mem_cons_of_mem _ hx))
    rw [total_cons] at hb
    rw [List.foldl_cons, wrapInt_signed _ (by linarith) (by linarith),
      ih (fun x hx => hw x (List.mem_cons_of_mem _ hx)) _ (by linarith) (by linarith),
      total_cons]
    ring

theorem sumWeights_eq (conns : List weightConn) (hw : ∀ c ∈ conns, 0 ≤ c.weight)
    (hb : total conns < 2 ^ 63) : sumWeights conns = total conns := by
  unfold sumWeights
  rw [sumWeights_acc conns hw 0 le_rfl (by linarith)]
  ring

/-- The second loop of `Pick` adds each weight without wrapping when the sums
are in range. -/
theorem addWeights_eq (conns : List weightConn)
    (h : ∀ c ∈ conns, -(2 ^ 63) ≤ c.currentWeight + c.weight ∧
      c.currentWeight + c.weight < 2 ^ 63) :
    addWeights conns
      = conns.map (fun c => { c with currentWeight := c.currentWeight + c.weight }) := by
  unfold addWeights
  apply List.map_congr_left
  intro c hc
  unfold addWeight
  rw [wrapInt_signed _ (h c hc).1 (h c hc).2]

/-- The third loop of `Pick` ends on a position of the slice and the connection
at that position, and no connection has a greater current weight. -/
theorem maxLoop_spec (l : List weightConn) :
    ∀ (pre : List weightConn) (best : Nat × weightConn),
      (pre ++ l)[best.1]? = some best.2 →
      (∀ x ∈ pre, x.currentWeight ≤ best.2.currentWeight) →
      (pre ++ l)[(maxLoop l pre.length best).1]? = some (maxLoop l pre.length best).2 ∧
      ∀ x ∈ pre ++ l, x.currentWeight ≤ (maxLoop l pre.length best).2.currentWeight := by
  induction l with
  | nil =>
    intro pre best hb hle
    simp only [maxLoop, List.append_nil] at hb ⊢
    exact ⟨hb, hle⟩
  | cons c rest ih =>
    intro pre best hb hle
    have happ : pre ++ c :: rest = (pre ++ [c]) ++ rest := by simp
    have hlen : (pre ++ [c]).length = pre.length + 1 := by simp
    unfold maxLoop
    split_ifs with hgt
    · have h1 := ih (pre ++ [c]) (pre.length, c)
        (by rw [← happ, List.getElem?_append_right (le_refl _)]; simp)
        (by
          intro x hx
          rcases List.mem_append.1 hx with hx | hx
          · have := hle x hx
            show x.currentWeight ≤ c.currentWeight
            omega
          · have : x = c := by simpa using hx
            subst this
            exact le_rfl)
      rw [hlen] at h1
      rw [happ]
      exact h1
    · have h1 := ih (pre ++ [c]) best (by rw [← happ]; exact hb)
        (by
          intro x hx
          rcases List.mem_append.1 hx with hx | hx
          · exact hle x hx
          · have : x = c := by simpa using hx
            subst this
            omega)
      rw [hlen] at h1
      rw [happ]
      exact h1

/-- The assignment through `maxCC` changes the connections with the
sub-connection of `maxCC`, which is one connection when the sub-connections
are distinct. -/
theorem subtractAt_eq_map (W : Int) (l : List weightConn) :
    ∀ (m : Nat) (b : weightConn),
      (l.map (fun c => c.SubConn)).Nodup → l[m]? = some b →
      subtractAt W m l
        = l.map (fun x =>
            if x.SubConn = b.SubConn then
              { x with currentWeight := wrapInt (x.currentWeight - W) }
            else x) := by
  induction l with
  | nil =>
    intro m b _ hb
    simp at hb
  | cons c rest ih =>
    intro m b hnd hb
    rw [List.map_cons, List.nodup_cons] at hnd
    cases m with
    | zero =>
      have hcb : c = b := by simpa using hb
      subst hcb
      have hrest : rest.map (fun x =>
          if x.SubConn = c.SubConn then
            { x with currentWeight := wrapInt (x.currentWeight - W) }
          else x) = rest := by
        conv_rhs => rw [← List.map_id rest]
        apply List.map_congr_left
        intro x hx
        have hne : x.SubConn ≠ c.SubConn := by
          intro e
          exact hnd.1 (List.mem_map.2 ⟨x, hx, e⟩)
        simp [hne]
      simp only [subtractAt, List.map_cons, if_true, hrest]
    | succ m =>
      have hb2 : rest[m]? = some b := by simpa using hb
      have hmem : b ∈ rest := List.getElem?_mem hb2
      have hne : c.SubConn ≠ b.SubConn := by
        intro e
        exact hnd.1 (List.mem_map.2 ⟨b, hmem, e.symm⟩)
      simp only [subtractAt, List.map_cons, if_neg hne, ih m b hnd.2 hb2]

/-- One call of `Pick` on connections with distinct sub-connections, while no
sum leaves the range of `int`: a connection with the greatest current weight
after the addition is returned, and it alone loses the total. -/
theorem Pick_spec (p : Picker) (hne : p.conns ≠ [])
    (hnd : (p.conns.map (fun c => c.SubConn)).Nodup)
    (hw : ∀ c ∈ p.conns, 0 ≤ c.weight)
    (hb : total p.conns < 2 ^ 63)
    (hk : ∀ c ∈ p.conns, -(2 ^ 63) ≤ c.currentWeight + c.weight ∧
      c.currentWeight + c.weight < 2 ^ 63) :
    ∃ y ∈ p.conns,
      (∀ x ∈ p.conns, x.currentWeight + x.weight ≤ y.currentWeight + y.weight) ∧
      p.Pick = (Except.ok y.SubConn,
        { conns := p.conns.map (fun x =>
            { x with currentWeight :=
                if x.SubConn = y.SubConn then
                  wrapInt (x.currentWeight + x.weight - total p.conns)
                else x.currentWeight + x.weight }) }) := by
  rcases p with ⟨conns⟩
  cases conns with
  | nil => exact absurd rfl hne
  | cons c0 rest0 =>
    have hadd := addWeights_eq (c0 :: rest0) hk
    have hsum := sumWeights_eq (c0 :: rest0) hw hb
    have hadd0 : addWeight c0 = { c0 with currentWeight := c0.currentWeight + c0.weight } := by
      unfold addWeight
      rw [wrapInt_signed _ (hk c0 (List.mem_cons_self _ _)).1 (hk c0 (List.mem_cons_self _ _)).2]
    rcases hK : (c0 :: rest0).map
        (fun c => { c with currentWeight := c.currentWeight + c.weight }) with _ | ⟨conn0, rest⟩
    · simp at hK
    · have hc0 : conn0 = { c0 with currentWeight := c0.currentWeight + c0.weight } := by
        rw [List.map_cons] at hK
        exact (List.cons.inj hK).1.symm
      have hspec := maxLoop_spec (conn0 :: rest) [] (0, conn0) (by simp) (by simp)
      simp only [List.nil_append, List.length_nil] at hspec
      rcases hmb : maxLoop (conn0 :: rest) 0 (0, conn0) with ⟨m, b⟩
      rw [hmb] at hspec
      obtain ⟨hpos, hmax⟩ := hspec
      have hmem : b ∈ (c0 :: rest0).map
          (fun c => { c with currentWeight := c.currentWeight + c.weight }) := by
        rw [hK]
        exact List.getElem?_mem hpos
      obtain ⟨y, hy, hyb⟩ := List.mem_map.1 hmem
      refine ⟨y, hy, ?_, ?_⟩
      · intro x hx
        have h1 := hmax { x with currentWeight := x.currentWeight + x.weight }
          (by rw [← hK]; exact List.mem_map.2 ⟨x, hx, rfl⟩)
        rw [← hyb] at h1
        exact h1
      · have hndK : ((conn0 :: rest).map (fun c => c.SubConn)).Nodup := by
          rw [← hK, List.map_map]
          exact hnd
        have hsub := subtractAt_eq_map (total (c0 :: rest0)) (conn0 :: rest) m b hndK hpos
        unfold Picker.Pick
        simp only
        rw [hadd, hadd0, hsum, hK, ← hc0, hmb]
        simp only
        rw [hsub, ← hyb, ← hK, List.map_map]
        refine Prod.ext rfl ?_
        refine congrArg Picker.mk (List.map_congr_left ?_)
        intro x _
        simp only [Function.comp]
        split_ifs <;> rfl

/-! ### Counting the picks -/

theorem sum_map_indicator (l : List weightConn) (r : Nat) :
    (l.map (fun x => ((if r = x.SubConn then 1 else 0 : Nat) : Int))).sum
      = (((l.map (fun c => c.SubConn)).count r : Nat) : Int) := by
  induction l with
  | nil => simp
  | cons c rest ih =>
    simp only [List.map_cons, List.sum_cons, ih, List.count_cons, beq_iff_eq]
    by_cases h : r = c.SubConn
    · subst h
      simp
      ring
    · have h2 : ¬ c.SubConn = r := fun e => h e.symm
      simp [h, h2]

/-- Each result is counted for one connection. -/
theorem sum_count (init : List weightConn) (hnd : (init.map (fun c => c.SubConn)).Nodup)
    (rs : List Nat) (hrs : ∀ r ∈ rs, r ∈ init.map (fun c => c.SubConn)) :
    (init.map (fun x => ((rs.count x.SubConn : Nat) : Int))).sum = (rs.length : Int) := by
  induction rs with
  | nil => simp
  | cons r rest ih =>
    have h1 : ∀ x : weightConn, (((r :: rest).count x.SubConn : Nat) : Int)
        = ((rest.count x.SubConn : Nat) : Int)
          + ((if r = x.SubConn then 1 else 0 : Nat) : Int) := by
      intro x
      rw [List.count_cons]
      simp only [beq_iff_eq]
      push_cast
      rfl
    rw [List.map_congr_left (fun x _ => h1 x), List.sum_map_add,
      ih (fun x hx => hrs x (List.mem_cons_of_mem _ hx)), sum_map_indicator,
      List.count_eq_one_of_mem hnd (hrs r (List.mem_cons_self _ _))]
    simp

theorem sum_map_linear (l : List weightConn) (a b : Int) (f g : weightConn → Int) :
    (l.map (fun x => a * f x - b * g x)).sum
      = a * (l.map f).sum - b * (l.map g).sum := by
  induction l with
  | nil => simp
  | cons c rest ih =>
    simp only [List.map_cons, List.sum_cons, ih]
    ring

theorem sum_nonpos_of_forall (l : List weightConn) (f : weightConn → Int)
    (h : ∀ x ∈ l, f x ≤ 0) : (l.map f).sum ≤ 0 := by
  induction l with
  | nil => simp
  | cons c rest ih =>
    simp only [List.map_cons, List.sum_cons]
    have h1 := h c (List.mem_cons_self _ _)
    have h2 := ih (fun x hx => h x (List.mem_cons_of_mem _ hx))
    linarith

theorem sum_map_add_const (l : List weightConn) (f : weightConn → Int) (c : Int) :
    (l.map (fun x => f x + c)).sum = (l.map f).sum + (l.length : Int) * c := by
  induction l with
  | nil => simp
  | cons a rest ih =>
    simp only [List.map_cons, List.sum_cons, ih, List.length_cons]
    push_cast
    ring

/-! ### The state after each pick -/

theorem mem_afterPicks (init : List weightConn) (t : Nat) (rs : List Nat) (c : weightConn) :
    c ∈ afterPicks init t rs ↔
      ∃ x ∈ init, c = { x with currentWeight :=
        ((t : Int) + 1) * x.weight - total init * (rs.count x.SubConn : Int) } := by
  unfold afterPicks
  rw [List.mem_map]
  constructor
  · rintro ⟨x, hx, rfl⟩
    exact ⟨x, hx, rfl⟩
  · rintro ⟨x, hx, rfl⟩
    exact ⟨x, hx, rfl⟩

theorem total_afterPicks (init : List weightConn) (t : Nat) (rs : List Nat) :
    total (afterPicks init t rs) = total init := by
  unfold total afterPicks
  rw [List.map_map]
  rfl

theorem SubConn_afterPicks (init : List weightConn) (t : Nat) (rs : List Nat) :
    (afterPicks init t rs).map (fun c => c.SubConn) = init.map (fun c => c.SubConn) := by
  unfold afterPicks
  rw [List.map_map]
  rfl

/-- The sum of the current weights after the addition of a pick is twice the total. -/
theorem sum_keys (init : List weightConn) (hnd : (init.map (fun c => c.SubConn)).Nodup)
    (t : Nat) (rs : List Nat) (hlen : rs.length = t)
    (hrs : ∀ r ∈ rs, r ∈ init.map (fun c => c.SubConn)) (a : Int) :
    (init.map (fun x => a * x.weight - total init * (rs.count x.SubConn : Int))).sum
      = a * total init - total init * (t : Int) := by
  rw [sum_map_linear init a (total init) (fun x => x.weight)
    (fun x => ((rs.count x.SubConn : Nat) : Int)), sum_count init hnd rs hrs, hlen]
  rfl

/-- The current weights sum to the total, so a current weight that no other
one undercuts by more than the total is at most the total times the number of
connections. -/
theorem currentWeight_le (init : List weightConn)
    (hnd : (init.map (fun c => c.SubConn)).Nodup)
    (t : Nat) (rs : List Nat) (hlen : rs.length = t)
    (hrs : ∀ r ∈ rs, r ∈ init.map (fun c => c.SubConn))
    (hlow : ∀ x ∈ init,
      - total init < ((t : Int) + 1) * x.weight - total init * (rs.count x.SubConn : Int)) :
    ∀ x ∈ init,
      ((t : Int) + 1) * x.weight - total init * (rs.count x.SubConn : Int)
        ≤ (init.length : Int) * total init := by
  intro x hx
  have hsum := sum_map_add_const init
    (fun x => ((t : Int) + 1) * x.weight - total init * (rs.count x.SubConn : Int))
    (total init)
  rw [sum_keys init hnd t rs hlen hrs] at hsum
  have hle : ((t : Int) + 1) * x.weight - total init * (rs.count x.SubConn : Int) + total init
      ≤ (init.map (fun x =>
          ((t : Int) + 1) * x.weight - total init * (rs.count x.SubConn : Int)
            + total init)).sum := by
    apply List.single_le_sum
    · intro v hv
      obtain ⟨z, hz, rfl⟩ := List.mem_map.1 hv
      have := hlow z hz
      show 0 ≤ ((t : Int) + 1) * z.weight - total init * (rs.count z.SubConn : Int)
        + total init
      linarith
    · exact List.mem_map.2 ⟨x, hx, rfl⟩
  rw [hsum] at hle
  linarith

/-- One pick on the state that `t` picks have left: a connection with the
greatest current weight is returned, the state is the one that `t + 1` picks
leave, and every current weight stays above the negated total. -/
theorem Pick_afterPicks (init : List weightConn) (hne : init ≠ [])
    (hnd : (init.map (fun c => c.SubConn)).Nodup)
    (hpos : ∀ x ∈ init, 0 < x.weight)
    (hWlt : total init < 2 ^ 63)
    (t : Nat) (rs : List Nat) (hlen : rs.length = t)
    (hrs : ∀ r ∈ rs, r ∈ init.map (fun c => c.SubConn))
    (hlow : ∀ x ∈ init,
      - total init < ((t : Int) + 1) * x.weight - total init * (rs.count x.SubConn : Int))
    (hr : ∀ x ∈ init,
      ((t : Int) + 1) * x.weight - total init * (rs.count x.SubConn : Int) + x.weight
        < 2 ^ 63) :
    ∃ y ∈ init,
      (∀ x ∈ init,
        ((t : Int) + 2) * x.weight - total init * (rs.count x.SubConn : Int)
          ≤ ((t : Int) + 2) * y.weight - total init * (rs.count y.SubConn : Int)) ∧
      Picker.Pick { conns := afterPicks init t rs }
        = (Except.ok y.SubConn, { conns := afterPicks init (t + 1) (rs ++ [y.SubConn]) }) ∧
      (∀ r ∈ rs ++ [y.SubConn], r ∈ init.map (fun c => c.SubConn)) ∧
      (∀ x ∈ init,
        - total init < (((t + 1 : Nat) : Int) + 1) * x.weight
          - total init * ((rs ++ [y.SubConn]).count x.SubConn : Int)) := by
  have hW : 0 < total init := total_pos init hne hpos
  obtain ⟨y1, hy1, hmax, hpick⟩ := Pick_spec { conns := afterPicks init t rs }
    (by simp [afterPicks, hne])
    (by rw [SubConn_afterPicks]; exact hnd)
    (by
      intro c hc
      obtain ⟨x, hx, rfl⟩ := (mem_afterPicks init t rs c).1 hc
      exact le_of_lt (hpos x hx))
    (by rw [total_afterPicks]; exact hWlt)
    (by
      intro c hc
      obtain ⟨x, hx, rfl⟩ := (mem_afterPicks init t rs c).1 hc
      have h1 := hlow x hx
      have h2 := hpos x hx
      constructor
      · show -(2 ^ 63) ≤ ((t : Int) + 1) * x.weight
          - total init * (rs.count x.SubConn : Int) + x.weight
        linarith
      · exact hr x hx)
  obtain ⟨y, hy, rfl⟩ := (mem_afterPicks init t rs y1).1 hy1
  have hmax2 : ∀ x ∈ init,
      ((t : Int) + 2) * x.weight - total init * (rs.count x.SubConn : Int)
        ≤ ((t : Int) + 2) * y.weight - total init * (rs.count y.SubConn : Int) := by
    intro x hx
    have h1 := hmax _ ((mem_afterPicks init t rs _).2 ⟨x, hx, rfl⟩)
    have h2 : ((t : Int) + 1) * x.weight - total init * (rs.count x.SubConn : Int) + x.weight
        ≤ ((t : Int) + 1) * y.weight - total init * (rs.count y.SubConn : Int) + y.weight := h1
    linarith
  have hkey : 0 < ((t : Int) + 2) * y.weight - total init * (rs.count y.SubConn : Int) := by
    by_contra hcon
    have hall : ∀ x ∈ init,
        ((t : Int) + 2) * x.weight - total init * (rs.count x.SubConn : Int) ≤ 0 :=
      fun x hx => le_trans (hmax2 x hx) (not_lt.1 hcon)
    have h1 := sum_nonpos_of_forall init _ hall
    rw [sum_keys init hnd t rs hlen hrs] at h1
    nlinarith
  have hcount : ∀ x : weightConn, (((rs ++ [y.SubConn]).count x.SubConn : Nat) : Int)
      = (rs.count x.SubConn : Int) + (if x.SubConn = y.SubConn then 1 else 0) := by
    intro x
    rw [List.count_append, List.count_singleton]
    by_cases h : x.SubConn = y.SubConn
    · simp [h]
    · have h2 : ¬ y.SubConn = x.SubConn := fun e => h e.symm
      simp [h, h2]
  refine ⟨y, hy, hmax2, ?_, ?_, ?_⟩
  · rw [hpick]
    refine Prod.ext rfl ?_
    refine congrArg Picker.mk ?_
    show (afterPicks init t rs).map _ = afterPicks init (t + 1) (rs ++ [y.SubConn])
    rw [total_afterPicks]
    unfold afterPicks
    rw [List.map_map]
    apply List.map_congr_left
    intro x hx
    have h3 := hr x hx
    simp only [Function.comp]
    refine congrArg (fun v => ({ x with currentWeight := v } : weightConn)) ?_
    rw [hcount x]
    by_cases h : x.SubConn = y.SubConn
    · have hxy : x = y := List.inj_on_of_nodup_map hnd hx hy h
      have hk2 : 0 < ((t : Int) + 1) * x.weight - total init * (rs.count x.SubConn : Int)
          + x.weight := by
        rw [hxy]
        linarith
      rw [if_pos h, if_pos h, wrapInt_signed _ (by linarith) (by linarith)]
      push_cast
      ring
    · rw [if_neg h, if_neg h]
      push_cast
      ring
  · intro r hr
    rcases List.mem_append.1 hr with h | h
    · exact hrs r h
    · have : r = y.SubConn := by simpa using h
      rw [this]
      exact List.mem_map.2 ⟨y, hy, rfl⟩
  · intro x hx
    have h1 := hlow x hx
    have h2 := hpos x hx
    rw [hcount x]
    by_cases h : x.SubConn = y.SubConn
    · have hxy : x = y := List.inj_on_of_nodup_map hnd hx hy h
      subst hxy
      rw [if_pos rfl]
      push_cast
      linarith
    · rw [if_neg h]
      push_cast
      linarith

theorem sum_weight_sub_count (init : List weightConn)
    (hnd : (init.map (fun c => c.SubConn)).Nodup) (rs : List Nat)
    (hrs : ∀ r ∈ rs, r ∈ init.map (fun c => c.SubConn)) :
    (init.map (fun x => x.weight - (rs.count x.SubConn : Int))).sum
      = total init - (rs.length : Int) := by
  have h := sum_map_linear init 1 1 (fun x => x.weight)
    (fun x => ((rs.count x.SubConn : Nat) : Int))
  rw [sum_count init hnd rs hrs] at h
  simp only [one_mul] at h
  exact h

/-- The pick that brings the number of picks to the total: every connection has
then been returned as often as its weight says, and the connections are the
initial ones again. -/
theorem Pick_last (init : List weightConn) (hne : init ≠ [])
    (hnd : (init.map (fun c => c.SubConn)).Nodup)
    (hpos : ∀ x ∈ init, 0 < x.weight)
    (hWlt : total init < 2 ^ 63)
    (hcw : ∀ x ∈ init, x.currentWeight = x.weight)
    (t : Nat) (rs : List Nat) (hlen : rs.length = t)
    (hrs : ∀ r ∈ rs, r ∈ init.map (fun c => c.SubConn))
    (hlow : ∀ x ∈ init,
      - total init < ((t : Int) + 1) * x.weight - total init * (rs.count x.SubConn : Int))
    (hr : ∀ x ∈ init,
      ((t : Int) + 1) * x.weight - total init * (rs.count x.SubConn : Int) + x.weight
        < 2 ^ 63)
    (ht : (t : Int) + 1 = total init) :
    ∃ y ∈ init,
      Picker.Pick { conns := afterPicks init t rs } = (Except.ok y.SubConn, { conns := init }) ∧
      ∀ x ∈ init, (((rs ++ [y.SubConn]).count x.SubConn : Nat) : Int) = x.weight := by
  have hW : 0 < total init := total_pos init hne hpos
  obtain ⟨y, hy, hmax, hpick, hrs2, _⟩ :=
    Pick_afterPicks init hne hnd hpos hWlt t rs hlen hrs hlow hr
  have hwle : ∀ x ∈ init, x.weight ≤ total init :=
    weight_le_total init (fun x hx => le_of_lt (hpos x hx))
  have hle : ∀ x ∈ init, (rs.count x.SubConn : Int) ≤ x.weight := by
    intro x hx
    have h1 := hlow x hx
    rw [ht] at h1
    by_contra hc
    have h2 : 0 ≤ total init * ((rs.count x.SubConn : Int) - x.weight - 1) :=
      mul_nonneg (le_of_lt hW) (by omega)
    nlinarith
  have hylt : (rs.count y.SubConn : Int) < y.weight := by
    by_contra hc
    have hyeq : (rs.count y.SubConn : Int) = y.weight := le_antisymm (hle y hy) (not_lt.1 hc)
    have hsum := sum_weight_sub_count init hnd rs hrs
    rw [hlen] at hsum
    have hlt : (init.map (fun _ => (0 : Int))).sum
        < (init.map (fun x => x.weight - (rs.count x.SubConn : Int))).sum := by
      rw [hsum]
      have : (init.map (fun _ => (0 : Int))).sum = 0 := by simp
      rw [this]
      omega
    obtain ⟨x, hx, hxpos⟩ := List.exists_lt_of_sum_lt _ _ hlt
    have h1 := hmax x hx
    rw [hyeq] at h1
    have h2 := hwle y hy
    have h3 := hpos x hx
    have h4 : 0 ≤ total init * (x.weight - (rs.count x.SubConn : Int) - 1) :=
      mul_nonneg (le_of_lt hW) (by omega)
    have h5 : (t : Int) + 2 = total init + 1 := by omega
    rw [h5] at h1
    nlinarith
  have hcount : ∀ x : weightConn, (((rs ++ [y.SubConn]).count x.SubConn : Nat) : Int)
      = (rs.count x.SubConn : Int) + (if x.SubConn = y.SubConn then 1 else 0) := by
    intro x
    rw [List.count_append, List.count_singleton]
    by_cases h : x.SubConn = y.SubConn
    · simp [h]
    · have h2 : ¬ y.SubConn = x.SubConn := fun e => h e.symm
      simp [h, h2]
  have hle2 : ∀ x ∈ init,
      0 ≤ x.weight - (((rs ++ [y.SubConn]).count x.SubConn : Nat) : Int) := by
    intro x hx
    rw [hcount x]
    by_cases h : x.SubConn = y.SubConn
    · have hxy : x = y := List.inj_on_of_nodup_map hnd hx hy h
      subst hxy
      rw [if_pos rfl]
      omega
    · rw [if_neg h]
      have := hle x hx
      omega
  have hsum2 := sum_weight_sub_count init hnd (rs ++ [y.SubConn]) hrs2
  have hlen2 : ((rs ++ [y.SubConn]).length : Int) = total init := by
    rw [List.length_append, List.length_singleton, hlen]
    push_cast
    exact ht
  rw [hlen2, sub_self] at hsum2
  have hall : ∀ x ∈ init, (((rs ++ [y.SubConn]).count x.SubConn : Nat) : Int) = x.weight := by
    intro x hx
    have h1 : x.weight - (((rs ++ [y.SubConn]).count x.SubConn : Nat) : Int)
        ≤ (init.map (fun x =>
            x.weight - (((rs ++ [y.SubConn]).count x.SubConn : Nat) : Int))).sum := by
      apply List.single_le_sum
      · intro v hv
        obtain ⟨z, hz, rfl⟩ := List.mem_map.1 hv
        exact hle2 z hz
      · exact List.mem_map.2 ⟨x, hx, rfl⟩
    have h2 := hle2 x hx
    rw [hsum2] at h1
    omega
  refine ⟨y, hy, ?_, hall⟩
  rw [hpick]
  refine Prod.ext rfl ?_
  refine congrArg Picker.mk ?_
  unfold afterPicks
  conv_rhs => rw [← List.map_id init]
  apply List.map_congr_left
  intro x hx
  have h1 := hall x hx
  have h2 := hcw x hx
  have h3 : (((t + 1 : Nat) : Int) + 1) * x.weight
      - total init * (((rs ++ [y.SubConn]).count x.SubConn : Nat) : Int) = x.currentWeight := by
    rw [h1, h2]
    push_cast
    rw [ht]
    ring
  rw [h3]
  rfl

/-- No addition of a weight leaves the range of `int` in the state that `t`
picks have left, either because the total times the number of connections plus
one is in range, or because the additions of the picks to come are. -/
theorem range_afterPicks (init : List weightConn)
    (hnd : (init.map (fun c => c.SubConn)).Nodup)
    (hpos : ∀ x ∈ init, 0 < x.weight)
    (k t : Nat) (rs : List Nat) (hlen : rs.length = t)
    (hrs : ∀ r ∈ rs, r ∈ init.map (fun c => c.SubConn))
    (hlow : ∀ x ∈ init,
      - total init < ((t : Int) + 1) * x.weight - total init * (rs.count x.SubConn : Int))
    (hrange : ((init.length : Int) + 1) * total init < 2 ^ 63 ∨
      ∀ j : Nat, j ≤ k →
        ∀ c ∈ (Picker.picks j { conns := afterPicks init t rs }).2.conns,
          c.currentWeight + c.weight < 2 ^ 63) :
    ∀ x ∈ init,
      ((t : Int) + 1) * x.weight - total init * (rs.count x.SubConn : Int) + x.weight
        < 2 ^ 63 := by
  intro x hx
  rcases hrange with hA | hB
  · have h1 := currentWeight_le init hnd t rs hlen hrs hlow x hx
    have h2 := weight_le_total init (fun x hx => le_of_lt (hpos x hx)) x hx
    have h3 : (init.length : Int) * total init + total init < 2 ^ 63 := by
      rw [← add_one_mul]
      exact hA
    linarith
  · exact hB 0 (Nat.zero_le _) _ ((mem_afterPicks init t rs _).2 ⟨x, hx, rfl⟩)

/-- The picks up to the total, from the state that `t` picks have left. -/
theorem picks_afterPicks (init : List weightConn) (hne : init ≠ [])
    (hnd : (init.map (fun c => c.SubConn)).Nodup)
    (hpos : ∀ x ∈ init, 0 < x.weight)
    (hWlt : total init < 2 ^ 63)
    (hcw : ∀ x ∈ init, x.currentWeight = x.weight) :
    ∀ (k t : Nat) (rs : List Nat), rs.length = t →
      (∀ r ∈ rs, r ∈ init.map (fun c => c.SubConn)) →
      (∀ x ∈ init,
        - total init < ((t : Int) + 1) * x.weight - total init * (rs.count x.SubConn : Int)) →
      (t : Int) + k + 1 = total init →
      (((init.length : Int) + 1) * total init < 2 ^ 63 ∨
        ∀ j : Nat, j ≤ k →
          ∀ c ∈ (Picker.picks j { conns := afterPicks init t rs }).2.conns,
            c.currentWeight + c.weight < 2 ^ 63) →
      ∃ rs2 : List Nat, rs2.length = k + 1 ∧
        Picker.picks (k + 1) { conns := afterPicks init t rs }
          = (rs2.map Except.ok, { conns := init }) ∧
        ∀ x ∈ init, (((rs ++ rs2).count x.SubConn : Nat) : Int) = x.weight := by
  intro k
  induction k with
  | zero =>
    intro t rs hlen hrs hlow ht hrange
    have hr := range_afterPicks init hnd hpos 0 t rs hlen hrs hlow hrange
    obtain ⟨y, _, hpick, hall⟩ := Pick_last init hne hnd hpos hWlt hcw t rs hlen hrs hlow hr
      (by push_cast at ht; omega)
    refine ⟨[y.SubConn], rfl, ?_, hall⟩
    simp [Picker.picks, hpick]
  | succ k ih =>
    intro t rs hlen hrs hlow ht hrange
    have hr := range_afterPicks init hnd hpos (k + 1) t rs hlen hrs hlow hrange
    obtain ⟨y, _, _, hpick, hrs2, hlow2⟩ :=
      Pick_afterPicks init hne hnd hpos hWlt t rs hlen hrs hlow hr
    have hrange2 : ((init.length : Int) + 1) * total init < 2 ^ 63 ∨
        ∀ j : Nat, j ≤ k →
          ∀ c ∈ (Picker.picks j
              { conns := afterPicks init (t + 1) (rs ++ [y.SubConn]) }).2.conns,
            c.currentWeight + c.weight < 2 ^ 63 := by
      rcases hrange with hA | hB
      · exact Or.inl hA
      · refine Or.inr ?_
        intro j hj c hc
        refine hB (j + 1) (by omega) c ?_
        show c ∈ (Picker.picks j (Picker.Pick { conns := afterPicks init t rs }).2).2.conns
        rw [hpick]
        exact hc
    obtain ⟨rs3, hlen3, hpicks, hall⟩ := ih (t + 1) (rs ++ [y.SubConn])
      (by simp [hlen]) hrs2 hlow2 (by push_cast at ht ⊢; omega) hrange2
    refine ⟨y.SubConn :: rs3, by simp [hlen3], ?_, ?_⟩
    · rw [Picker.picks, hpick]
      simp only [hpicks, List.map_cons]
    · intro x hx
      have := hall x hx
      rw [List.append_assoc] at this
      exact this

/-- What `Build` makes of ready sub-connections that all carry a weight: one
connection for each, in the order of the range, with that weight as weight and
as current weight. -/
theorem Build_conns (readySCs : List (Nat × Int)) :
    (Build (readySCs.map (fun sc => (sc.1, some sc.2)))).conns
      = readySCs.map (fun sc =>
          { SubConn := sc.1, weight := sc.2, currentWeight := sc.2, available := false }) := by
  unfold Build
  rw [List.map_map]
  rfl

/-- C30: a picker built over a non-empty list of ready sub-connections, distinct,
each with a positive weight in its metadata; `total` is the sum of these
weights.  The arithmetic of `Pick` stays within the range of `int`: either
`total` times the number of sub-connections plus one is in range, which bounds
every current weight, or `total` is in range and so is every addition of a
weight to a current weight in the states the round goes through.  The picker
holds one connection for each sub-connection, with its weight as weight and as
current weight.  The first `total` calls of `Pick` return no error, return each
sub-connection exactly as many times as its weight says, and leave the picker as
it was built, every current weight included.  `Pick` on a picker without
connections returns `ErrNoSubConnAvailable`. -/
theorem Pick_weighted_round_robin (readySCs : List (Nat × Int))
    (hne : readySCs ≠ [])
    (hnd : (readySCs.map (fun sc => sc.1)).Nodup)
    (hpos : ∀ sc ∈ readySCs, 0 < sc.2)
    (hb : ((readySCs.length : Int) + 1) * (readySCs.map (fun sc => sc.2)).sum < 2 ^ 63 ∨
      ((readySCs.map (fun sc => sc.2)).sum < 2 ^ 63 ∧
        ∀ t : Nat, (t : Int) < (readySCs.map (fun sc => sc.2)).sum →
          ∀ c ∈ (Picker.picks t
              (Build (readySCs.map (fun sc => (sc.1, some sc.2))))).2.conns,
            c.currentWeight + c.weight < 2 ^ 63)) :
    (Build (readySCs.map (fun sc => (sc.1, some sc.2)))).conns
      = readySCs.map (fun sc =>
          { SubConn := sc.1, weight := sc.2, currentWeight := sc.2, available := false }) ∧
    (∃ rs : List Nat,
      (rs.length : Int) = (readySCs.map (fun sc => sc.2)).sum ∧
      Picker.picks rs.length (Build (readySCs.map (fun sc => (sc.1, some sc.2))))
        = (rs.map Except.ok, Build (readySCs.map (fun sc => (sc.1, some sc.2)))) ∧
      ∀ sc ∈ readySCs, ((rs.count sc.1 : Nat) : Int) = sc.2) ∧
    (Build []).Pick = (Except.error ErrNoSubConnAvailable, Build []) := by
  refine ⟨Build_conns readySCs, ?_, rfl⟩
  have hconns := Build_conns readySCs
  have hBuild : Build (readySCs.map (fun sc => (sc.1, some sc.2)))
      = { conns := (Build (readySCs.map (fun sc => (sc.1, some sc.2)))).conns } := rfl
  generalize hinit : (Build (readySCs.map (fun sc => (sc.1, some sc.2)))).conns = init
    at hconns hBuild
  have hmem : ∀ x ∈ init, ∃ sc ∈ readySCs, x
      = { SubConn := sc.1, weight := sc.2, currentWeight := sc.2, available := false } := by
    intro x hx
    rw [hconns] at hx
    obtain ⟨sc, hsc, rfl⟩ := List.mem_map.1 hx
    exact ⟨sc, hsc, rfl⟩
  have hne2 : init ≠ [] := by
    rw [hconns]
    simp [hne]
  have hnd2 : (init.map (fun c => c.SubConn)).Nodup := by
    rw [hconns, List.map_map]
    exact hnd
  have hpos2 : ∀ x ∈ init, 0 < x.weight := by
    intro x hx
    obtain ⟨sc, hsc, rfl⟩ := hmem x hx
    exact hpos sc hsc
  have hcw : ∀ x ∈ init, x.currentWeight = x.weight := by
    intro x hx
    obtain ⟨sc, _, rfl⟩ := hmem x hx
    rfl
  have htotal : total init = (readySCs.map (fun sc => sc.2)).sum := by
    unfold total
    rw [hconns, List.map_map]
    rfl
  have hlength : init.length = readySCs.length := by
    rw [hconns, List.length_map]
  have hW : 0 < total init := total_pos init hne2 hpos2
  have hWlt : total init < 2 ^ 63 := by
    rcases hb with hA | hB
    · rw [← hlength, ← htotal] at hA
      have h1 : (0 : Int) ≤ (init.length : Int) := Int.natCast_nonneg _
      have h2 : (init.length : Int) * total init + total init < 2 ^ 63 := by
        rw [← add_one_mul]
        exact hA
      have h3 : 0 ≤ (init.length : Int) * total init := mul_nonneg h1 (le_of_lt hW)
      linarith
    · rw [htotal]
      exact hB.1
  have hstart : afterPicks init 0 [] = init := by
    unfold afterPicks
    conv_rhs => rw [← List.map_id init]
    apply List.map_congr_left
    intro x hx
    have h2 := hcw x hx
    have h3 : (((0 : Nat) : Int) + 1) * x.weight
        - total init * ((([] : List Nat).count x.SubConn : Nat) : Int)
        = x.currentWeight := by
      rw [h2]
      simp
    rw [h3]
    rfl
  obtain ⟨k, hk⟩ : ∃ k : Nat, (total init).toNat = k + 1 := by
    refine ⟨(total init).toNat - 1, ?_⟩
    omega
  have hk2 : ((k : Int) + 1) = total init := by
    have := Int.toNat_of_nonneg (le_of_lt hW)
    omega
  have hrange : ((init.length : Int) + 1) * total init < 2 ^ 63 ∨
      ∀ j : Nat, j ≤ k →
        ∀ c ∈ (Picker.picks j { conns := afterPicks init 0 [] }).2.conns,
          c.currentWeight + c.weight < 2 ^ 63 := by
    rcases hb with hA | hB
    · left
      rw [hlength, htotal]
      exact hA
    · right
      intro j hj c hc
      have hB2 := hB.2
      rw [hBuild] at hB2
      rw [hstart] at hc
      refine hB2 j ?_ c hc
      rw [← htotal]
      omega
  obtain ⟨rs, hlen, hpicks, hall⟩ :=
    picks_afterPicks init hne2 hnd2 hpos2 hWlt hcw k 0 [] rfl
      (by simp)
      (by
        intro x hx
        have := hpos2 x hx
        simp
        linarith)
      (by push_cast; omega)
      hrange
  rw [hstart] at hpicks
  refine ⟨rs, ?_, ?_, ?_⟩
  · rw [hlen, ← htotal]
    push_cast
    exact hk2
  · rw [hBuild, hlen]
    exact hpicks
  · intro sc hsc
    have := hall { SubConn := sc.1, weight := sc.2, currentWeight := sc.2, available := false }
      (by rw [hconns]; exact List.mem_map.2 ⟨sc, hsc, rfl⟩)
    simpa using this

/-- Witness of C30: two sub-connections with the weights 2 and 1. -/
theorem Pick_weighted_round_robin_witness :
    (Build [(1, some 2), (2, some 1)]).conns
      = [{ SubConn := 1, weight := 2, currentWeight := 2, available := false },
         { SubConn := 2, weight := 1, currentWeight := 1, available := false }] ∧
    (∃ rs : List Nat,
      (rs.length : Int) = 3 ∧
      Picker.picks rs.length (Build [(1, some 2), (2, some 1)])
        = (rs.map Except.ok, Build [(1, some 2), (2, some 1)]) ∧
      ∀ sc ∈ [((1 : Nat), (2 : Int)), (2, 1)], ((rs.count sc.1 : Nat) : Int) = sc.2) ∧
    (Build []).Pick = (Except.error ErrNoSubConnAvailable, Build []) :=
  Pick_weighted_round_robin [(1, 2), (2, 1)] (by decide) (by decide) (by decide)
    (Or.inl (by decide))

end wrr
